import Mathlib

/-!
HP5 level layout and build of `cuhpmc::AbstractIsoSurface`.

A shallow embedding of the constructor of `AbstractIsoSurface`
(`src/cuhpmc/src/AbstractIsoSurface.cpp`) and theorems about the layout it
computes: cell and chunk counts, the padded leaf count, the level-size table,
the kernel-class boundaries and the offset table.

`uint` values are natural numbers; every `uint` operation whose result can
leave the 32-bit range is reduced modulo `2^32`.  The level indices
(`m_hp5_levels`, the `first_*_level` boundaries and the loop counters) are
computed with plain natural-number arithmetic: `m_hp5_levels` is at least 4,
so none of the subtractions on them can wrap.

Further down the file models the rest of the class: the CUDA calls of the
constructor, `triangles()`, and `buildNonIndexed` as the sequence of kernel
launches it issues with their pointer arguments.  The kernels and the
traversal code are not among the sources; where a statement needs what they
compute, it is modelled from the specification (one reduction step sums 5
children; traversal descends into the first child whose sum exceeds the
remaining index), and each such definition says so.  The namespace `glhpmc`
holds the cell-count accessors of `HPMCIsoSurface`, the entry points of
`PublicAPI.cpp` with the GL state they save and restore and the GL calls they
issue, and `build`, `count` and `configure` of `HPMCHistoPyramid` as GL call
sequences over the members they read and write; `GLsizei` values are integers
reduced to the 32-bit signed range where they can leave it.  The namespace
`hpmc` holds `remapCode` and the vertex count table of `HPMCcreateConstants`
(`src/hpmc/src/constants.cpp`), with `HPMC_triangle_table` as a parameter.

The only floating-point expression of the constructor,
`(uint)ceilf( log2f( (float)m_hp5_input_N )/log2f(5.f) )`,
is not evaluated here: its value is the argument `rawLevels` of the model.
The universal theorems hold for every value of `rawLevels`.  The concrete
layouts below pass the value of `ceil(log5(m_hp5_input_N))`: 5 for 800 leaf
elements (`log5(800) = 4.15..`), 11 for 19468800 (`10.42..`) and 14 for
4294967200 (`13.78..`).
-/

namespace cuhpmc

/-! ## 32-bit unsigned arithmetic -/

/-- Sum of two `uint` values. -/
def uadd (a b : Nat) : Nat := (a + b) % 4294967296

/-- Difference of two `uint` values. -/
def usub (a b : Nat) : Nat := (a + 4294967296 - b) % 4294967296

/-- Product of two `uint` values. -/
def umul (a b : Nat) : Nat := (a * b) % 4294967296

/-! ## Data model -/

/-- The CUDA vector type `uint3`. -/
structure uint3 where
  x : Nat
  y : Nat
  z : Nat
deriving DecidableEq, Repr

/-- The sample counts of `AbstractField` (`width()`, `height()`, `depth()`). -/
structure AbstractField where
  m_width : Nat
  m_height : Nat
  m_depth : Nat
deriving DecidableEq, Repr

/-- The layout members of `AbstractIsoSurface` set by its constructor. -/
structure AbstractIsoSurface where
  m_cells : uint3
  m_hp5_chunks : uint3
  m_hp5_input_N : Nat
  m_hp5_levels : Nat
  m_hp5_first_single_level : Nat
  m_hp5_first_double_level : Nat
  m_hp5_first_triple_level : Nat
  m_hp5_level_sizes : List Nat
  m_hp5_offsets : List Nat
  m_hp5_size : Nat
deriving DecidableEq, Repr

/-! ## The constructor, statement by statement -/

/-- Lines 43-45: `m_cells = make_uint3( width-1, height-1, depth-1 )`. -/
def cellsOf (field : AbstractField) : uint3 :=
  ⟨usub field.m_width 1, usub field.m_height 1, usub field.m_depth 1⟩

/-- Lines 47-49: `m_hp5_chunks = ( (x+30)/31, (y+4)/5, (z+4)/5 )`. -/
def chunksOf (cells : uint3) : uint3 :=
  ⟨uadd cells.x 30 / 31, uadd cells.y 4 / 5, uadd cells.z 4 / 5⟩

/-- Line 52: `m_hp5_input_N = 800*chunks.x*chunks.y*chunks.z`. -/
def inputNOf (chunks : uint3) : Nat :=
  umul (umul (umul 800 chunks.x) chunks.y) chunks.z

/-- Lines 54-57: the level count, clamped from below to 4; `rawLevels` is the
value of `(uint)ceilf( log2f( (float)m_hp5_input_N )/log2f(5.f) )`. -/
def levelsOf (rawLevels : Nat) : Nat :=
  if rawLevels < 4 then 4 else rawLevels

/-- Lines 58-71: `m_hp5_first_triple_level` (with `m_hp5_first_single_level = 3`). -/
def firstTripleOf (levels : Nat) : Nat :=
  if 3 + 3 ≤ levels then levels - 3 else levels

/-- Lines 72-74: `m_hp5_first_double_level`. -/
def firstDoubleOf (firstTriple : Nat) : Nat :=
  firstTriple - 2 * ((firstTriple - 3) / 2)

/-- Body of the loop of lines 81-84: store `N` at index `levels-1-l`, then
`N = (N+4)/5`. -/
def sizeStep (levels : Nat) (st : List Nat × Nat) (l : Nat) : List Nat × Nat :=
  (st.1.set (levels - 1 - l) st.2, uadd st.2 4 / 5)

/-- Lines 77 and 80-84: the level-size table. -/
def levelSizesOf (levels N : Nat) : List Nat :=
  ((List.range levels).foldl (sizeStep levels) (List.replicate levels 0, N)).1

/-- The addend `5*32*((size+(A-1))/A)` of lines 92, 96 and 100. -/
def paddedBlocks (size A : Nat) : Nat :=
  umul 160 (uadd size (A - 1) / A)

/-- Body of the three loops of lines 90-101: `m_hp5_offsets[l] = m_hp5_size`,
then `m_hp5_size += 5*32*((m_hp5_level_sizes[l]+(A-1))/A)` with `A = 160` in
the first loop and `A = 800` in the other two. -/
def offsetStep (sizes : List Nat) (A : Nat) (st : List Nat × Nat) (l : Nat) :
    List Nat × Nat :=
  (st.1.set l st.2, uadd st.2 (paddedBlocks (sizes.getD l 0) A))

/-- One loop `for( l = a; l < b; l++ )` of lines 90-101. -/
def offsetLoop (sizes : List Nat) (A a b : Nat) (st : List Nat × Nat) :
    List Nat × Nat :=
  (List.range' a (b - a)).foldl (offsetStep sizes A) st

/-- Lines 78 and 86-101: the offset table and `m_hp5_size`. -/
def offsetsOf (sizes : List Nat) (levels firstDouble firstTriple : Nat) :
    List Nat × Nat :=
  let offs := (((List.replicate levels 0).set 0 1).set 1 2).set 2 7
  offsetLoop sizes 800 firstTriple levels
    (offsetLoop sizes 800 firstDouble firstTriple
      (offsetLoop sizes 160 3 firstDouble (offs, 32)))

/-- The constructor `AbstractIsoSurface::AbstractIsoSurface( field )`, up to
the layout printout (the allocations that follow do not touch the layout). -/
def AbstractIsoSurface.ctor (field : AbstractField) (rawLevels : Nat) :
    AbstractIsoSurface where
  m_cells := cellsOf field
  m_hp5_chunks := chunksOf (cellsOf field)
  m_hp5_input_N := inputNOf (chunksOf (cellsOf field))
  m_hp5_levels := levelsOf rawLevels
  m_hp5_first_single_level := 3
  m_hp5_first_double_level := firstDoubleOf (firstTripleOf (levelsOf rawLevels))
  m_hp5_first_triple_level := firstTripleOf (levelsOf rawLevels)
  m_hp5_level_sizes :=
    levelSizesOf (levelsOf rawLevels) (inputNOf (chunksOf (cellsOf field)))
  m_hp5_offsets :=
    (offsetsOf
      (levelSizesOf (levelsOf rawLevels) (inputNOf (chunksOf (cellsOf field))))
      (levelsOf rawLevels) (firstDoubleOf (firstTripleOf (levelsOf rawLevels)))
      (firstTripleOf (levelsOf rawLevels))).1
  m_hp5_size :=
    (offsetsOf
      (levelSizesOf (levelsOf rawLevels) (inputNOf (chunksOf (cellsOf field))))
      (levelsOf rawLevels) (firstDoubleOf (firstTripleOf (levelsOf rawLevels)))
      (firstTripleOf (levelsOf rawLevels))).2

/-- Element count of level `l`: `m_hp5_level_sizes[l]`. -/
def levelSize (s : AbstractIsoSurface) (l : Nat) : Nat :=
  s.m_hp5_level_sizes.getD l 0

/-- Offset of level `l`: `m_hp5_offsets[l]`. -/
def levelOffset (s : AbstractIsoSurface) (l : Nat) : Nat :=
  s.m_hp5_offsets.getD l 0

/-- The kernel classes named by the layout printout. -/
inductive KernelClass where
  | apex
  | single
  | double
  | triple
deriving DecidableEq, Repr

/-- Lines 108-121: the kernel class printed for level `i`. -/
def kernelClass (s : AbstractIsoSurface) (i : Nat) : KernelClass :=
  if i < s.m_hp5_first_single_level then KernelClass.apex
  else if i < s.m_hp5_first_double_level then KernelClass.single
  else if i < s.m_hp5_first_triple_level then KernelClass.double
  else KernelClass.triple

/-- The rounding unit of the offset loop that handles level `l`: 160 in the
loop over the single-class levels, 800 in the loops over the double- and
triple-class levels. -/
def levelUnit (s : AbstractIsoSurface) (l : Nat) : Nat :=
  if l < s.m_hp5_first_double_level then 160 else 800

/-- The amount the offset loops add to `m_hp5_size` for level `l`. -/
def levelAddend (s : AbstractIsoSurface) (l : Nat) : Nat :=
  paddedBlocks (levelSize s l) (levelUnit s l)

/-- Sum of `g l` over the levels `a <= l < b`. -/
def sumLevels (g : Nat → Nat) (a b : Nat) : Nat :=
  ((List.range' a (b - a)).map g).sum

/-- Footprint of level `l` in the backing store: the distance from its offset
to the next level's offset, or to `m_hp5_size` for the leaf level, in `uint`
arithmetic. -/
def levelFootprint (s : AbstractIsoSurface) (l : Nat) : Nat :=
  if l + 1 < s.m_hp5_levels then usub (levelOffset s (l + 1)) (levelOffset s l)
  else usub s.m_hp5_size (levelOffset s l)

/-- The half-open range `[offset(l), offset(l) + size(l))`. -/
def levelRange (s : AbstractIsoSurface) (l : Nat) : Finset Nat :=
  Finset.Ico (levelOffset s l) (levelOffset s l + levelSize s l)

/-- The half-open range `[offset(l), offset(l) + ceil(size(l)/5))` of the
5-entry groups of level `l`. -/
def levelGroupRange (s : AbstractIsoSurface) (l : Nat) : Finset Nat :=
  Finset.Ico (levelOffset s l) (levelOffset s l + (levelSize s l + 4) / 5)

/-- One loop body with an arbitrary addend `g l`. -/
def accumStep (g : Nat → Nat) (st : List Nat × Nat) (l : Nat) : List Nat × Nat :=
  (st.1.set l st.2, uadd st.2 (g l))

/-- The reduction `N = (N+4)/5` applied once per iteration of the loop of
lines 81-84. -/
def shrink (n : Nat) : Nat := uadd n 4 / 5

/-! ## Guards against 32-bit overflow -/

/-- The accumulation of `m_hp5_size` in lines 89-101 stays below `2^32`. -/
def SizeFits (s : AbstractIsoSurface) : Prop :=
  32 + sumLevels (levelAddend s) 3 s.m_hp5_levels < 4294967296

instance (s : AbstractIsoSurface) : Decidable (SizeFits s) := by
  unfold SizeFits; infer_instance

/-- The product of line 52 and the rounding additions `+159`, `+799` of lines
92, 96 and 100 stay below `2^32`. -/
def PaddingFits (field : AbstractField) : Prop :=
  800 * (chunksOf (cellsOf field)).x * (chunksOf (cellsOf field)).y *
    (chunksOf (cellsOf field)).z + 799 < 4294967296

instance (field : AbstractField) : Decidable (PaddingFits field) := by
  unfold PaddingFits; infer_instance

/-- The product of line 52 stays below `2^32`. -/
def LeafFits (field : AbstractField) : Prop :=
  800 * (chunksOf (cellsOf field)).x * (chunksOf (cellsOf field)).y *
    (chunksOf (cellsOf field)).z < 4294967296

instance (field : AbstractField) : Decidable (LeafFits field) := by
  unfold LeafFits; infer_instance

/-- No `uint` operation of lines 43-49 wraps: every sample count is at least 1
and the rounding additions `+30`, `+4`, `+4` stay below `2^32`. -/
def CellsFit (field : AbstractField) : Prop :=
  (1 ≤ field.m_width ∧ field.m_width - 1 + 30 < 4294967296) ∧
  (1 ≤ field.m_height ∧ field.m_height - 1 + 4 < 4294967296) ∧
  (1 ≤ field.m_depth ∧ field.m_depth - 1 + 4 < 4294967296)

instance (field : AbstractField) : Decidable (CellsFit field) := by
  unfold CellsFit; infer_instance

/-- The grid has at least one cell along each axis. -/
def HasCells (field : AbstractField) : Prop :=
  2 ≤ field.m_width ∧ 2 ≤ field.m_height ∧ 2 ≤ field.m_depth

instance (field : AbstractField) : Decidable (HasCells field) := by
  unfold HasCells; infer_instance

/-- No 32-bit overflow anywhere in the layout computation. -/
def LayoutFits (field : AbstractField) (rawLevels : Nat) : Prop :=
  CellsFit field ∧ PaddingFits field ∧ SizeFits (AbstractIsoSurface.ctor field rawLevels)

instance (field : AbstractField) (rawLevels : Nat) : Decidable (LayoutFits field rawLevels) := by
  unfold LayoutFits; infer_instance

/-! ## The surface object, `triangles` and `buildNonIndexed` -/

/-- The dynamic type of `m_field`, as tested by the two `dynamic_cast`s of
`buildNonIndexed`. -/
inductive FieldKind where
  | FieldGlobalMemUChar
  | GLFieldUCharBuffer
  | other
deriving DecidableEq, Repr

/-- The members of an `AbstractIsoSurface` object: the layout members set by
the constructor, the dynamic type of `m_field`, the stored iso-value `m_iso`
(a `float`, kept as its bit pattern: it is only stored, never computed with)
and the two words of the host mirror `m_hp5_top_h`. -/
structure IsoSurfaceObject where
  layout : AbstractIsoSurface
  m_field : FieldKind
  m_iso : Nat
  m_hp5_top_h : Nat × Nat
deriving DecidableEq, Repr

/-- The four CUDA runtime calls of the constructor (lines 129-149). -/
inductive CudaCall where
  | cudaMalloc (bytes : Nat)
  | cudaHostAlloc (bytes : Nat)
  | cudaHostGetDevicePointer
  | cudaEventCreateWithFlags
deriving DecidableEq, Repr

/-- The `cudaError_t` each of the four CUDA calls returns; 0 is `cudaSuccess`. -/
structure CudaResults where
  malloc : Nat
  hostAlloc : Nat
  hostGetDevicePointer : Nat
  eventCreate : Nat
deriving DecidableEq, Repr

/-- The only exception the constructor throws: `CUDAErrorException( error )`. -/
inductive CtorError where
  | CUDAErrorException (error : Nat)
deriving DecidableEq, Repr

/-- Outcome of the constructor: the CUDA calls it made, in order, and either
the exception thrown or the constructed object. -/
structure CtorResult where
  calls : List CudaCall
  result : Except CtorError IsoSurfaceObject

/-- The whole constructor (lines 39-150): the layout computation, then
`cudaMalloc( sizeof(uint)*m_hp5_size )`, `cudaHostAlloc( 2*sizeof(uint) )`,
the zeroing of the mirror, `cudaHostGetDevicePointer` and
`cudaEventCreateWithFlags`, each followed by `throw CUDAErrorException` when
it fails.  `iso0` is the value the uninitialised member `m_iso` happens to
hold. -/
def AbstractIsoSurface.construct (field : AbstractField) (kind : FieldKind)
    (rawLevels : Nat) (cuda : CudaResults) (iso0 : Nat) : CtorResult :=
  let layout := AbstractIsoSurface.ctor field rawLevels
  let c1 := [CudaCall.cudaMalloc (4 * layout.m_hp5_size)]
  if cuda.malloc ≠ 0 then ⟨c1, .error (.CUDAErrorException cuda.malloc)⟩
  else
    let c2 := c1 ++ [CudaCall.cudaHostAlloc (2 * 4)]
    if cuda.hostAlloc ≠ 0 then ⟨c2, .error (.CUDAErrorException cuda.hostAlloc)⟩
    else
      let c3 := c2 ++ [CudaCall.cudaHostGetDevicePointer]
      if cuda.hostGetDevicePointer ≠ 0 then
        ⟨c3, .error (.CUDAErrorException cuda.hostGetDevicePointer)⟩
      else
        let c4 := c3 ++ [CudaCall.cudaEventCreateWithFlags]
        if cuda.eventCreate ≠ 0 then ⟨c4, .error (.CUDAErrorException cuda.eventCreate)⟩
        else ⟨c4, .ok ⟨layout, kind, iso0, (0, 0)⟩⟩

/-- The four kernel launchers called by `buildNonIndexed`. -/
inductive Kernel where
  | run_hp5_buildup_base_triple_gb_ub
  | run_hp5_buildup_level_double
  | run_hp5_buildup_level_single
  | run_hp5_buildup_apex
deriving DecidableEq, Repr

/-- A device pointer argument relative to its base (`hp5_hp_d` or
`m_hp5_sb_d`): `base + m_hp5_offsets[index]` or `base + offset`. -/
inductive DevPtr where
  | table (index : Nat)
  | fixed (offset : Nat)
deriving DecidableEq, Repr

/-- The offset a pointer argument denotes; reading past the last entry of
`m_hp5_offsets` has no defined value. -/
def DevPtr.resolve (s : AbstractIsoSurface) : DevPtr → Option Nat
  | .table index => s.m_hp5_offsets[index]?
  | .fixed offset => some offset

/-- One kernel launch of `buildNonIndexed`: the launcher, its `hp5_hp_d`
pointers in argument order, its sideband output and input pointers, and the
index into `m_hp5_level_sizes` of its element-count argument. -/
structure Launch where
  kernel : Kernel
  hp_out : List DevPtr
  sb_out : Option DevPtr
  sb_in : Option DevPtr
  size_index : Nat
deriving DecidableEq, Repr

/-- Lines 180-191 and 197-208: the base launch. -/
def baseLaunch (s : AbstractIsoSurface) : Launch :=
  { kernel := .run_hp5_buildup_base_triple_gb_ub
    hp_out := [.table (s.m_hp5_levels - 3), .table (s.m_hp5_levels - 2),
               .table (s.m_hp5_levels - 1)]
    sb_out := some (.table (s.m_hp5_levels - 3))
    sb_in := none
    size_index := s.m_hp5_levels - 1 }

/-- Lines 215-220: the launch of the double-level loop at loop counter `i`. -/
def doubleLaunch (i : Nat) : Launch :=
  { kernel := .run_hp5_buildup_level_double
    hp_out := [.table (i - 2), .table (i - 1)]
    sb_out := some (.table (i - 2))
    sb_in := some (.table i)
    size_index := i - 1 }

/-- Lines 223-227: the launch of the single-level loop at loop counter `i`. -/
def singleLaunch (i : Nat) : Launch :=
  { kernel := .run_hp5_buildup_level_single
    hp_out := [.table (i - 1)]
    sb_out := some (.table (i - 1))
    sb_in := some (.table i)
    size_index := i - 1 }

/-- Lines 229-233: the apex launch, which receives `hp5_hp_d` itself,
`m_hp5_sb_d + 32` and `m_hp5_level_sizes[2]`, and writes `m_hp5_top_d`. -/
def apexLaunch : Launch :=
  { kernel := .run_hp5_buildup_apex
    hp_out := [.fixed 0]
    sb_out := none
    sb_in := some (.fixed 32)
    size_index := 2 }

/-- Line 214: `for( uint i = first_triple; i > first_double; i -= 2 )`,
started at `i`, with `fuel` bounding the number of iterations. -/
def doubleLoop (firstDouble : Nat) : (fuel i : Nat) → List Launch
  | 0, _ => []
  | fuel + 1, i =>
    if i > firstDouble then doubleLaunch i :: doubleLoop firstDouble fuel (i - 2) else []

/-- Line 222: `for( uint i = first_double; i > first_single; --i )`, started
at `i`, with `fuel` bounding the number of iterations. -/
def singleLoop (firstSingle : Nat) : (fuel i : Nat) → List Launch
  | 0, _ => []
  | fuel + 1, i =>
    if i > firstSingle then singleLaunch i :: singleLoop firstSingle fuel (i - 1) else []

/-- What `buildNonIndexed` does on the stream, in order. -/
inductive BuildOp where
  | mapFieldBuffer
  | launch (l : Launch)
  | unmapFieldBuffer
  | cudaEventRecord
deriving DecidableEq, Repr

/-- Outcome of `buildNonIndexed`: the object afterwards, the stream operations
issued, and the message of the `std::runtime_error` thrown, if any. -/
structure BuildResult where
  state : IsoSurfaceObject
  ops : List BuildOp
  error : Option String
deriving DecidableEq, Repr

/-- Lines 214-234: the reduction launches and the event record that follow the
base launch.  Each loop counter starts at most at `m_hp5_levels` and
decreases, so `m_hp5_levels` iterations of fuel are never used up. -/
def reductionOps (s : AbstractIsoSurface) : List BuildOp :=
  (doubleLoop s.m_hp5_first_double_level s.m_hp5_levels s.m_hp5_first_triple_level).map
      BuildOp.launch ++
    (singleLoop s.m_hp5_first_single_level s.m_hp5_levels s.m_hp5_first_double_level).map
      BuildOp.launch ++
    [BuildOp.launch apexLaunch, BuildOp.cudaEventRecord]

/-- Lines 172-235, `buildNonIndexed( iso, hp5_hp_d, case_d, stream )`: store
`iso`, dispatch on the dynamic type of the field for the base launch (or
throw), then run the reduction launches and record the event. -/
def IsoSurfaceObject.buildNonIndexed (s : IsoSurfaceObject) (iso : Nat) : BuildResult :=
  match s.m_field with
  | .FieldGlobalMemUChar =>
    { state := { s with m_iso := iso }
      ops := BuildOp.launch (baseLaunch s.layout) :: reductionOps s.layout
      error := none }
  | .GLFieldUCharBuffer =>
    { state := { s with m_iso := iso }
      ops := [BuildOp.mapFieldBuffer, BuildOp.launch (baseLaunch s.layout),
              BuildOp.unmapFieldBuffer] ++ reductionOps s.layout
      error := none }
  | .other =>
    { state := { s with m_iso := iso }
      ops := []
      error := some "Unsupported field type" }

/-- Some sample count is 0 or 1: the cell grid is empty or wraps around. -/
def Degenerate (field : AbstractField) : Prop :=
  field.m_width ≤ 1 ∨ field.m_height ≤ 1 ∨ field.m_depth ≤ 1

instance (field : AbstractField) : Decidable (Degenerate field) := by
  unfold Degenerate; infer_instance

/-- The kernel launches among the stream operations, in order. -/
def launchesOf : List BuildOp → List Launch
  | [] => []
  | .launch l :: ops => l :: launchesOf ops
  | _ :: ops => launchesOf ops

/-- The levels whose `hp5_hp_d` region a launch is handed: the table index of
each `hp5_hp_d + m_hp5_offsets[..]` argument, and for the bare `hp5_hp_d` of
the apex launch the levels the constructor prints as apex, whose offsets
1, 2, 7 lie in the reservation `[0, 32)`. -/
def levelsWritten (s : AbstractIsoSurface) (l : Launch) : List Nat :=
  l.hp_out.flatMap fun p =>
    match p with
    | .table index => [index]
    | .fixed _ => (List.range s.m_hp5_levels).filter
        fun i => kernelClass s i = KernelClass.apex

/-- The levels written during a build, in the order written: launch by
launch, and within a launch from its last `hp5_hp_d` argument to its first. -/
def writeOrder (s : AbstractIsoSurface) (ls : List Launch) : List Nat :=
  ls.flatMap fun l => (levelsWritten s l).reverse

/-- The sideband offset each launch after the first reads. -/
def sidebandInputs (s : AbstractIsoSurface) (ls : List Launch) : List (Option Nat) :=
  ls.tail.map fun l => l.sb_in.bind (DevPtr.resolve s)

/-- The sideband offset each launch before the last writes. -/
def sidebandOutputs (s : AbstractIsoSurface) (ls : List Launch) : List (Option Nat) :=
  ls.dropLast.map fun l => l.sb_out.bind (DevPtr.resolve s)

/-- The kernel launches of one `buildNonIndexed` call, in order. -/
def buildLaunches (s : IsoSurfaceObject) (iso : Nat) : List Launch :=
  launchesOf (s.buildNonIndexed iso).ops

end cuhpmc

namespace glhpmc

/-! ## `HPMCIsoSurface` accessors and the renderer entry points of the public API -/

/-- The cell-count members of `HPMCIsoSurface` (`IsoSurface.hpp`, lines
115-117). -/
structure HPMCIsoSurface where
  m_cells_x : Nat
  m_cells_y : Nat
  m_cells_z : Nat
deriving DecidableEq, Repr

/-- Line 94: `cellsX() const { return m_cells_x; }`. -/
def HPMCIsoSurface.cellsX (h : HPMCIsoSurface) : Nat := h.m_cells_x

/-- Line 97: `cellsY() const { return m_cells_x; }`. -/
def HPMCIsoSurface.cellsY (h : HPMCIsoSurface) : Nat := h.m_cells_x

/-- Line 100: `cellsZ() const { return m_cells_x; }`. -/
def HPMCIsoSurface.cellsZ (h : HPMCIsoSurface) : Nat := h.m_cells_x

/-- The four pieces of GL state the renderer entry points save:
`GL_VIEWPORT`, `GL_CURRENT_PROGRAM`, `GL_PIXEL_PACK_BUFFER_BINDING` and
`GL_FRAMEBUFFER_BINDING`. -/
structure GLState where
  viewport : Int × Int × Int × Int
  current_program : Nat
  pixel_pack_buffer_binding : Nat
  framebuffer_binding : Nat
deriving DecidableEq, Repr

/-- The traversal handle `HPMCIsoSurfaceRenderer`: the surface it refers to. -/
structure HPMCIsoSurfaceRenderer where
  m_handle : HPMCIsoSurface
deriving DecidableEq, Repr

/-- `PublicAPI.cpp`, lines 178-181 and 213-216: rebind the saved pixel-pack
buffer and framebuffer, reset the saved viewport and program. -/
def restoreState (old gl : GLState) : GLState :=
  { { { { gl with pixel_pack_buffer_binding := old.pixel_pack_buffer_binding } with
          framebuffer_binding := old.framebuffer_binding } with
        viewport := old.viewport } with
      current_program := old.current_program }

/-- `PublicAPI.cpp`, lines 161-183, `HPMCcreateIsoSurfaceRenderer( h )`; a
`NULL` handle is `none`.  `HPMCIsoSurface::untaint()` and the constructor of
`HPMCIsoSurfaceRenderer` are defined outside the sources at hand: `untaint`
gives the return value of `h->untaint()` and the GL state it leaves, and
`rendererCtor` the GL state the constructor leaves.  The result is the
returned pointer (`none` for `NULL`) and the GL state after the call. -/
def HPMCcreateIsoSurfaceRenderer (h : Option HPMCIsoSurface)
    (untaint : GLState → Bool × GLState) (rendererCtor : GLState → GLState)
    (gl : GLState) : Option HPMCIsoSurfaceRenderer × GLState :=
  match h with
  | none => (none, gl)
  | some handle =>
    let old := gl
    if !(untaint gl).1 then (none, (untaint gl).2)
    else (some ⟨handle⟩, rendererCtor (restoreState old (untaint gl).2))

/-- `PublicAPI.cpp`, lines 196-219, `HPMCisoSurfaceRendererShaderSource( th )`;
a `NULL` handle is `none`, `source` is `th->extractionSource()`, and `untaint`
is as for `HPMCcreateIsoSurfaceRenderer`.  The result is the returned string
(`none` for `NULL`) and the GL state after the call. -/
def HPMCisoSurfaceRendererShaderSource (th : Option HPMCIsoSurfaceRenderer)
    (source : String) (untaint : GLState → Bool × GLState) (gl : GLState) :
    Option String × GLState :=
  match th with
  | none => (none, gl)
  | some _ =>
    let old := gl
    if !(untaint gl).1 then (none, (untaint gl).2)
    else (some source, restoreState old (untaint gl).2)

/-- An `untaint()` that fails the way `HPMCHistoPyramid::configure` does on an
incomplete framebuffer: the framebuffer it bound last (here number 9) stays
bound and `false` is returned. -/
def untaintIncomplete (gl : GLState) : Bool × GLState :=
  (false, { gl with framebuffer_binding := 9 })

end glhpmc

namespace cuhpmc

/-! ## Pyramid values and traversal -/

/-- Modelled from the spec: the reduction kernels are not among the sources.
One reduction step: each output element is the sum of the 5 corresponding
input elements (elements past the end of a level count as 0). -/
def reduce5 (v : Nat → Nat) (n : Nat) : Nat :=
  v (5 * n) + v (5 * n + 1) + v (5 * n + 2) + v (5 * n + 3) + v (5 * n + 4)

/-- Number of output vertices of the cells before cell `n`. -/
def prefixSum (v : Nat → Nat) (n : Nat) : Nat :=
  ((List.range n).map v).sum

/-- Modelled from the spec: the traversal code is not among the sources.
Examine the children `base + j`, `base + j + 1`, .. of the current node in
order, subtracting each child's sum from `i` while `i` is at least that sum,
and stop at the first child whose sum exceeds the remaining `i`; the fifth
child is taken without a test.  Returns the child and the remaining index. -/
def pickChild (v : Nat → Nat) (base : Nat) : (fuel j i : Nat) → Nat × Nat
  | 0, j, i => (base + j, i)
  | fuel + 1, j, i =>
    if i < v (base + j) then (base + j, i)
    else pickChild v base fuel (j + 1) (i - v (base + j))

/-- Modelled from the spec: the traversal code is not among the sources.
Descend `k` levels from `node` with remaining index `i`; the level entered
first holds the leaf counts reduced `k - 1` times, the last one the leaf
counts themselves.  Returns the cell reached and the index left over. -/
def descend (leaf : Nat → Nat) : (k node i : Nat) → Nat × Nat
  | 0, node, i => (node, i)
  | k + 1, node, i =>
    descend leaf k (pickChild (reduce5^[k] leaf) (5 * node) 4 0 i).1
      (pickChild (reduce5^[k] leaf) (5 * node) 4 0 i).2

/-- Modelled from the spec: `enumerate(dense_index) -> (cell_id,
local_vertex_index)` on a pyramid of `levels` levels over the leaf counts
`leaf`, starting at the root. -/
def enumerate (levels : Nat) (leaf : Nat → Nat) (i : Nat) : Nat × Nat :=
  descend leaf levels 0 i

/-- The root total of a pyramid of `levels` levels: the sum of the (at most 5)
entries of level 0. -/
def rootTotal (levels : Nat) (leaf : Nat → Nat) : Nat :=
  (reduce5^[levels] leaf) 0

/-- Leaf counts of a small example: cell 3 yields 3 vertices, cell 7 yields 6,
every other cell none. -/
def sampleLeaf (c : Nat) : Nat :=
  if c = 3 then 3 else if c = 7 then 6 else 0

/-! ## The values a build leaves in device memory -/

/-- The entries of level `l` of a pyramid of `levels` levels over the leaf
counts `leaf`: the leaf counts reduced `levels - 1 - l` times. -/
def levelValues (levels : Nat) (leaf : Nat → Nat) (l : Nat) : Nat → Nat :=
  reduce5^[levels - 1 - l] leaf

/-- Modelled from the spec: the kernels are not among the sources, so device
memory is kept per region: `hp o` and `sb o` are the entries held by the
region of `hp5_hp_d` and of `m_hp5_sb_d` that starts at offset `o` (`none`
where this build has not produced a defined value), and `top` is the total
behind `m_hp5_top_d`. -/
structure DeviceMem where
  hp : Nat → Option (Nat → Nat)
  sb : Nat → Option (Nat → Nat)
  top : Option Nat

/-- The offsets of the levels `ls`; undefined when a level index lies past the
last entry of `m_hp5_offsets`. -/
def resolveLevels (s : AbstractIsoSurface) : List Nat → Option (List Nat)
  | [] => some []
  | i :: ls =>
    match s.m_hp5_offsets[i]?, resolveLevels s ls with
    | some o, some os => some (o :: os)
    | _, _ => none

/-- Modelled from the spec: the kernels are not among the sources.  A launch
stores its input entries in the lowest of the levels it is handed, and in
each level above the 5-sums of the level below. -/
def writeLevels (hp : Nat → Option (Nat → Nat)) :
    List Nat → (Nat → Nat) → Nat → Option (Nat → Nat)
  | [], _ => hp
  | o :: os, v => writeLevels (Function.update hp o (some v)) os (reduce5 v)

/-- Modelled from the spec: the kernels are not among the sources.  The input
of a launch: the per-cell counts `leaf` for the base launch, which evaluates
the field itself, and for every other launch the entries in the sideband
region its input pointer denotes. -/
def launchInput (s : AbstractIsoSurface) (leaf : Nat → Nat) (m : DeviceMem) (l : Launch) :
    Option (Nat → Nat) :=
  match l.sb_in with
  | none => some leaf
  | some p => (p.resolve s).bind m.sb

/-- Modelled from the spec: the kernels are not among the sources.  A launch
handed `k` levels fuses `k` single reductions: it writes its input and the
successive 5-sums into those levels, lowest level first, and passes the last
5-sums on, to its sideband output, or, for the apex launch, as the total to
`m_hp5_top_d`.  A launch with an undefined pointer or input has no defined
result. -/
def runLaunch (s : AbstractIsoSurface) (leaf : Nat → Nat) (m : DeviceMem) (l : Launch) :
    Option DeviceMem :=
  match launchInput s leaf m l, resolveLevels s (levelsWritten s l).reverse with
  | some v, some offs =>
    match l.sb_out with
    | none => some ⟨writeLevels m.hp offs v, m.sb, some ((reduce5^[offs.length] v) 0)⟩
    | some p =>
      match p.resolve s with
      | some o =>
        some ⟨writeLevels m.hp offs v,
          Function.update m.sb o (some (reduce5^[offs.length] v)), m.top⟩
      | none => none
  | _, _ => none

/-- The launches of a build run in order, from the memory contents `m`. -/
def runLaunches (s : AbstractIsoSurface) (leaf : Nat → Nat) :
    DeviceMem → List Launch → Option DeviceMem
  | m, [] => some m
  | m, l :: ls =>
    match runLaunch s leaf m l with
    | some m' => runLaunches s leaf m' ls
    | none => none

/-- Device memory after `buildNonIndexed`, started from the contents `m0`, for
a field whose cells have the vertex counts `leaf`. -/
def buildPyramid (s : IsoSurfaceObject) (iso : Nat) (leaf : Nat → Nat) (m0 : DeviceMem) :
    Option DeviceMem :=
  runLaunches s.layout leaf m0 (buildLaunches s iso)

/-- The state of device memory when the launches so far have filled the
levels from `i` on: each of these levels holds its entries, and the sideband
region at the offset of level `i` holds their 5-sums, the entries of level
`i - 1`. -/
def FrontierInv (s : AbstractIsoSurface) (leaf : Nat → Nat) (i : Nat) (m : DeviceMem) : Prop :=
  (∀ l, i ≤ l → l < s.m_hp5_levels →
    m.hp (levelOffset s l) = some (levelValues s.m_hp5_levels leaf l)) ∧
  m.sb (levelOffset s i) = some (reduce5 (levelValues s.m_hp5_levels leaf i))

/-- Every level has a table entry and distinct levels have distinct offsets. -/
def OffsetsDistinct (s : AbstractIsoSurface) : Prop :=
  (∀ l, l < s.m_hp5_levels → s.m_hp5_offsets[l]? = some (levelOffset s l)) ∧
  ∀ l l', l < s.m_hp5_levels → l' < s.m_hp5_levels → l ≠ l' →
    levelOffset s l ≠ levelOffset s l'

end cuhpmc

namespace hpmc

/-! ## Case codes and the vertex count table of `HPMCcreateConstants` -/

/-- `constants.cpp`, lines 42-50, the macro `remapCode( code )`, term by
term: bit `k` of the argument is extracted by `((code)>>k)&0x1` and put at the
position given by the left shift. -/
def remapCode (code : Nat) : Nat :=
  ((((code >>> 0) &&& 0x1) <<< 0) |||
   (((code >>> 1) &&& 0x1) <<< 1) |||
   (((code >>> 4) &&& 0x1) <<< 2) |||
   (((code >>> 5) &&& 0x1) <<< 3) |||
   (((code >>> 3) &&& 0x1) <<< 4) |||
   (((code >>> 2) &&& 0x1) <<< 5) |||
   (((code >>> 7) &&& 0x1) <<< 6) |||
   (((code >>> 6) &&& 0x1) <<< 7))

/-- Number of set bits among the 8 low bits of `code`. -/
def bitCount (code : Nat) : Nat :=
  ((List.range 8).map (fun k => (code >>> k) &&& 1)).sum

/-- The right-shift amounts of the eight terms of `remapCode`, listed by the
left-shift amount of the term: entry `d` is the bit that is moved to bit `d`. -/
def bitSource : List Nat := [0, 1, 4, 5, 3, 2, 7, 6]

/-- `constants.cpp`, lines 306-311: the loop
`for(count=0; count<16; count++) { if( row[count] == -1 ) break; }` over one
row of `HPMC_triangle_table`.  `fuel` is the number of iterations left (16 at
the start) and the result is `count` after the loop. -/
def countLoop (row : Nat → Int) : (fuel count : Nat) → Nat
  | 0, count => count
  | fuel + 1, count =>
    if row count = -1 then count else countLoop row fuel (count + 1)

/-- `constants.cpp`, lines 305-312, the body of the loop over `j`:
`tricount[ remapCode(j) ] = static_cast<GLfloat>( count )`.  The table
`HPMC_triangle_table` is declared outside the sources at hand and is a
parameter; the stored values are at most 16 and are kept as integers. -/
def tricountStep (HPMC_triangle_table : Nat → Nat → Int) (tricount : List Nat)
    (j : Nat) : List Nat :=
  tricount.set (remapCode j) (countLoop (HPMC_triangle_table j) 16 0)

/-- `constants.cpp`, lines 304-313: `vector<GLfloat> tricount( 256 )` filled
by `for(size_t j=0; j<256; j++)`. -/
def tricount (HPMC_triangle_table : Nat → Nat → Int) : List Nat :=
  (List.range 256).foldl (tricountStep HPMC_triangle_table) (List.replicate 256 0)

/-- The indices of `tricount` that the loop assigns, in the order of the
assignments. -/
def assignedIndices : List Nat :=
  (List.range 256).map remapCode

/-- In the words of the specification: the number of entries of a
16-entry row that precede the first `-1`, and 16 if the row has none. -/
def entriesBeforeTerminator (row : Nat → Int) : Nat :=
  (((List.range 16).map row).takeWhile (fun e => e != -1)).length

/-- A table row for a case with two triangles: six edge numbers, then the
terminator. -/
def sampleRow (count : Nat) : Int :=
  [0, 8, 3, 1, 9, 5].getD count (-1)

end hpmc

namespace cuhpmc

/-- The index into `m_hp5_offsets` that a pointer argument evaluates, if it
evaluates one. -/
def DevPtr.tableIndex : DevPtr → List Nat
  | .table index => [index]
  | .fixed _ => []

/-- The indices into `m_hp5_offsets` evaluated for the arguments of one
launch: those of the `hp5_hp_d` pointers, of the sideband output and of the
sideband input. -/
def Launch.offsetIndices (l : Launch) : List Nat :=
  l.hp_out.flatMap DevPtr.tableIndex ++ l.sb_out.toList.flatMap DevPtr.tableIndex ++
    l.sb_in.toList.flatMap DevPtr.tableIndex

/-- The indices into `m_hp5_offsets` and `m_hp5_level_sizes` evaluated for a
list of launches, launch by launch: the offset indices, then the index of the
element-count argument. -/
def tableIndices (ls : List Launch) : List Nat :=
  ls.flatMap fun l => l.offsetIndices ++ [l.size_index]

end cuhpmc

namespace glhpmc

/-! ## GL calls and `HPMCHistoPyramid` -/

/-- `glhpmc.hpp`, lines 295-324: the enumerators of `HPMCTarget`, in order. -/
inductive HPMCTarget where
  | HPMC_TARGET_GL20_GLSL110
  | HPMC_TARGET_GL21_GLSL120
  | HPMC_TARGET_GL30_GLSL130
  | HPMC_TARGET_GL31_GLSL140
  | HPMC_TARGET_GL32_GLSL150
  | HPMC_TARGET_GL33_GLSL330
  | HPMC_TARGET_GL40_GLSL400
  | HPMC_TARGET_GL41_GLSL410
  | HPMC_TARGET_GL42_GLSL420
  | HPMC_TARGET_GL43_GLSL430
deriving DecidableEq, Repr

/-- The integer value of an enumerator of `HPMCTarget`. -/
def HPMCTarget.index : HPMCTarget → Nat
  | .HPMC_TARGET_GL20_GLSL110 => 0
  | .HPMC_TARGET_GL21_GLSL120 => 1
  | .HPMC_TARGET_GL30_GLSL130 => 2
  | .HPMC_TARGET_GL31_GLSL140 => 3
  | .HPMC_TARGET_GL32_GLSL150 => 4
  | .HPMC_TARGET_GL33_GLSL330 => 5
  | .HPMC_TARGET_GL40_GLSL400 => 6
  | .HPMC_TARGET_GL41_GLSL410 => 7
  | .HPMC_TARGET_GL42_GLSL420 => 8
  | .HPMC_TARGET_GL43_GLSL430 => 9

/-- `glhpmc.hpp`, lines 326-332: the enumerators of `HPMCDebugBehaviour`. -/
inductive HPMCDebugBehaviour where
  | HPMC_DEBUG_NONE
  | HPMC_DEBUG_STDERR
  | HPMC_DEBUG_STDERR_VERBOSE
  | HPMC_DEBUG_KHR_DEBUG
  | HPMC_DEBUG_KHR_DEBUG_VERBOSE
deriving DecidableEq, Repr

/-- The state queries passed to `glGetIntegerv` in `PublicAPI.cpp`. -/
inductive GLParam where
  | GL_VIEWPORT
  | GL_CURRENT_PROGRAM
  | GL_PIXEL_PACK_BUFFER_BINDING
  | GL_FRAMEBUFFER_BINDING
deriving DecidableEq, Repr

/-- The texture parameters set in `HistoPyramid.cpp`. -/
inductive TexParam where
  | GL_TEXTURE_WRAP_S
  | GL_TEXTURE_WRAP_T
  | GL_TEXTURE_MIN_FILTER
  | GL_TEXTURE_MAG_FILTER
  | GL_TEXTURE_BASE_LEVEL
  | GL_TEXTURE_MAX_LEVEL
deriving DecidableEq, Repr

/-- The value of `GL_CLAMP` in the GL header. -/
def GL_CLAMP : Int := 0x2900

/-- The value of `GL_NEAREST` in the GL header. -/
def GL_NEAREST : Int := 0x2600

/-- The value of `GL_NEAREST_MIPMAP_NEAREST` in the GL header. -/
def GL_NEAREST_MIPMAP_NEAREST : Int := 0x2700

/-- The GL calls issued by `HistoPyramid.cpp`, `Logger.cpp` and
`PublicAPI.cpp`, with the arguments that vary.  Floating-point arguments
(`glUniform2f`) and constant arguments are not recorded, an `EXT` entry point
is recorded under the core name, `render` is
`m_constants->gpgpuQuad().render()`, and a framebuffer name read from
`m_fbos[m]` is `none` when `m` is past the end of `m_fbos`. -/
inductive GLCall where
  | glGetError
  | glGetIntegerv (pname : GLParam)
  | glActiveTexture (unit : Int)
  | glBindTexture (texture : Nat)
  | glTexImage2D (width height : Int)
  | glTexParameteri (pname : TexParam) (param : Int)
  | glGenerateMipmap
  | glUseProgram (program : Nat)
  | glUniform1i (location v0 : Int)
  | glUniform2f (location : Int)
  | glDeleteFramebuffers (n : Nat)
  | glGenFramebuffers (n : Nat)
  | glBindFramebuffer (framebuffer : Option Nat)
  | glFramebufferTexture2D (texture level : Nat)
  | glDrawBuffer
  | glCheckFramebufferStatus
  | glViewport (x y width height : Int)
  | render
  | glBindBuffer (buffer : Nat)
  | glGetTexImage (level : Int)
  | glGetBufferSubData
deriving DecidableEq, Repr

/-- What a call leaves behind: the returned value, the GL calls issued in
order, and the state afterwards. -/
structure Outcome (α σ : Type) where
  value : α
  calls : List GLCall
  state : σ
deriving DecidableEq, Repr

/-- The 32-bit signed integer (`GLsizei`, `int`) congruent to `z` modulo
`2^32`. -/
def wrapGLsizei (z : Int) : Int :=
  (z + 2147483648) % 4294967296 - 2147483648

/-- `1<<k` in `int` arithmetic.  The source leaves shift counts outside
`0..31` undefined; here they give the wrapped power of two. -/
def shiftOne (k : Int) : Int :=
  wrapGLsizei (2 ^ k.toNat)

/-- The members of `HPMCHistoPyramid` used by `build`, `count` and
`configure`; `m_target` is `m_constants->target()`. -/
structure HPMCHistoPyramid where
  m_target : HPMCTarget
  m_size : Int
  m_size_l2 : Int
  m_tex : Nat
  m_top_pbo : Nat
  m_fbos : List Nat
  m_reduce1_program : Nat
  m_reduce1_loc_delta : Int
  m_reduce1_loc_level : Int
  m_reduce1_loc_hp_tex : Int
  m_reducen_program : Nat
  m_reducen_loc_delta : Int
  m_reducen_loc_level : Int
  m_reducen_loc_hp_tex : Int
  m_top_count : Int
  m_top_count_updated : Bool
deriving DecidableEq, Repr

/-- The test `m_constants->target() < HPMC_TARGET_GL30_GLSL130`. -/
def HPMCHistoPyramid.glsl110 (hp : HPMCHistoPyramid) : Bool :=
  hp.m_target.index < HPMCTarget.HPMC_TARGET_GL30_GLSL130.index

/-- `HistoPyramid.cpp`, lines 204-220: the first reduction pass of `build`,
from `glActiveTexture` to the `render()` into `m_fbos[1]`. -/
def HPMCHistoPyramid.firstPass (hp : HPMCHistoPyramid) (tex_unit_a : Int) : List GLCall :=
  [.glActiveTexture tex_unit_a,
   .glBindTexture hp.m_tex,
   .glTexParameteri .GL_TEXTURE_BASE_LEVEL 0,
   .glTexParameteri .GL_TEXTURE_MAX_LEVEL 0,
   .glUseProgram hp.m_reduce1_program,
   .glUniform1i hp.m_reduce1_loc_hp_tex tex_unit_a] ++
  (if hp.glsl110 then
    [.glUniform2f hp.m_reduce1_loc_delta, .glBindFramebuffer hp.m_fbos[1]?]
   else
    [.glUniform1i hp.m_reduce1_loc_level 0, .glBindFramebuffer hp.m_fbos[1]?]) ++
  [.glViewport 0 0 (Int.tdiv hp.m_size 2) (Int.tdiv hp.m_size 2), .render]

/-- `HistoPyramid.cpp`, lines 233-242 and 248-252: the body of the loop over
`m` of `build`, in the GLSL 110 and the GLSL 130 variant. -/
def HPMCHistoPyramid.upperPass (hp : HPMCHistoPyramid) (m : Nat) : List GLCall :=
  if hp.glsl110 then
    [.glTexParameteri .GL_TEXTURE_BASE_LEVEL ((m : Int) - 1),
     .glTexParameteri .GL_TEXTURE_MAX_LEVEL ((m : Int) - 1),
     .glUniform2f hp.m_reducen_loc_delta,
     .glBindFramebuffer hp.m_fbos[m]?,
     .glViewport 0 0 (shiftOne (hp.m_size_l2 - m)) (shiftOne (hp.m_size_l2 - m)),
     .render]
  else
    [.glTexParameteri .GL_TEXTURE_MAX_LEVEL ((m : Int) - 1),
     .glUniform1i hp.m_reduce1_loc_level ((m : Int) - 1),
     .glBindFramebuffer hp.m_fbos[m]?,
     .glViewport 0 0 (shiftOne (hp.m_size_l2 - m)) (shiftOne (hp.m_size_l2 - m)),
     .render]

/-- `HistoPyramid.cpp`, lines 229-254: the passes for the levels 2 and up,
`for( GLsizei m=2; m<= m_size_l2; m++ )` after selecting `m_reducen_program`. -/
def HPMCHistoPyramid.upperPasses (hp : HPMCHistoPyramid) (tex_unit_a : Int) : List GLCall :=
  [.glUseProgram hp.m_reducen_program,
   .glUniform1i hp.m_reducen_loc_hp_tex tex_unit_a] ++
  (if hp.glsl110 then [] else [.glTexParameteri .GL_TEXTURE_BASE_LEVEL 0]) ++
  (List.range' 2 (hp.m_size_l2.toNat - 1)).flatMap hp.upperPass

/-- `HistoPyramid.cpp`, lines 261-266: the readback of the top element into
`m_top_pbo`. -/
def HPMCHistoPyramid.readback (hp : HPMCHistoPyramid) : List GLCall :=
  [.glBindBuffer hp.m_top_pbo,
   .glBindTexture hp.m_tex,
   .glTexParameteri .GL_TEXTURE_BASE_LEVEL hp.m_size_l2,
   .glTexParameteri .GL_TEXTURE_MAX_LEVEL hp.m_size_l2,
   .glGetTexImage hp.m_size_l2,
   .glBindBuffer 0]

/-- `HistoPyramid.cpp`, lines 193-258: `retval` and the GL calls of `build`
before the readback.  The messages and the `glGetError` polling of the
`Logger` object are not recorded. -/
def HPMCHistoPyramid.reduce (hp : HPMCHistoPyramid) (tex_unit_a : Int) :
    Bool × List GLCall :=
  if hp.m_size_l2 ≥ 1 then
    if hp.m_reduce1_program = 0 then (false, [])
    else if hp.m_size_l2 ≥ 2 then
      if hp.m_reducen_program = 0 then (false, hp.firstPass tex_unit_a)
      else (true, hp.firstPass tex_unit_a ++ hp.upperPasses tex_unit_a)
    else (true, hp.firstPass tex_unit_a)
  else (true, [])

/-- `HistoPyramid.cpp`, lines 190-270, `HPMCHistoPyramid::build( tex_unit_a )`:
the reduction passes, then the readback, `m_top_count_updated = false` and
`return retval`. -/
def HPMCHistoPyramid.build (hp : HPMCHistoPyramid) (tex_unit_a : Int) :
    Outcome Bool HPMCHistoPyramid :=
  { value := (hp.reduce tex_unit_a).1
    calls := (hp.reduce tex_unit_a).2 ++ hp.readback
    state := { hp with m_top_count_updated := false } }

/-- `HistoPyramid.cpp`, line 297: `static_cast<GLsizei>( floorf( x ) )` for a
finite value `x` of a readback channel. -/
def floorCount (x : ℚ) : Int :=
  wrapGLsizei ⌊x⌋

/-- `HistoPyramid.cpp`, lines 288-304, `HPMCHistoPyramid::count()`; `mem` is
the content of the four channels of the readback buffer `m_top_pbo` at the
time of the call.  The sum is taken in `GLsizei` arithmetic. -/
def HPMCHistoPyramid.count (hp : HPMCHistoPyramid) (mem : ℚ × ℚ × ℚ × ℚ) :
    Outcome Int HPMCHistoPyramid :=
  if !hp.m_top_count_updated then
    let m_top_count := wrapGLsizei (wrapGLsizei (wrapGLsizei
      (floorCount mem.1 + floorCount mem.2.1) + floorCount mem.2.2.1) + floorCount mem.2.2.2)
    { value := m_top_count
      calls := [.glBindBuffer hp.m_top_pbo, .glGetBufferSubData, .glBindBuffer 0]
      state := { { hp with m_top_count := m_top_count } with m_top_count_updated := true } }
  else
    { value := hp.m_top_count, calls := [], state := hp }

/-- `HistoPyramid.cpp`, lines 343-356 and 367-380: the body of the loop over
the framebuffers of `configure`. -/
def HPMCHistoPyramid.attach (m_tex : Nat) (m_fbos : List Nat) (m : Nat) : List GLCall :=
  [.glBindFramebuffer m_fbos[m]?,
   .glFramebufferTexture2D m_tex m,
   .glDrawBuffer,
   .glCheckFramebufferStatus]

/-- `HistoPyramid.cpp`, lines 306-390, `HPMCHistoPyramid::configure( size_l2 )`.
`gen k` is the name `glGenFramebuffers` stores in `m_fbos[k]` and `complete m`
tells whether `glCheckFramebufferStatus` reports framebuffer `m` complete.
Both branches on the target issue the same calls up to the `EXT` suffix. -/
def HPMCHistoPyramid.configure (hp : HPMCHistoPyramid) (size_l2 : Int)
    (gen : Nat → Nat) (complete : Nat → Bool) : Outcome Bool HPMCHistoPyramid :=
  let m_size := shiftOne size_l2
  let m_fbos := (List.range (size_l2 + 1).toNat).map gen
  { value := (List.range m_fbos.length).all complete
    calls :=
      [.glBindTexture hp.m_tex,
       .glTexImage2D m_size m_size,
       .glTexParameteri .GL_TEXTURE_WRAP_S GL_CLAMP,
       .glTexParameteri .GL_TEXTURE_WRAP_T GL_CLAMP,
       .glTexParameteri .GL_TEXTURE_MIN_FILTER GL_NEAREST_MIPMAP_NEAREST,
       .glTexParameteri .GL_TEXTURE_MAG_FILTER GL_NEAREST,
       .glTexParameteri .GL_TEXTURE_BASE_LEVEL 0,
       .glTexParameteri .GL_TEXTURE_MAX_LEVEL size_l2,
       .glGenerateMipmap] ++
      (if hp.m_fbos.isEmpty then [] else [.glDeleteFramebuffers hp.m_fbos.length]) ++
      [.glGenFramebuffers m_fbos.length] ++
      (List.range m_fbos.length).flatMap (HPMCHistoPyramid.attach hp.m_tex m_fbos)
    state :=
      { { { { { hp with m_top_count := 0 } with m_top_count_updated := false } with
              m_size_l2 := size_l2 } with
            m_size := m_size } with
          m_fbos := m_fbos } }

/-- One reduction pass: the framebuffer bound and the viewport size set when
`render()` is called. -/
structure RenderPass where
  framebuffer : Option Nat
  width : Int
  height : Int
deriving DecidableEq, Repr

/-- The reduction passes in a sequence of GL calls: one for each `render`,
with the framebuffer bound last and the viewport set last before it; `fb`, `w`
and `h` are the binding and the viewport size at the start. -/
def passesOf : List GLCall → (fb : Option Nat) → (w h : Int) → List RenderPass
  | [], _, _, _ => []
  | .glBindFramebuffer f :: cs, _, w, h => passesOf cs f w h
  | .glViewport _ _ w h :: cs, fb, _, _ => passesOf cs fb w h
  | .render :: cs, fb, w, h => ⟨fb, w, h⟩ :: passesOf cs fb w h
  | _ :: cs, fb, w, h => passesOf cs fb w h

/-- The mip level attached to each framebuffer in a sequence of GL calls: one
pair for each `glFramebufferTexture2D`, with the framebuffer bound last before
it. -/
def attachmentsOf : List GLCall → (fb : Option Nat) → List (Option Nat × Nat)
  | [], _ => []
  | .glBindFramebuffer f :: cs, _ => attachmentsOf cs f
  | .glFramebufferTexture2D _ level :: cs, fb => (fb, level) :: attachmentsOf cs fb
  | _ :: cs, fb => attachmentsOf cs fb

/-- The four channels hold values whose floors, and the partial sums of the
floors, are representable in a `GLsizei`. -/
def CountFits (mem : ℚ × ℚ × ℚ × ℚ) : Prop :=
  (-2147483648 ≤ ⌊mem.1⌋ ∧ ⌊mem.1⌋ < 2147483648) ∧
  (-2147483648 ≤ ⌊mem.2.1⌋ ∧ ⌊mem.2.1⌋ < 2147483648) ∧
  (-2147483648 ≤ ⌊mem.2.2.1⌋ ∧ ⌊mem.2.2.1⌋ < 2147483648) ∧
  (-2147483648 ≤ ⌊mem.2.2.2⌋ ∧ ⌊mem.2.2.2⌋ < 2147483648) ∧
  (-2147483648 ≤ ⌊mem.1⌋ + ⌊mem.2.1⌋ ∧ ⌊mem.1⌋ + ⌊mem.2.1⌋ < 2147483648) ∧
  (-2147483648 ≤ ⌊mem.1⌋ + ⌊mem.2.1⌋ + ⌊mem.2.2.1⌋ ∧
    ⌊mem.1⌋ + ⌊mem.2.1⌋ + ⌊mem.2.2.1⌋ < 2147483648) ∧
  (-2147483648 ≤ ⌊mem.1⌋ + ⌊mem.2.1⌋ + ⌊mem.2.2.1⌋ + ⌊mem.2.2.2⌋ ∧
    ⌊mem.1⌋ + ⌊mem.2.1⌋ + ⌊mem.2.2.1⌋ + ⌊mem.2.2.2⌋ < 2147483648)

instance (mem : ℚ × ℚ × ℚ × ℚ) : Decidable (CountFits mem) := by
  unfold CountFits; infer_instance

/-- A sample pyramid that has not been configured yet: size 0, no
framebuffers, texture 1, readback buffer 1, reduction programs 3 and 4. -/
def samplePyramid : HPMCHistoPyramid :=
  { m_target := .HPMC_TARGET_GL30_GLSL130
    m_size := 0
    m_size_l2 := 0
    m_tex := 1
    m_top_pbo := 1
    m_fbos := []
    m_reduce1_program := 3
    m_reduce1_loc_delta := -1
    m_reduce1_loc_level := 0
    m_reduce1_loc_hp_tex := 1
    m_reducen_program := 4
    m_reducen_loc_delta := -1
    m_reducen_loc_level := 0
    m_reducen_loc_hp_tex := 1
    m_top_count := 0
    m_top_count_updated := false }

/-! ## The entry points of `PublicAPI.cpp` -/

/-- `Logger.cpp`, lines 31-47 and 50-66: the GL calls of the constructor and
of the destructor of `Logger`.  With `HPMC_DEBUG_STDERR` and `force_check`, or
with `HPMC_DEBUG_STDERR_VERBOSE`, `glGetError` is called once and then once
more for each error it reports; `errors` is the number of errors pending. -/
def Logger.poll (debug : HPMCDebugBehaviour) (force_check : Bool) (errors : Nat) :
    List GLCall :=
  if (force_check = true ∧ debug = .HPMC_DEBUG_STDERR) ∨
      debug = .HPMC_DEBUG_STDERR_VERBOSE then
    List.replicate (errors + 1) .glGetError
  else []

/-- What the entry points get from the objects behind a handle, whose member
functions are defined outside the sources at hand: the debug behaviour of
`constants()`, the number of GL errors pending when the `Logger` object is
constructed and when it is destroyed, and for each member function called its
return value, its GL calls and the GL state it leaves. -/
structure Members where
  debug : HPMCDebugBehaviour
  errorsBefore : Nat
  errorsAfter : Nat
  untaint : GLState → Outcome Bool GLState
  program : Nat
  vertexCount : GLState → Outcome Nat GLState
  rendererCtor : GLState → Outcome Unit GLState
  rendererDtor : GLState → Outcome Unit GLState
  setProgram : Nat → Nat → Nat → Nat → GLState → Outcome Bool GLState
  draw : Nat → Bool → GLState → Outcome Unit GLState

/-- The four `glGetIntegerv` calls of `PublicAPI.cpp`, lines 170-173 and
205-208. -/
def saveCalls : List GLCall :=
  [.glGetIntegerv .GL_VIEWPORT, .glGetIntegerv .GL_CURRENT_PROGRAM,
   .glGetIntegerv .GL_PIXEL_PACK_BUFFER_BINDING, .glGetIntegerv .GL_FRAMEBUFFER_BINDING]

/-- The four restoring calls of `PublicAPI.cpp`, lines 178-181 and 213-216. -/
def restoreCalls (old : GLState) : List GLCall :=
  [.glBindBuffer old.pixel_pack_buffer_binding,
   .glBindFramebuffer (some old.framebuffer_binding),
   .glViewport old.viewport.1 old.viewport.2.1 old.viewport.2.2.1 old.viewport.2.2.2,
   .glUseProgram old.current_program]

/-- `PublicAPI.cpp`, lines 137-146, `HPMCgetBuilderProgram( h )`; a `NULL`
handle is `none`. -/
def HPMCgetBuilderProgram (h : Option HPMCIsoSurface) (m : Members) (gl : GLState) :
    Outcome Nat GLState :=
  match h with
  | none => { value := 0, calls := [], state := gl }
  | some _ =>
    { value := m.program
      calls := Logger.poll m.debug true m.errorsBefore ++ (m.untaint gl).calls ++
        Logger.poll m.debug true m.errorsAfter
      state := (m.untaint gl).state }

/-- `PublicAPI.cpp`, lines 150-158, `HPMCacquireNumberOfVertices( h )`. -/
def HPMCacquireNumberOfVertices (h : Option HPMCIsoSurface) (m : Members) (gl : GLState) :
    Outcome Nat GLState :=
  match h with
  | none => { value := 0, calls := [], state := gl }
  | some _ =>
    { value := (m.vertexCount gl).value
      calls := Logger.poll m.debug true m.errorsBefore ++ (m.vertexCount gl).calls ++
        Logger.poll m.debug true m.errorsAfter
      state := (m.vertexCount gl).state }

/-- The GL calls of `HPMCcreateIsoSurfaceRenderer( h )`, `PublicAPI.cpp`,
lines 161-183. -/
def HPMCcreateIsoSurfaceRendererCalls (h : Option HPMCIsoSurface) (m : Members)
    (gl : GLState) : List GLCall :=
  match h with
  | none => []
  | some _ =>
    Logger.poll m.debug true m.errorsBefore ++ saveCalls ++ (m.untaint gl).calls ++
      (if !(m.untaint gl).value then []
       else restoreCalls gl ++
        (m.rendererCtor (restoreState gl (m.untaint gl).state)).calls) ++
      Logger.poll m.debug true m.errorsAfter

/-- `PublicAPI.cpp`, lines 186-194, `HPMCdestroyIsoSurfaceRenderer( th )`. -/
def HPMCdestroyIsoSurfaceRenderer (th : Option HPMCIsoSurfaceRenderer) (m : Members)
    (gl : GLState) : Outcome Unit GLState :=
  match th with
  | none => { value := (), calls := [], state := gl }
  | some _ =>
    { value := ()
      calls := Logger.poll m.debug true m.errorsBefore ++ (m.rendererDtor gl).calls ++
        Logger.poll m.debug true m.errorsAfter
      state := (m.rendererDtor gl).state }

/-- The GL calls of `HPMCisoSurfaceRendererShaderSource( th )`,
`PublicAPI.cpp`, lines 196-219. -/
def HPMCisoSurfaceRendererShaderSourceCalls (th : Option HPMCIsoSurfaceRenderer)
    (m : Members) (gl : GLState) : List GLCall :=
  match th with
  | none => []
  | some _ =>
    Logger.poll m.debug true m.errorsBefore ++ saveCalls ++ (m.untaint gl).calls ++
      (if !(m.untaint gl).value then [] else restoreCalls gl) ++
      Logger.poll m.debug true m.errorsAfter

/-- `PublicAPI.cpp`, lines 222-237, `HPMCsetIsoSurfaceRendererProgram( th,
program, tex_unit_work1, tex_unit_work2, tex_unit_work3 )`. -/
def HPMCsetIsoSurfaceRendererProgram (th : Option HPMCIsoSurfaceRenderer)
    (program tex_unit_work1 tex_unit_work2 tex_unit_work3 : Nat) (m : Members)
    (gl : GLState) : Outcome Bool GLState :=
  match th with
  | none => { value := false, calls := [], state := gl }
  | some _ =>
    let old_prog := gl.current_program
    let r := m.setProgram program tex_unit_work1 tex_unit_work2 tex_unit_work3 gl
    { value := r.value
      calls := [.glGetIntegerv .GL_CURRENT_PROGRAM] ++ r.calls ++ [.glUseProgram old_prog]
      state := { r.state with current_program := old_prog } }

/-- The common body of the four `HPMCextractVertices*` entry points, which
differ in the first argument of `th->draw`. -/
def extractWith (mode : Nat) (th : Option HPMCIsoSurfaceRenderer)
    (flip_orientation : Bool) (m : Members) (gl : GLState) : Outcome Bool GLState :=
  match th with
  | none => { value := false, calls := [], state := gl }
  | some _ =>
    let curr_prog := gl.current_program
    let r := m.draw mode flip_orientation gl
    { value := true
      calls := [.glGetIntegerv .GL_CURRENT_PROGRAM] ++ r.calls ++ [.glUseProgram curr_prog]
      state := { r.state with current_program := curr_prog } }

/-- `PublicAPI.cpp`, lines 240-251, `HPMCextractVertices`: `th->draw( 0, .. )`. -/
def HPMCextractVertices := extractWith 0

/-- `PublicAPI.cpp`, lines 254-265, `HPMCextractVerticesTransformFeedback`:
`th->draw( 1, .. )`. -/
def HPMCextractVerticesTransformFeedback := extractWith 1

/-- `PublicAPI.cpp`, lines 268-279, `HPMCextractVerticesTransformFeedbackNV`:
`th->draw( 2, .. )`. -/
def HPMCextractVerticesTransformFeedbackNV := extractWith 2

/-- `PublicAPI.cpp`, lines 282-293, `HPMCextractVerticesTransformFeedbackEXT`:
`th->draw( 3, .. )`. -/
def HPMCextractVerticesTransformFeedbackEXT := extractWith 3

/-- Sample member functions: `HPMC_DEBUG_STDERR`, no GL errors pending, and
member functions that succeed, the drawing one leaving program 9 in use. -/
def sampleMembers : Members :=
  { debug := .HPMC_DEBUG_STDERR
    errorsBefore := 0
    errorsAfter := 0
    untaint := fun gl => { value := true, calls := [], state := gl }
    program := 5
    vertexCount := fun gl => { value := 12, calls := [], state := gl }
    rendererCtor := fun gl => { value := (), calls := [], state := gl }
    rendererDtor := fun gl => { value := (), calls := [], state := gl }
    setProgram := fun _ _ _ _ gl => { value := true, calls := [], state := gl }
    draw := fun _ _ gl =>
      { value := (), calls := [.glUseProgram 9, .render]
        state := { gl with current_program := 9 } } }

end glhpmc

namespace cuhpmc

theorem ceil_div_eq (n k : Nat) (hk : 0 < k) :
    ⌈(n : ℚ) / (k : ℚ)⌉₊ = (n + (k - 1)) / k := by
  have hkq : (0 : ℚ) < (k : ℚ) := by exact_mod_cast hk
  apply le_antisymm
  · rw [Nat.ceil_le, div_le_iff₀ hkq]
    have h1 : n ≤ (n + (k - 1)) / k * k := by
      have h2 := Nat.div_add_mod (n + (k - 1)) k
      have h3 := Nat.mod_lt (n + (k - 1)) hk
      have h4 : k * ((n + (k - 1)) / k) = (n + (k - 1)) / k * k := Nat.mul_comm _ _
      omega
    exact_mod_cast h1
  · have h1 : (n : ℚ) / (k : ℚ) ≤ (⌈(n : ℚ) / (k : ℚ)⌉₊ : ℚ) := Nat.le_ceil _
    rw [div_le_iff₀ hkq] at h1
    have h2 : n ≤ ⌈(n : ℚ) / (k : ℚ)⌉₊ * k := by exact_mod_cast h1
    rw [Nat.div_le_iff_le_mul_add_pred hk]
    have h3 : k * ⌈(n : ℚ) / (k : ℚ)⌉₊ = ⌈(n : ℚ) / (k : ℚ)⌉₊ * k := Nat.mul_comm _ _
    omega

theorem levelsOf_ge (rawLevels : Nat) : 4 ≤ levelsOf rawLevels := by
  unfold levelsOf; split <;> omega

theorem firstTripleOf_bounds (levels : Nat) (h : 4 ≤ levels) :
    3 ≤ firstTripleOf levels ∧ firstTripleOf levels ≤ levels := by
  unfold firstTripleOf; split <;> omega

theorem firstDoubleOf_bounds (ft : Nat) (h : 3 ≤ ft) :
    3 ≤ firstDoubleOf ft ∧ firstDoubleOf ft ≤ ft ∧ firstDoubleOf ft ≤ 4 := by
  unfold firstDoubleOf; omega

theorem inputNOf_eq (c : uint3) : inputNOf c = (800 * c.x * c.y * c.z) % 4294967296 := by
  unfold inputNOf umul
  simp [Nat.mul_mod, Nat.mod_mod]

theorem inputNOf_lt (c : uint3) : inputNOf c + 32 ≤ 4294967296 := by
  rw [inputNOf_eq]
  have h : 800 * c.x * c.y * c.z = 32 * (25 * c.x * c.y * c.z) := by ring
  rw [h]
  omega

/-! ## Cell counts, chunk counts and the padded leaf count -/

/-- Claim C4: for a field with width, height and depth at least 1 and no
32-bit overflow, the constructor sets the cell counts to
`(width-1, height-1, depth-1)` and the chunk counts to the ceiling divisions
`(ceil(cells.x/31), ceil(cells.y/5), ceil(cells.z/5))`. -/
theorem ctor_cells_chunks (field : AbstractField) (rawLevels : Nat)
    (hfit : CellsFit field) :
    (AbstractIsoSurface.ctor field rawLevels).m_cells =
        ⟨field.m_width - 1, field.m_height - 1, field.m_depth - 1⟩ ∧
    (AbstractIsoSurface.ctor field rawLevels).m_hp5_chunks =
        ⟨⌈((field.m_width - 1 : Nat) : ℚ) / (31 : Nat)⌉₊,
         ⌈((field.m_height - 1 : Nat) : ℚ) / (5 : Nat)⌉₊,
         ⌈((field.m_depth - 1 : Nat) : ℚ) / (5 : Nat)⌉₊⟩ := by
  obtain ⟨⟨hw1, hw2⟩, ⟨hh1, hh2⟩, ⟨hd1, hd2⟩⟩ := hfit
  have hx : usub field.m_width 1 = field.m_width - 1 := by unfold usub; omega
  have hy : usub field.m_height 1 = field.m_height - 1 := by unfold usub; omega
  have hz : usub field.m_depth 1 = field.m_depth - 1 := by unfold usub; omega
  refine ⟨?_, ?_⟩
  · simp only [AbstractIsoSurface.ctor, cellsOf, hx, hy, hz]
  · simp only [AbstractIsoSurface.ctor, cellsOf, chunksOf, hx, hy, hz]
    rw [ceil_div_eq _ 31 (by omega), ceil_div_eq _ 5 (by omega), ceil_div_eq _ 5 (by omega)]
    have e1 : uadd (field.m_width - 1) 30 = field.m_width - 1 + (31 - 1) := by
      unfold uadd; omega
    have e2 : uadd (field.m_height - 1) 4 = field.m_height - 1 + (5 - 1) := by
      unfold uadd; omega
    have e3 : uadd (field.m_depth - 1) 4 = field.m_depth - 1 + (5 - 1) := by
      unfold uadd; omega
    rw [e1, e2, e3]

/-- Witness for `ctor_cells_chunks`: a 100 x 20 x 33 lattice. -/
theorem ctor_cells_chunks_witness :
    CellsFit ⟨100, 20, 33⟩ ∧
    (AbstractIsoSurface.ctor ⟨100, 20, 33⟩ 7).m_cells = ⟨100 - 1, 20 - 1, 33 - 1⟩ ∧
    (AbstractIsoSurface.ctor ⟨100, 20, 33⟩ 7).m_hp5_chunks =
        ⟨⌈((100 - 1 : Nat) : ℚ) / (31 : Nat)⌉₊,
         ⌈((20 - 1 : Nat) : ℚ) / (5 : Nat)⌉₊,
         ⌈((33 - 1 : Nat) : ℚ) / (5 : Nat)⌉₊⟩ :=
  ⟨by decide, ctor_cells_chunks ⟨100, 20, 33⟩ 7 (by decide)⟩

/-- Claim C5: with no 32-bit overflow, the padded leaf count `m_hp5_input_N`
equals `800 * chunks.x * chunks.y * chunks.z`, is a multiple of 800, and is at
least the number of cells `cells.x * cells.y * cells.z`. -/
theorem inputN_padded (field : AbstractField) (rawLevels : Nat)
    (hfit : CellsFit field) (hleaf : LeafFits field) :
    (AbstractIsoSurface.ctor field rawLevels).m_hp5_input_N =
        800 * (AbstractIsoSurface.ctor field rawLevels).m_hp5_chunks.x *
          (AbstractIsoSurface.ctor field rawLevels).m_hp5_chunks.y *
          (AbstractIsoSurface.ctor field rawLevels).m_hp5_chunks.z ∧
    800 ∣ (AbstractIsoSurface.ctor field rawLevels).m_hp5_input_N ∧
    (AbstractIsoSurface.ctor field rawLevels).m_cells.x *
        (AbstractIsoSurface.ctor field rawLevels).m_cells.y *
        (AbstractIsoSurface.ctor field rawLevels).m_cells.z ≤
      (AbstractIsoSurface.ctor field rawLevels).m_hp5_input_N := by
  obtain ⟨⟨hw1, hw2⟩, ⟨hh1, hh2⟩, ⟨hd1, hd2⟩⟩ := hfit
  have hN : inputNOf (chunksOf (cellsOf field)) =
      800 * (chunksOf (cellsOf field)).x * (chunksOf (cellsOf field)).y *
        (chunksOf (cellsOf field)).z := by
    rw [inputNOf_eq]; exact Nat.mod_eq_of_lt hleaf
  have hx : (cellsOf field).x ≤ 31 * (chunksOf (cellsOf field)).x := by
    simp only [cellsOf, chunksOf, usub, uadd]; omega
  have hy : (cellsOf field).y ≤ 5 * (chunksOf (cellsOf field)).y := by
    simp only [cellsOf, chunksOf, usub, uadd]; omega
  have hz : (cellsOf field).z ≤ 5 * (chunksOf (cellsOf field)).z := by
    simp only [cellsOf, chunksOf, usub, uadd]; omega
  simp only [AbstractIsoSurface.ctor]
  refine ⟨hN, ?_, ?_⟩
  · rw [hN]
    exact ⟨(chunksOf (cellsOf field)).x * (chunksOf (cellsOf field)).y *
      (chunksOf (cellsOf field)).z, by ring⟩
  · rw [hN]
    calc (cellsOf field).x * (cellsOf field).y * (cellsOf field).z
        ≤ 31 * (chunksOf (cellsOf field)).x * (5 * (chunksOf (cellsOf field)).y) *
            (5 * (chunksOf (cellsOf field)).z) :=
          Nat.mul_le_mul (Nat.mul_le_mul hx hy) hz
      _ = 775 * ((chunksOf (cellsOf field)).x * (chunksOf (cellsOf field)).y *
            (chunksOf (cellsOf field)).z) := by ring
      _ ≤ 800 * ((chunksOf (cellsOf field)).x * (chunksOf (cellsOf field)).y *
            (chunksOf (cellsOf field)).z) := Nat.mul_le_mul_right _ (by norm_num)
      _ = _ := by ring

/-- Witness for `inputN_padded`: a 100 x 20 x 33 lattice (99 x 19 x 32 cells,
4 x 4 x 7 chunks, 89600 leaf elements). -/
theorem inputN_padded_witness :
    (CellsFit ⟨100, 20, 33⟩ ∧ LeafFits ⟨100, 20, 33⟩) ∧
    (AbstractIsoSurface.ctor ⟨100, 20, 33⟩ 8).m_hp5_input_N =
        800 * (AbstractIsoSurface.ctor ⟨100, 20, 33⟩ 8).m_hp5_chunks.x *
          (AbstractIsoSurface.ctor ⟨100, 20, 33⟩ 8).m_hp5_chunks.y *
          (AbstractIsoSurface.ctor ⟨100, 20, 33⟩ 8).m_hp5_chunks.z ∧
    800 ∣ (AbstractIsoSurface.ctor ⟨100, 20, 33⟩ 8).m_hp5_input_N ∧
    (AbstractIsoSurface.ctor ⟨100, 20, 33⟩ 8).m_cells.x *
        (AbstractIsoSurface.ctor ⟨100, 20, 33⟩ 8).m_cells.y *
        (AbstractIsoSurface.ctor ⟨100, 20, 33⟩ 8).m_cells.z ≤
      (AbstractIsoSurface.ctor ⟨100, 20, 33⟩ 8).m_hp5_input_N :=
  ⟨⟨by decide, by decide⟩, inputN_padded ⟨100, 20, 33⟩ 8 (by decide) (by decide)⟩

/-- With at least one cell per axis and no overflow, the padded leaf count is
at least 800. -/
theorem inputNOf_ge (field : AbstractField) (hcells : HasCells field)
    (hfit : CellsFit field) (hleaf : LeafFits field) :
    800 ≤ inputNOf (chunksOf (cellsOf field)) := by
  obtain ⟨⟨hw1, hw2⟩, ⟨hh1, hh2⟩, ⟨hd1, hd2⟩⟩ := hfit
  obtain ⟨c1, c2, c3⟩ := hcells
  rw [inputNOf_eq, Nat.mod_eq_of_lt hleaf]
  have hx : 1 ≤ (chunksOf (cellsOf field)).x := by
    simp only [cellsOf, chunksOf, usub, uadd]; omega
  have hy : 1 ≤ (chunksOf (cellsOf field)).y := by
    simp only [cellsOf, chunksOf, usub, uadd]; omega
  have hz : 1 ≤ (chunksOf (cellsOf field)).z := by
    simp only [cellsOf, chunksOf, usub, uadd]; omega
  calc 800 = 800 * 1 * 1 * 1 := by norm_num
    _ ≤ _ := Nat.mul_le_mul (Nat.mul_le_mul (Nat.mul_le_mul_left _ hx) hy) hz

/-! ## The level-size table -/

theorem getD_set (l : List Nat) (i j a : Nat) :
    (l.set i a).getD j 0 = if i = j ∧ j < l.length then a else l.getD j 0 := by
  simp only [List.getD_eq_getElem?_getD, List.getElem?_set]
  by_cases hij : i = j
  · subst hij
    by_cases hl : i < l.length
    · simp [hl]
    · simp [hl, List.getElem?_eq_none (Nat.le_of_not_lt hl)]
  · simp [hij]

theorem sizeLoop_spec (levels N k : Nat) (hk : k ≤ levels) :
    ((List.range k).foldl (sizeStep levels) (List.replicate levels 0, N)).2 = shrink^[k] N ∧
    ((List.range k).foldl (sizeStep levels) (List.replicate levels 0, N)).1.length = levels ∧
    ∀ l, l < k →
      ((List.range k).foldl (sizeStep levels) (List.replicate levels 0, N)).1.getD
        (levels - 1 - l) 0 = shrink^[l] N := by
  induction k with
  | zero => simp
  | succ k ih =>
    obtain ⟨ih1, ih2, ih3⟩ := ih (by omega)
    rw [List.range_succ, List.foldl_append]
    simp only [List.foldl_cons, List.foldl_nil]
    refine ⟨?_, ?_, ?_⟩
    · simp only [sizeStep, ih1, Function.iterate_succ_apply']
      rfl
    · simp only [sizeStep, List.length_set, ih2]
    · intro l hl
      simp only [sizeStep, getD_set, ih2, ih1]
      by_cases hlk : l = k
      · subst hlk
        simp; omega
      · have hne : ¬ (levels - 1 - k = levels - 1 - l ∧ levels - 1 - l < levels) := by omega
        rw [if_neg hne]
        exact ih3 l (by omega)

theorem levelSizesOf_length (levels N : Nat) : (levelSizesOf levels N).length = levels :=
  (sizeLoop_spec levels N levels le_rfl).2.1

theorem levelSizesOf_getD (levels N l : Nat) (hl : l < levels) :
    (levelSizesOf levels N).getD l 0 = shrink^[levels - 1 - l] N := by
  have h := (sizeLoop_spec levels N levels le_rfl).2.2 (levels - 1 - l) (by omega)
  have e : levels - 1 - (levels - 1 - l) = l := by omega
  rw [e] at h
  exact h

theorem shrink_le (n : Nat) (h : n + 4 < 4294967296) :
    shrink n = (n + 4) / 5 ∧ shrink n ≤ n := by
  unfold shrink uadd
  omega

theorem shrink_iterate_le (N k : Nat) (h : N + 4 < 4294967296) : shrink^[k] N ≤ N := by
  induction k with
  | zero => simp
  | succ k ih =>
    rw [Function.iterate_succ_apply']
    have := shrink_le (shrink^[k] N) (by omega)
    omega

theorem shrink_iterate_eq (N k : Nat) (h : N + 4 < 4294967296) :
    shrink^[k] N = (N + (5 ^ k - 1)) / 5 ^ k := by
  induction k with
  | zero => simp
  | succ k ih =>
    rw [Function.iterate_succ_apply']
    have hle := shrink_iterate_le N k h
    rw [(shrink_le (shrink^[k] N) (by omega)).1, ih]
    have hpos : 0 < 5 ^ k := by positivity
    have e1 : (N + (5 ^ k - 1)) / 5 ^ k + 4 = (N + (5 ^ k - 1) + 5 ^ k * 4) / 5 ^ k := by
      rw [Nat.add_mul_div_left _ _ hpos]
    rw [e1, Nat.div_div_eq_div_mul]
    have e2 : 5 ^ (k + 1) = 5 ^ k * 5 := by ring
    rw [e2]
    congr 1
    omega

/-- Level `l` of the table holds the leaf count reduced `levels-1-l` times. -/
theorem levelSize_ctor (field : AbstractField) (rawLevels l : Nat)
    (hl : l < levelsOf rawLevels) :
    levelSize (AbstractIsoSurface.ctor field rawLevels) l =
      shrink^[levelsOf rawLevels - 1 - l] (inputNOf (chunksOf (cellsOf field))) := by
  simp only [levelSize, AbstractIsoSurface.ctor]
  exact levelSizesOf_getD _ _ l hl

/-- Claim C1: for every grid geometry the level-size table has one entry per
level, its last entry (the leaf level, index `levels-1`) is the padded leaf
count `m_hp5_input_N`, and every level `l` below the leaf level satisfies
`size(l) = ceil(size(l+1) / 5)`. -/
theorem level_sizes_table (field : AbstractField) (rawLevels : Nat) :
    (AbstractIsoSurface.ctor field rawLevels).m_hp5_level_sizes.length =
        (AbstractIsoSurface.ctor field rawLevels).m_hp5_levels ∧
    levelSize (AbstractIsoSurface.ctor field rawLevels)
        ((AbstractIsoSurface.ctor field rawLevels).m_hp5_levels - 1) =
      (AbstractIsoSurface.ctor field rawLevels).m_hp5_input_N ∧
    ∀ l, l + 1 < (AbstractIsoSurface.ctor field rawLevels).m_hp5_levels →
      levelSize (AbstractIsoSurface.ctor field rawLevels) l =
        ⌈(levelSize (AbstractIsoSurface.ctor field rawLevels) (l + 1) : ℚ) / (5 : Nat)⌉₊ := by
  have h4 := levelsOf_ge rawLevels
  refine ⟨levelSizesOf_length _ _, ?_, ?_⟩
  · have h := levelSize_ctor field rawLevels (levelsOf rawLevels - 1) (by omega)
    have e : levelsOf rawLevels - 1 - (levelsOf rawLevels - 1) = 0 := by omega
    rw [e, Function.iterate_zero_apply] at h
    exact h
  · intro l hl
    have hl2 : l + 1 < levelsOf rawLevels := hl
    rw [levelSize_ctor field rawLevels l (by omega),
      levelSize_ctor field rawLevels (l + 1) hl2, ceil_div_eq _ 5 (by omega)]
    have e : levelsOf rawLevels - 1 - l = (levelsOf rawLevels - 1 - (l + 1)) + 1 := by omega
    rw [e, Function.iterate_succ_apply']
    have hN := inputNOf_lt (chunksOf (cellsOf field))
    have hle := shrink_iterate_le (inputNOf (chunksOf (cellsOf field)))
      (levelsOf rawLevels - 1 - (l + 1)) (by omega)
    exact (shrink_le _ (by omega)).1

/-- Witness for `level_sizes_table`: levels 2 and 3 of a 257^3 lattice. -/
theorem level_sizes_table_witness :
    levelSize (AbstractIsoSurface.ctor ⟨257, 257, 257⟩ 11) 2 =
      ⌈(levelSize (AbstractIsoSurface.ctor ⟨257, 257, 257⟩ 11) (2 + 1) : ℚ) / (5 : Nat)⌉₊ :=
  (level_sizes_table ⟨257, 257, 257⟩ 11).2.2 2 (by decide)

/-- Claim C2, counterexample: for a single-cell grid (a 2 x 2 x 2 lattice, 800
padded leaf elements, `ceilf(4.15..) = 5` levels) the root level of the
level-size table has element count `ceil(800 / 5^4) = 2`, not 1. -/
theorem root_level_size_counterexample :
    HasCells ⟨2, 2, 2⟩ ∧
    (AbstractIsoSurface.ctor ⟨2, 2, 2⟩ 5).m_hp5_input_N = 800 ∧
    (AbstractIsoSurface.ctor ⟨2, 2, 2⟩ 5).m_hp5_level_sizes = [2, 7, 32, 160, 800] ∧
    levelSize (AbstractIsoSurface.ctor ⟨2, 2, 2⟩ 5) 0 ≠ 1 := by
  decide

/-- Claim C2, amended: for a grid with at least one cell along each axis and
no 32-bit overflow, the root level (index 0) has element count
`ceil(m_hp5_input_N / 5^(levels-1))`; it is at least 1, it is at most 5
whenever `m_hp5_input_N <= 5^levels`, and it equals 1 exactly when
`m_hp5_input_N <= 5^(levels-1)`. -/
theorem root_level_size (field : AbstractField) (rawLevels : Nat)
    (hcells : HasCells field) (hfit : CellsFit field) (hleaf : LeafFits field) :
    levelSize (AbstractIsoSurface.ctor field rawLevels) 0 =
        ⌈((AbstractIsoSurface.ctor field rawLevels).m_hp5_input_N : ℚ) /
          ((5 ^ ((AbstractIsoSurface.ctor field rawLevels).m_hp5_levels - 1) : Nat) : ℚ)⌉₊ ∧
    1 ≤ levelSize (AbstractIsoSurface.ctor field rawLevels) 0 ∧
    ((AbstractIsoSurface.ctor field rawLevels).m_hp5_input_N ≤
        5 ^ (AbstractIsoSurface.ctor field rawLevels).m_hp5_levels →
      levelSize (AbstractIsoSurface.ctor field rawLevels) 0 ≤ 5) ∧
    (levelSize (AbstractIsoSurface.ctor field rawLevels) 0 = 1 ↔
      (AbstractIsoSurface.ctor field rawLevels).m_hp5_input_N ≤
        5 ^ ((AbstractIsoSurface.ctor field rawLevels).m_hp5_levels - 1)) := by
  have h4 := levelsOf_ge rawLevels
  have hN := inputNOf_lt (chunksOf (cellsOf field))
  have hge := inputNOf_ge field hcells hfit hleaf
  have hsz := levelSize_ctor field rawLevels 0 (by omega)
  rw [Nat.sub_zero, shrink_iterate_eq _ _ (by omega)] at hsz
  simp only [show (AbstractIsoSurface.ctor field rawLevels).m_hp5_levels = levelsOf rawLevels
      from rfl,
    show (AbstractIsoSurface.ctor field rawLevels).m_hp5_input_N =
      inputNOf (chunksOf (cellsOf field)) from rfl]
  generalize inputNOf (chunksOf (cellsOf field)) = N at *
  generalize levelSize (AbstractIsoSurface.ctor field rawLevels) 0 = r at *
  have hpos : 0 < 5 ^ (levelsOf rawLevels - 1) := by positivity
  have hpow : 5 ^ levelsOf rawLevels = 5 * 5 ^ (levelsOf rawLevels - 1) := by
    have e : levelsOf rawLevels = (levelsOf rawLevels - 1) + 1 := by omega
    conv_lhs => rw [e]
    ring
  generalize 5 ^ (levelsOf rawLevels - 1) = P at *
  have hdm := Nat.div_add_mod (N + (P - 1)) P
  have hml := Nat.mod_lt (N + (P - 1)) hpos
  rw [← hsz] at hdm
  refine ⟨?_, ?_, ?_, ?_⟩
  · rw [ceil_div_eq N P hpos, hsz]
  · by_contra hc
    have h0 : r = 0 := by omega
    rw [h0] at hdm
    omega
  · intro hle
    rw [hpow] at hle
    by_contra hc
    have h6 : P * 6 ≤ P * r := Nat.mul_le_mul_left P (by omega)
    omega
  · constructor
    · intro h1
      rw [h1] at hdm
      omega
    · intro hle
      have hr1 : 1 ≤ r := by
        by_contra hc
        have h0 : r = 0 := by omega
        rw [h0] at hdm
        omega
      by_contra hc
      have h2 : P * 2 ≤ P * r := Nat.mul_le_mul_left P (by omega)
      omega

/-- Witness for `root_level_size`: the single-cell grid, whose root level has
`ceil(800 / 5^4) = 2` elements. -/
theorem root_level_size_witness :
    (HasCells ⟨2, 2, 2⟩ ∧ CellsFit ⟨2, 2, 2⟩ ∧ LeafFits ⟨2, 2, 2⟩) ∧
    levelSize (AbstractIsoSurface.ctor ⟨2, 2, 2⟩ 5) 0 =
      ⌈((AbstractIsoSurface.ctor ⟨2, 2, 2⟩ 5).m_hp5_input_N : ℚ) /
        ((5 ^ ((AbstractIsoSurface.ctor ⟨2, 2, 2⟩ 5).m_hp5_levels - 1) : Nat) : ℚ)⌉₊ :=
  ⟨⟨by decide, by decide, by decide⟩,
    (root_level_size ⟨2, 2, 2⟩ 5 (by decide) (by decide) (by decide)).1⟩

/-! ## The offset table -/

theorem sumLevels_self (g : Nat → Nat) (a : Nat) : sumLevels g a a = 0 := by
  simp [sumLevels]

theorem sumLevels_head (g : Nat → Nat) (a b : Nat) (h : a < b) :
    sumLevels g a b = g a + sumLevels g (a + 1) b := by
  unfold sumLevels
  have e : b - a = (b - (a + 1)) + 1 := by omega
  rw [e, List.range'_succ]
  simp

theorem sumLevels_last (g : Nat → Nat) (a b : Nat) (h : a ≤ b) :
    sumLevels g a (b + 1) = sumLevels g a b + g b := by
  unfold sumLevels
  have e : b + 1 - a = (b - a) + 1 := by omega
  rw [e, List.range'_concat]
  simp
  congr 2
  omega

theorem sumLevels_congr (f g : Nat → Nat) (a b : Nat)
    (h : ∀ k, a ≤ k → k < b → f k = g k) : sumLevels f a b = sumLevels g a b := by
  unfold sumLevels
  congr 1
  apply List.map_congr_left
  intro k hk
  rw [List.mem_range'_1] at hk
  exact h k hk.1 (by omega)

theorem sumLevels_le (g : Nat → Nat) (a b c : Nat) (hab : a ≤ b) (hbc : b ≤ c) :
    sumLevels g a b ≤ sumLevels g a c := by
  induction c with
  | zero =>
    have : b = 0 := by omega
    subst this; exact le_rfl
  | succ c ih =>
    by_cases hb : b = c + 1
    · subst hb; exact le_rfl
    · have := ih (by omega)
      rw [sumLevels_last g a c (by omega)]
      omega

theorem accumLoop_spec (g : Nat → Nat) :
    ∀ (n a : Nat) (offs : List Nat) (sz : Nat), sz < 4294967296 →
      ((List.range' a n).foldl (accumStep g) (offs, sz)).2 =
          (sz + sumLevels g a (a + n)) % 4294967296 ∧
      ((List.range' a n).foldl (accumStep g) (offs, sz)).1.length = offs.length ∧
      ∀ l, ((List.range' a n).foldl (accumStep g) (offs, sz)).1.getD l 0 =
        if a ≤ l ∧ l < a + n ∧ l < offs.length then (sz + sumLevels g a l) % 4294967296
        else offs.getD l 0 := by
  intro n
  induction n with
  | zero =>
    intro a offs sz hsz
    refine ⟨?_, ?_, ?_⟩
    · simp [sumLevels_self, Nat.mod_eq_of_lt hsz]
    · simp
    · intro l
      have hne : ¬ (a ≤ l ∧ l < a + 0 ∧ l < offs.length) := by omega
      rw [if_neg hne]
      rfl
  | succ n ih =>
    intro a offs sz hsz
    rw [List.range'_succ, List.foldl_cons]
    have hlt : uadd sz (g a) < 4294967296 := Nat.mod_lt _ (by norm_num)
    obtain ⟨h1, h2, h3⟩ := ih (a + 1) (offs.set a sz) (uadd sz (g a)) hlt
    have hstep : accumStep g (offs, sz) a = (offs.set a sz, uadd sz (g a)) := rfl
    rw [hstep]
    refine ⟨?_, ?_, ?_⟩
    · rw [h1, sumLevels_head g a (a + (n + 1)) (by omega)]
      have e : a + 1 + n = a + (n + 1) := by omega
      rw [e]
      unfold uadd
      omega
    · rw [h2, List.length_set]
    · intro l
      rw [h3 l, List.length_set]
      by_cases hc : a + 1 ≤ l ∧ l < a + 1 + n ∧ l < offs.length
      · have hc2 : a ≤ l ∧ l < a + (n + 1) ∧ l < offs.length := by omega
        rw [if_pos hc, if_pos hc2, sumLevels_head g a l (by omega)]
        unfold uadd
        omega
      · rw [if_neg hc, getD_set]
        by_cases hal : a = l
        · subst hal
          by_cases hlen : a < offs.length
          · have hc2 : a ≤ a ∧ a < a + (n + 1) ∧ a < offs.length := by omega
            rw [if_pos ⟨rfl, hlen⟩, if_pos hc2, sumLevels_self, Nat.add_zero,
              Nat.mod_eq_of_lt hsz]
          · have hc2 : ¬ (a ≤ a ∧ a < a + (n + 1) ∧ a < offs.length) := by omega
            have hc3 : ¬ (a = a ∧ a < offs.length) := by omega
            rw [if_neg hc3, if_neg hc2]
        · have hc2 : ¬ (a ≤ l ∧ l < a + (n + 1) ∧ l < offs.length) := by omega
          have hc3 : ¬ (a = l ∧ l < offs.length) := by omega
          rw [if_neg hc3, if_neg hc2]

theorem offsetLoop_eq_accum (sizes : List Nat) (A a b : Nat) (g : Nat → Nat)
    (st : List Nat × Nat)
    (hg : ∀ k, a ≤ k → k < b → paddedBlocks (sizes.getD k 0) A = g k) :
    offsetLoop sizes A a b st = (List.range' a (b - a)).foldl (accumStep g) st := by
  unfold offsetLoop
  apply List.foldl_ext
  intro st' k hk
  rw [List.mem_range'_1] at hk
  simp only [offsetStep, accumStep]
  rw [hg k hk.1 (by omega)]

theorem accumLoop_append (g : Nat → Nat) (a b c : Nat) (st : List Nat × Nat)
    (hab : a ≤ b) (hbc : b ≤ c) :
    (List.range' b (c - b)).foldl (accumStep g)
        ((List.range' a (b - a)).foldl (accumStep g) st) =
      (List.range' a (c - a)).foldl (accumStep g) st := by
  rw [← List.foldl_append]
  have e1 : b = a + 1 * (b - a) := by omega
  have e2 : c - a = (c - b) + (b - a) := by omega
  rw [e2, ← List.range'_append a (b - a) (c - b) 1, ← e1]

theorem offsetsOf_eq_accum (sizes : List Nat) (levels fd ft : Nat)
    (h3 : 3 ≤ fd) (hdt : fd ≤ ft) (htl : ft ≤ levels) :
    offsetsOf sizes levels fd ft =
      (List.range' 3 (levels - 3)).foldl
        (accumStep (fun k => paddedBlocks (sizes.getD k 0) (if k < fd then 160 else 800)))
        ((((List.replicate levels 0).set 0 1).set 1 2).set 2 7, 32) := by
  unfold offsetsOf
  simp only []
  rw [offsetLoop_eq_accum sizes 160 3 fd
      (fun k => paddedBlocks (sizes.getD k 0) (if k < fd then 160 else 800)) _
      (by intro k _ hk; simp only [if_pos hk]),
    offsetLoop_eq_accum sizes 800 fd ft
      (fun k => paddedBlocks (sizes.getD k 0) (if k < fd then 160 else 800)) _
      (by intro k hk _; simp only [if_neg (Nat.not_lt.mpr hk)]),
    offsetLoop_eq_accum sizes 800 ft levels
      (fun k => paddedBlocks (sizes.getD k 0) (if k < fd then 160 else 800)) _
      (by intro k hk _; simp only [if_neg (Nat.not_lt.mpr (le_trans hdt hk))]),
    accumLoop_append _ 3 fd ft _ h3 hdt, accumLoop_append _ 3 ft levels _ (by omega) htl]

theorem levelAddend_ctor (field : AbstractField) (rawLevels : Nat) :
    levelAddend (AbstractIsoSurface.ctor field rawLevels) =
      fun k => paddedBlocks
        ((levelSizesOf (levelsOf rawLevels) (inputNOf (chunksOf (cellsOf field)))).getD k 0)
        (if k < firstDoubleOf (firstTripleOf (levelsOf rawLevels)) then 160 else 800) := by
  funext k
  simp only [levelAddend, levelUnit, levelSize, AbstractIsoSurface.ctor]

/-- The offset table and `m_hp5_size` in closed form: the apex offsets are the
constants 1, 2, 7, and from level 3 on every offset is 32 plus the addends of
the levels before it. -/
theorem ctor_offsets (field : AbstractField) (rawLevels : Nat) :
    (AbstractIsoSurface.ctor field rawLevels).m_hp5_size =
        (32 + sumLevels (levelAddend (AbstractIsoSurface.ctor field rawLevels)) 3
          (levelsOf rawLevels)) % 4294967296 ∧
    (AbstractIsoSurface.ctor field rawLevels).m_hp5_offsets.length = levelsOf rawLevels ∧
    levelOffset (AbstractIsoSurface.ctor field rawLevels) 0 = 1 ∧
    levelOffset (AbstractIsoSurface.ctor field rawLevels) 1 = 2 ∧
    levelOffset (AbstractIsoSurface.ctor field rawLevels) 2 = 7 ∧
    ∀ l, 3 ≤ l → l < levelsOf rawLevels →
      levelOffset (AbstractIsoSurface.ctor field rawLevels) l =
        (32 + sumLevels (levelAddend (AbstractIsoSurface.ctor field rawLevels)) 3 l) %
          4294967296 := by
  have h4 := levelsOf_ge rawLevels
  have hft := firstTripleOf_bounds (levelsOf rawLevels) h4
  have hfd := firstDoubleOf_bounds (firstTripleOf (levelsOf rawLevels)) hft.1
  have heq := offsetsOf_eq_accum
    (levelSizesOf (levelsOf rawLevels) (inputNOf (chunksOf (cellsOf field))))
    (levelsOf rawLevels) (firstDoubleOf (firstTripleOf (levelsOf rawLevels)))
    (firstTripleOf (levelsOf rawLevels)) hfd.1 hfd.2.1 hft.2
  rw [← levelAddend_ctor field rawLevels] at heq
  obtain ⟨s1, s2, s3⟩ := accumLoop_spec
    (levelAddend (AbstractIsoSurface.ctor field rawLevels)) (levelsOf rawLevels - 3) 3
    ((((List.replicate (levelsOf rawLevels) 0).set 0 1).set 1 2).set 2 7) 32 (by norm_num)
  rw [← heq] at s1 s2 s3
  have e : 3 + (levelsOf rawLevels - 3) = levelsOf rawLevels := by omega
  rw [e] at s1 s3
  simp only [List.length_set, List.length_replicate] at s2 s3
  have hoff : ∀ l, levelOffset (AbstractIsoSurface.ctor field rawLevels) l =
      (offsetsOf (levelSizesOf (levelsOf rawLevels) (inputNOf (chunksOf (cellsOf field))))
        (levelsOf rawLevels) (firstDoubleOf (firstTripleOf (levelsOf rawLevels)))
        (firstTripleOf (levelsOf rawLevels))).1.getD l 0 := fun _ => rfl
  refine ⟨s1, s2, ?_, ?_, ?_, ?_⟩
  · rw [hoff, s3 0, if_neg (by omega)]
    simp only [getD_set, List.length_set, List.length_replicate]
    rw [if_neg (by omega), if_neg (by omega), if_pos ⟨trivial, by omega⟩]
  · rw [hoff, s3 1, if_neg (by omega)]
    simp only [getD_set, List.length_set, List.length_replicate]
    rw [if_neg (by omega), if_pos ⟨trivial, by omega⟩]
  · rw [hoff, s3 2, if_neg (by omega)]
    simp only [getD_set, List.length_set, List.length_replicate]
    rw [if_pos ⟨trivial, by omega⟩]
  · intro l hl3 hll
    rw [hoff, s3 l, if_pos ⟨hl3, hll, hll⟩]

theorem paddedBlocks_lt (size A : Nat) : paddedBlocks size A < 4294967296 :=
  Nat.mod_lt _ (by norm_num)

/-- In `uint` arithmetic the footprint of every level from 3 on is exactly the
addend its offset loop contributed. -/
theorem levelFootprint_eq_addend (field : AbstractField) (rawLevels l : Nat)
    (h3 : 3 ≤ l) (hl : l < levelsOf rawLevels) :
    levelFootprint (AbstractIsoSurface.ctor field rawLevels) l =
      levelAddend (AbstractIsoSurface.ctor field rawLevels) l := by
  obtain ⟨hs, _, _, _, _, ho⟩ := ctor_offsets field rawLevels
  have hadd : levelAddend (AbstractIsoSurface.ctor field rawLevels) l < 4294967296 :=
    paddedBlocks_lt _ _
  unfold levelFootprint
  rw [show (AbstractIsoSurface.ctor field rawLevels).m_hp5_levels = levelsOf rawLevels from rfl]
  by_cases hnext : l + 1 < levelsOf rawLevels
  · rw [if_pos hnext, ho l h3 hl, ho (l + 1) (by omega) hnext,
      sumLevels_last _ 3 l h3]
    unfold usub
    omega
  · have e : levelsOf rawLevels = l + 1 := by omega
    rw [if_neg hnext, ho l h3 hl, hs, e, sumLevels_last _ 3 l h3]
    unfold usub
    omega

/-- Claim C9: for every grid geometry `m_hp5_size` is, in `uint` arithmetic,
32 plus the sum over the levels `3 <= l < levels` of the addend the offset
loops contribute for that level, each level counted once; the sum is exact
when it stays below `2^32`; and the addend of a level is its footprint. -/
theorem size_is_sum_of_footprints (field : AbstractField) (rawLevels : Nat) :
    (AbstractIsoSurface.ctor field rawLevels).m_hp5_size =
        (32 + sumLevels (levelAddend (AbstractIsoSurface.ctor field rawLevels)) 3
          (AbstractIsoSurface.ctor field rawLevels).m_hp5_levels) % 4294967296 ∧
    (AbstractIsoSurface.ctor field rawLevels).m_hp5_size =
        (32 + sumLevels (levelFootprint (AbstractIsoSurface.ctor field rawLevels)) 3
          (AbstractIsoSurface.ctor field rawLevels).m_hp5_levels) % 4294967296 ∧
    (SizeFits (AbstractIsoSurface.ctor field rawLevels) →
      (AbstractIsoSurface.ctor field rawLevels).m_hp5_size =
        32 + sumLevels (levelFootprint (AbstractIsoSurface.ctor field rawLevels)) 3
          (AbstractIsoSurface.ctor field rawLevels).m_hp5_levels) := by
  have hs := (ctor_offsets field rawLevels).1
  have hcongr : sumLevels (levelFootprint (AbstractIsoSurface.ctor field rawLevels)) 3
        (levelsOf rawLevels) =
      sumLevels (levelAddend (AbstractIsoSurface.ctor field rawLevels)) 3
        (levelsOf rawLevels) :=
    sumLevels_congr _ _ 3 _ (fun k h3 hk => levelFootprint_eq_addend field rawLevels k h3 hk)
  rw [show (AbstractIsoSurface.ctor field rawLevels).m_hp5_levels = levelsOf rawLevels from rfl,
    hcongr]
  refine ⟨hs, hs, ?_⟩
  intro hfits
  rw [hs]
  exact Nat.mod_eq_of_lt hfits

/-- Witness for `size_is_sum_of_footprints`: a 257^3 lattice, 11 levels,
`m_hp5_size = 4867872`. -/
theorem size_is_sum_of_footprints_witness :
    SizeFits (AbstractIsoSurface.ctor ⟨257, 257, 257⟩ 11) ∧
    (AbstractIsoSurface.ctor ⟨257, 257, 257⟩ 11).m_hp5_size =
      32 + sumLevels (levelFootprint (AbstractIsoSurface.ctor ⟨257, 257, 257⟩ 11)) 3
        (AbstractIsoSurface.ctor ⟨257, 257, 257⟩ 11).m_hp5_levels :=
  ⟨by decide, (size_is_sum_of_footprints ⟨257, 257, 257⟩ 11).2.2 (by decide)⟩

theorem paddedBlocks_160 (size : Nat) (h : size + 799 < 4294967296) :
    paddedBlocks size 160 = 160 * ((size + (160 - 1)) / 160) := by
  unfold paddedBlocks umul uadd
  omega

theorem paddedBlocks_800 (size : Nat) (h : size + 799 < 4294967296) :
    paddedBlocks size 800 = 160 * ((size + (800 - 1)) / 800) := by
  unfold paddedBlocks umul uadd
  omega

theorem kernelClass_single_iff (field : AbstractField) (rawLevels l : Nat) (h3 : 3 ≤ l) :
    kernelClass (AbstractIsoSurface.ctor field rawLevels) l = KernelClass.single ↔
      l < (AbstractIsoSurface.ctor field rawLevels).m_hp5_first_double_level := by
  have hs : (AbstractIsoSurface.ctor field rawLevels).m_hp5_first_single_level = 3 := rfl
  unfold kernelClass
  rw [hs, if_neg (by omega)]
  by_cases hd : l < (AbstractIsoSurface.ctor field rawLevels).m_hp5_first_double_level
  · simp [hd]
  · rw [if_neg hd]
    constructor
    · intro h
      split at h <;> cases h
    · intro h
      exact absurd h hd

/-- Claim C8, counterexample: on the single-cell grid (5 levels) the leaf level
4 is handled by the second offset loop and has 800 elements, but its footprint
`m_hp5_size - offset(4) = 352 - 192` is 160: it is none of `32*ceil(800/32)`,
`160*ceil(800/160)`, `800*ceil(800/800)` (all 800), and it is smaller than the
level size. -/
theorem level_footprint_counterexample :
    (3 ≤ 4 ∧ 4 < (AbstractIsoSurface.ctor ⟨2, 2, 2⟩ 5).m_hp5_levels) ∧
    levelSize (AbstractIsoSurface.ctor ⟨2, 2, 2⟩ 5) 4 = 800 ∧
    levelFootprint (AbstractIsoSurface.ctor ⟨2, 2, 2⟩ 5) 4 = 160 ∧
    (∀ A : Nat, A ∈ [32, 160, 800] →
      levelFootprint (AbstractIsoSurface.ctor ⟨2, 2, 2⟩ 5) 4 ≠
        A * ⌈(levelSize (AbstractIsoSurface.ctor ⟨2, 2, 2⟩ 5) 4 : ℚ) / (A : ℚ)⌉₊) ∧
    ¬ levelSize (AbstractIsoSurface.ctor ⟨2, 2, 2⟩ 5) 4 ≤
      levelFootprint (AbstractIsoSurface.ctor ⟨2, 2, 2⟩ 5) 4 := by
  have hsz : levelSize (AbstractIsoSurface.ctor ⟨2, 2, 2⟩ 5) 4 = 800 := by decide
  have hfp : levelFootprint (AbstractIsoSurface.ctor ⟨2, 2, 2⟩ 5) 4 = 160 := by decide
  refine ⟨by decide, hsz, hfp, ?_, ?_⟩
  · intro A hA
    rw [hsz, hfp]
    simp only [List.mem_cons, List.mem_singleton, List.not_mem_nil, or_false] at hA
    rcases hA with rfl | rfl | rfl
    · rw [ceil_div_eq 800 32 (by norm_num)]; decide
    · rw [ceil_div_eq 800 160 (by norm_num)]; decide
    · rw [ceil_div_eq 800 800 (by norm_num)]; decide
  · rw [hsz, hfp]; decide

/-- Claim C8, amended: for every level `3 <= l < levels` whose rounding
addition does not overflow, the footprint equals `160 * ceil(size(l) / 160)`
for a single-class level and `160 * ceil(size(l) / 800)` for a double- or
triple-class level; it is at least `size(l)` for a single-class level and at
least `ceil(size(l) / 5)` for every class. -/
theorem level_footprint (field : AbstractField) (rawLevels l : Nat)
    (h3 : 3 ≤ l) (hl : l < (AbstractIsoSurface.ctor field rawLevels).m_hp5_levels)
    (hfit : levelSize (AbstractIsoSurface.ctor field rawLevels) l + 799 < 4294967296) :
    levelFootprint (AbstractIsoSurface.ctor field rawLevels) l =
        160 * ⌈(levelSize (AbstractIsoSurface.ctor field rawLevels) l : ℚ) /
          ((if kernelClass (AbstractIsoSurface.ctor field rawLevels) l = KernelClass.single
            then 160 else 800 : Nat) : ℚ)⌉₊ ∧
    (kernelClass (AbstractIsoSurface.ctor field rawLevels) l = KernelClass.single →
      levelSize (AbstractIsoSurface.ctor field rawLevels) l ≤
        levelFootprint (AbstractIsoSurface.ctor field rawLevels) l) ∧
    ⌈(levelSize (AbstractIsoSurface.ctor field rawLevels) l : ℚ) / (5 : Nat)⌉₊ ≤
      levelFootprint (AbstractIsoSurface.ctor field rawLevels) l := by
  rw [levelFootprint_eq_addend field rawLevels l h3 hl, ceil_div_eq _ 5 (by norm_num)]
  have hk := kernelClass_single_iff field rawLevels l h3
  unfold levelAddend levelUnit
  by_cases hd : l < (AbstractIsoSurface.ctor field rawLevels).m_hp5_first_double_level
  · rw [if_pos hd, if_pos (hk.mpr hd), ceil_div_eq _ 160 (by norm_num),
      paddedBlocks_160 _ hfit]
    refine ⟨rfl, ?_, ?_⟩
    · intro _; omega
    · omega
  · rw [if_neg hd, if_neg (fun h => hd (hk.mp h)), ceil_div_eq _ 800 (by norm_num),
      paddedBlocks_800 _ hfit]
    refine ⟨rfl, ?_, ?_⟩
    · intro h; exact absurd (hk.mp h) hd
    · omega

/-- Witness for `level_footprint`: level 4 of a 257^3 lattice, a double-class
level with 1247 elements and footprint 320. -/
theorem level_footprint_witness :
    (3 ≤ 4 ∧ 4 < (AbstractIsoSurface.ctor ⟨257, 257, 257⟩ 11).m_hp5_levels ∧
      levelSize (AbstractIsoSurface.ctor ⟨257, 257, 257⟩ 11) 4 + 799 < 4294967296) ∧
    levelFootprint (AbstractIsoSurface.ctor ⟨257, 257, 257⟩ 11) 4 =
      160 * ⌈(levelSize (AbstractIsoSurface.ctor ⟨257, 257, 257⟩ 11) 4 : ℚ) /
        ((if kernelClass (AbstractIsoSurface.ctor ⟨257, 257, 257⟩ 11) 4 = KernelClass.single
          then 160 else 800 : Nat) : ℚ)⌉₊ :=
  ⟨⟨by decide, by decide, by decide⟩,
    (level_footprint ⟨257, 257, 257⟩ 11 4 (by decide) (by decide) (by decide)).1⟩

/-! ## Monotone offsets -/

theorem PaddingFits.leafFits {field : AbstractField} (h : PaddingFits field) :
    LeafFits field := by
  unfold PaddingFits at h
  unfold LeafFits
  omega

theorem inputNOf_padding (field : AbstractField) (h : PaddingFits field) :
    inputNOf (chunksOf (cellsOf field)) + 799 < 4294967296 := by
  rw [inputNOf_eq, Nat.mod_eq_of_lt h.leafFits]
  exact h

theorem levelSize_le_input (field : AbstractField) (rawLevels l : Nat)
    (hl : l < levelsOf rawLevels) :
    levelSize (AbstractIsoSurface.ctor field rawLevels) l ≤
      inputNOf (chunksOf (cellsOf field)) := by
  rw [levelSize_ctor field rawLevels l hl]
  have hN := inputNOf_lt (chunksOf (cellsOf field))
  exact shrink_iterate_le _ _ (by omega)

theorem levelSize_pos (field : AbstractField) (rawLevels l : Nat)
    (hl : l < levelsOf rawLevels) (hN : 1 ≤ inputNOf (chunksOf (cellsOf field))) :
    1 ≤ levelSize (AbstractIsoSurface.ctor field rawLevels) l := by
  have hlt := inputNOf_lt (chunksOf (cellsOf field))
  rw [levelSize_ctor field rawLevels l hl, shrink_iterate_eq _ _ (by omega)]
  have hpos : 0 < 5 ^ (levelsOf rawLevels - 1 - l) := by positivity
  rw [Nat.le_div_iff_mul_le hpos]
  omega

/-- Without overflow every level from 3 on adds at least 160 and at least
`ceil(size/5)` to `m_hp5_size`. -/
theorem levelAddend_ge (field : AbstractField) (rawLevels l : Nat)
    (hl : l < levelsOf rawLevels) (hcells : HasCells field) (hfit : CellsFit field)
    (hpad : PaddingFits field) :
    160 ≤ levelAddend (AbstractIsoSurface.ctor field rawLevels) l ∧
    (levelSize (AbstractIsoSurface.ctor field rawLevels) l + 4) / 5 ≤
      levelAddend (AbstractIsoSurface.ctor field rawLevels) l := by
  have hge := inputNOf_ge field hcells hfit hpad.leafFits
  have hle := levelSize_le_input field rawLevels l hl
  have hpos := levelSize_pos field rawLevels l hl (by omega)
  have hp := inputNOf_padding field hpad
  unfold levelAddend levelUnit
  split
  · rw [paddedBlocks_160 _ (by omega)]
    omega
  · rw [paddedBlocks_800 _ (by omega)]
    omega

/-- Without overflow the offsets from level 3 on and `m_hp5_size` are exact
prefix sums of the addends. -/
theorem offsets_exact (field : AbstractField) (rawLevels : Nat)
    (hsize : SizeFits (AbstractIsoSurface.ctor field rawLevels)) :
    (AbstractIsoSurface.ctor field rawLevels).m_hp5_size =
        32 + sumLevels (levelAddend (AbstractIsoSurface.ctor field rawLevels)) 3
          (levelsOf rawLevels) ∧
    ∀ l, 3 ≤ l → l < levelsOf rawLevels →
      levelOffset (AbstractIsoSurface.ctor field rawLevels) l =
        32 + sumLevels (levelAddend (AbstractIsoSurface.ctor field rawLevels)) 3 l := by
  obtain ⟨hs, _, _, _, _, ho⟩ := ctor_offsets field rawLevels
  have hfits : 32 + sumLevels (levelAddend (AbstractIsoSurface.ctor field rawLevels)) 3
      (levelsOf rawLevels) < 4294967296 := hsize
  refine ⟨by rw [hs]; exact Nat.mod_eq_of_lt hfits, ?_⟩
  intro l h3 hl
  rw [ho l h3 hl]
  apply Nat.mod_eq_of_lt
  have := sumLevels_le (levelAddend (AbstractIsoSurface.ctor field rawLevels)) 3 l
    (levelsOf rawLevels) h3 (by omega)
  omega

/-- Distance from the offset of a level to the next offset (or to
`m_hp5_size` for the leaf level), for levels from 3 on, without overflow. -/
theorem offset_succ (field : AbstractField) (rawLevels l : Nat)
    (hsize : SizeFits (AbstractIsoSurface.ctor field rawLevels))
    (h3 : 3 ≤ l) (hl : l < levelsOf rawLevels) :
    (l + 1 < levelsOf rawLevels →
      levelOffset (AbstractIsoSurface.ctor field rawLevels) (l + 1) =
        levelOffset (AbstractIsoSurface.ctor field rawLevels) l +
          levelAddend (AbstractIsoSurface.ctor field rawLevels) l) ∧
    (l + 1 = levelsOf rawLevels →
      (AbstractIsoSurface.ctor field rawLevels).m_hp5_size =
        levelOffset (AbstractIsoSurface.ctor field rawLevels) l +
          levelAddend (AbstractIsoSurface.ctor field rawLevels) l) := by
  obtain ⟨hs, ho⟩ := offsets_exact field rawLevels hsize
  constructor
  · intro hn
    rw [ho (l + 1) (by omega) hn, ho l h3 hl, sumLevels_last _ 3 l h3]
    omega
  · intro hn
    rw [hs, ho l h3 hl, ← hn, sumLevels_last _ 3 l h3]
    omega

/-- Claim C6, counterexample: a 166429980 x 2 x 2 lattice has one cell or more
along each axis and `800 * 5368709 = 4294967200` padded leaf elements, below
`2^32` (`ceilf(13.78..) = 14` levels); the rounding
addition `+799` of line 100 wraps for the leaf level, its addend is 0, and
`m_hp5_size` equals the last offset instead of exceeding it. -/
theorem offsets_monotone_counterexample :
    HasCells ⟨166429980, 2, 2⟩ ∧
    (AbstractIsoSurface.ctor ⟨166429980, 2, 2⟩ 14).m_hp5_input_N = 4294967200 ∧
    (AbstractIsoSurface.ctor ⟨166429980, 2, 2⟩ 14).m_hp5_levels = 14 ∧
    levelOffset (AbstractIsoSurface.ctor ⟨166429980, 2, 2⟩ 14) 13 = 214748832 ∧
    (AbstractIsoSurface.ctor ⟨166429980, 2, 2⟩ 14).m_hp5_size = 214748832 ∧
    ¬ levelOffset (AbstractIsoSurface.ctor ⟨166429980, 2, 2⟩ 14) 13 <
      (AbstractIsoSurface.ctor ⟨166429980, 2, 2⟩ 14).m_hp5_size := by
  decide

/-- Without overflow, each level's 5-entry groups end at or before the next
offset, and the offsets strictly increase; for the apex levels the first part
needs `size(0) <= 5`, `size(1) <= 25`, `size(2) <= 125`. -/
theorem offset_step (field : AbstractField) (rawLevels l : Nat)
    (hcells : HasCells field) (hfits : LayoutFits field rawLevels)
    (hl : l + 1 < levelsOf rawLevels) :
    levelOffset (AbstractIsoSurface.ctor field rawLevels) l <
        levelOffset (AbstractIsoSurface.ctor field rawLevels) (l + 1) ∧
    (levelSize (AbstractIsoSurface.ctor field rawLevels) l ≤ 5 ^ (l + 1) →
      levelOffset (AbstractIsoSurface.ctor field rawLevels) l +
          (levelSize (AbstractIsoSurface.ctor field rawLevels) l + 4) / 5 ≤
        levelOffset (AbstractIsoSurface.ctor field rawLevels) (l + 1)) := by
  obtain ⟨hfit, hpad, hsize⟩ := hfits
  have h4 := levelsOf_ge rawLevels
  obtain ⟨_, _, o0, o1, o2, _⟩ := ctor_offsets field rawLevels
  have o3 := (offsets_exact field rawLevels hsize).2 3 le_rfl (by omega)
  rw [sumLevels_self] at o3
  by_cases h3 : 3 ≤ l
  · rw [(offset_succ field rawLevels l hsize h3 (by omega)).1 hl]
    have := levelAddend_ge field rawLevels l (by omega) hcells hfit hpad
    omega
  · have hcases : l = 0 ∨ l = 1 ∨ l = 2 := by omega
    rcases hcases with rfl | rfl | rfl
    · rw [o0, o1]; norm_num; omega
    · rw [o1, o2]; norm_num; omega
    · rw [o2, o3]; norm_num; omega

/-- Without overflow `m_hp5_size` lies beyond the last offset. -/
theorem last_offset_lt_size (field : AbstractField) (rawLevels : Nat)
    (hcells : HasCells field) (hfits : LayoutFits field rawLevels) :
    levelOffset (AbstractIsoSurface.ctor field rawLevels) (levelsOf rawLevels - 1) <
      (AbstractIsoSurface.ctor field rawLevels).m_hp5_size := by
  obtain ⟨hfit, hpad, hsize⟩ := hfits
  have h4 := levelsOf_ge rawLevels
  rw [(offset_succ field rawLevels (levelsOf rawLevels - 1) hsize (by omega) (by omega)).2
    (by omega)]
  have := (levelAddend_ge field rawLevels (levelsOf rawLevels - 1) (by omega)
    hcells hfit hpad).1
  omega

/-- Claim C6, amended: for a grid with at least one cell along each axis and
no 32-bit overflow in the layout computation, the offset table is strictly
increasing in the level index and `m_hp5_size` is strictly greater than the
last offset. -/
theorem offsets_monotone (field : AbstractField) (rawLevels : Nat)
    (hcells : HasCells field) (hfits : LayoutFits field rawLevels) :
    (∀ l, l + 1 < (AbstractIsoSurface.ctor field rawLevels).m_hp5_levels →
      levelOffset (AbstractIsoSurface.ctor field rawLevels) l <
        levelOffset (AbstractIsoSurface.ctor field rawLevels) (l + 1)) ∧
    levelOffset (AbstractIsoSurface.ctor field rawLevels)
        ((AbstractIsoSurface.ctor field rawLevels).m_hp5_levels - 1) <
      (AbstractIsoSurface.ctor field rawLevels).m_hp5_size :=
  ⟨fun l hl => (offset_step field rawLevels l hcells hfits hl).1,
    last_offset_lt_size field rawLevels hcells hfits⟩

/-- Witness for `offsets_monotone`: a 257^3 lattice with 11 levels. -/
theorem offsets_monotone_witness :
    (HasCells ⟨257, 257, 257⟩ ∧ LayoutFits ⟨257, 257, 257⟩ 11) ∧
    levelOffset (AbstractIsoSurface.ctor ⟨257, 257, 257⟩ 11)
        ((AbstractIsoSurface.ctor ⟨257, 257, 257⟩ 11).m_hp5_levels - 1) <
      (AbstractIsoSurface.ctor ⟨257, 257, 257⟩ 11).m_hp5_size :=
  ⟨⟨by decide, by decide⟩, (offsets_monotone ⟨257, 257, 257⟩ 11 (by decide) (by decide)).2⟩

/-! ## Disjoint level ranges -/

theorem offset_mono (field : AbstractField) (rawLevels : Nat)
    (hcells : HasCells field) (hfits : LayoutFits field rawLevels) (l : Nat) :
    ∀ d, l + d < levelsOf rawLevels →
      levelOffset (AbstractIsoSurface.ctor field rawLevels) l ≤
        levelOffset (AbstractIsoSurface.ctor field rawLevels) (l + d) := by
  intro d
  induction d with
  | zero => intro _; exact le_rfl
  | succ d ih =>
    intro hd
    have h1 := ih (by omega)
    have h2 := (offset_step field rawLevels (l + d) hcells hfits (by omega)).1
    have e : l + (d + 1) = l + d + 1 := by omega
    rw [e]
    omega

theorem levelSize_le_pow (field : AbstractField) (rawLevels l : Nat)
    (hl : l < levelsOf rawLevels)
    (hlev : inputNOf (chunksOf (cellsOf field)) ≤ 5 ^ levelsOf rawLevels) :
    levelSize (AbstractIsoSurface.ctor field rawLevels) l ≤ 5 ^ (l + 1) := by
  have hlt := inputNOf_lt (chunksOf (cellsOf field))
  rw [levelSize_ctor field rawLevels l hl, shrink_iterate_eq _ _ (by omega)]
  have hpos : 0 < 5 ^ (levelsOf rawLevels - 1 - l) := by positivity
  have hpow : 5 ^ levelsOf rawLevels = 5 ^ (l + 1) * 5 ^ (levelsOf rawLevels - 1 - l) := by
    rw [← pow_add]
    congr 1
    omega
  rw [hpow] at hlev
  apply Nat.le_of_lt_succ
  rw [Nat.div_lt_iff_lt_mul hpos, Nat.succ_mul]
  omega

theorem groupRange_before (field : AbstractField) (rawLevels l l' : Nat)
    (hcells : HasCells field) (hfits : LayoutFits field rawLevels)
    (hlev : inputNOf (chunksOf (cellsOf field)) ≤ 5 ^ levelsOf rawLevels)
    (hlt : l < l') (hl' : l' < levelsOf rawLevels) :
    Disjoint (levelGroupRange (AbstractIsoSurface.ctor field rawLevels) l)
      (levelGroupRange (AbstractIsoSurface.ctor field rawLevels) l') := by
  have h1 := (offset_step field rawLevels l hcells hfits (by omega)).2
    (levelSize_le_pow field rawLevels l (by omega) hlev)
  have h2 := offset_mono field rawLevels hcells hfits (l + 1) (l' - (l + 1)) (by omega)
  have e : l + 1 + (l' - (l + 1)) = l' := by omega
  rw [e] at h2
  unfold levelGroupRange
  rw [Finset.disjoint_left]
  intro x hx hx'
  rw [Finset.mem_Ico] at hx hx'
  omega

/-- Claim C7, counterexample: on the single-cell grid (level sizes
2, 7, 32, 160, 800 and offsets 1, 2, 7, 32, 192) the ranges
`[offset, offset+size)` of levels 0 and 1 are `[1,3)` and `[2,9)`, which share
the element 2. -/
theorem level_ranges_counterexample :
    HasCells ⟨2, 2, 2⟩ ∧
    (0 < (AbstractIsoSurface.ctor ⟨2, 2, 2⟩ 5).m_hp5_levels ∧
      1 < (AbstractIsoSurface.ctor ⟨2, 2, 2⟩ 5).m_hp5_levels) ∧
    levelRange (AbstractIsoSurface.ctor ⟨2, 2, 2⟩ 5) 0 = Finset.Ico 1 3 ∧
    levelRange (AbstractIsoSurface.ctor ⟨2, 2, 2⟩ 5) 1 = Finset.Ico 2 9 ∧
    ¬ Disjoint (levelRange (AbstractIsoSurface.ctor ⟨2, 2, 2⟩ 5) 0)
      (levelRange (AbstractIsoSurface.ctor ⟨2, 2, 2⟩ 5) 1) := by
  have r0 : levelRange (AbstractIsoSurface.ctor ⟨2, 2, 2⟩ 5) 0 = Finset.Ico 1 3 := by
    unfold levelRange
    rw [show levelOffset (AbstractIsoSurface.ctor ⟨2, 2, 2⟩ 5) 0 = 1 by decide,
      show levelSize (AbstractIsoSurface.ctor ⟨2, 2, 2⟩ 5) 0 = 2 by decide]
  have r1 : levelRange (AbstractIsoSurface.ctor ⟨2, 2, 2⟩ 5) 1 = Finset.Ico 2 9 := by
    unfold levelRange
    rw [show levelOffset (AbstractIsoSurface.ctor ⟨2, 2, 2⟩ 5) 1 = 2 by decide,
      show levelSize (AbstractIsoSurface.ctor ⟨2, 2, 2⟩ 5) 1 = 7 by decide]
  refine ⟨by decide, by decide, r0, r1, ?_⟩
  rw [r0, r1, Finset.not_disjoint_iff]
  exact ⟨2, by simp, by simp⟩

/-- Claim C7, amended: for a grid with at least one cell along each axis, no
32-bit overflow in the layout computation and a level count with
`m_hp5_input_N <= 5^levels`, the ranges
`[offset(l), offset(l) + ceil(size(l)/5))` of any two distinct levels are
disjoint. -/
theorem level_ranges_disjoint (field : AbstractField) (rawLevels l l' : Nat)
    (hcells : HasCells field) (hfits : LayoutFits field rawLevels)
    (hlev : (AbstractIsoSurface.ctor field rawLevels).m_hp5_input_N ≤
      5 ^ (AbstractIsoSurface.ctor field rawLevels).m_hp5_levels)
    (hl : l < (AbstractIsoSurface.ctor field rawLevels).m_hp5_levels)
    (hl' : l' < (AbstractIsoSurface.ctor field rawLevels).m_hp5_levels)
    (hne : l ≠ l') :
    Disjoint (levelGroupRange (AbstractIsoSurface.ctor field rawLevels) l)
      (levelGroupRange (AbstractIsoSurface.ctor field rawLevels) l') := by
  rcases Nat.lt_or_gt_of_ne hne with h | h
  · exact groupRange_before field rawLevels l l' hcells hfits hlev h hl'
  · exact (groupRange_before field rawLevels l' l hcells hfits hlev h hl).symm

/-- Witness for `level_ranges_disjoint`: levels 0 and 1 of the single-cell
grid. -/
theorem level_ranges_disjoint_witness :
    (HasCells ⟨2, 2, 2⟩ ∧ LayoutFits ⟨2, 2, 2⟩ 5 ∧
      (AbstractIsoSurface.ctor ⟨2, 2, 2⟩ 5).m_hp5_input_N ≤
        5 ^ (AbstractIsoSurface.ctor ⟨2, 2, 2⟩ 5).m_hp5_levels) ∧
    Disjoint (levelGroupRange (AbstractIsoSurface.ctor ⟨2, 2, 2⟩ 5) 0)
      (levelGroupRange (AbstractIsoSurface.ctor ⟨2, 2, 2⟩ 5) 1) :=
  ⟨⟨by decide, by decide, by decide⟩,
    level_ranges_disjoint ⟨2, 2, 2⟩ 5 0 1 (by decide) (by decide) (by decide) (by decide)
      (by decide) (by decide)⟩

/-! ## Kernel classes -/

/-- Claim C10, counterexample: the single-cell grid has 5 levels; the guard
`m_hp5_first_single_level + 3 <= m_hp5_levels` fails, so
`m_hp5_first_triple_level` is 5 and not `5 - 3`, and the three levels nearest
the leaves are printed as apex, double, double. -/
theorem triple_levels_counterexample :
    HasCells ⟨2, 2, 2⟩ ∧
    (AbstractIsoSurface.ctor ⟨2, 2, 2⟩ 5).m_hp5_levels = 5 ∧
    (AbstractIsoSurface.ctor ⟨2, 2, 2⟩ 5).m_hp5_first_triple_level = 5 ∧
    (AbstractIsoSurface.ctor ⟨2, 2, 2⟩ 5).m_hp5_first_triple_level ≠
      (AbstractIsoSurface.ctor ⟨2, 2, 2⟩ 5).m_hp5_levels - 3 ∧
    kernelClass (AbstractIsoSurface.ctor ⟨2, 2, 2⟩ 5) 2 = KernelClass.apex ∧
    kernelClass (AbstractIsoSurface.ctor ⟨2, 2, 2⟩ 5) 3 = KernelClass.double ∧
    kernelClass (AbstractIsoSurface.ctor ⟨2, 2, 2⟩ 5) 4 = KernelClass.double := by
  decide

/-- Claim C10, amended: when the pyramid has at least 6 levels,
`m_hp5_first_triple_level == m_hp5_levels - 3` and exactly the three levels
nearest the leaves are triple-class; when it has 4 or 5 levels,
`m_hp5_first_triple_level == m_hp5_levels` and no level is triple-class. -/
theorem triple_levels (field : AbstractField) (rawLevels : Nat) :
    (6 ≤ (AbstractIsoSurface.ctor field rawLevels).m_hp5_levels →
      (AbstractIsoSurface.ctor field rawLevels).m_hp5_first_triple_level =
          (AbstractIsoSurface.ctor field rawLevels).m_hp5_levels - 3 ∧
      ∀ i, i < (AbstractIsoSurface.ctor field rawLevels).m_hp5_levels →
        (kernelClass (AbstractIsoSurface.ctor field rawLevels) i = KernelClass.triple ↔
          (AbstractIsoSurface.ctor field rawLevels).m_hp5_levels - 3 ≤ i)) ∧
    ((AbstractIsoSurface.ctor field rawLevels).m_hp5_levels < 6 →
      (AbstractIsoSurface.ctor field rawLevels).m_hp5_first_triple_level =
          (AbstractIsoSurface.ctor field rawLevels).m_hp5_levels ∧
      ∀ i, i < (AbstractIsoSurface.ctor field rawLevels).m_hp5_levels →
        kernelClass (AbstractIsoSurface.ctor field rawLevels) i ≠ KernelClass.triple) := by
  have h4 := levelsOf_ge rawLevels
  have hft := firstTripleOf_bounds (levelsOf rawLevels) h4
  have hfd := firstDoubleOf_bounds (firstTripleOf (levelsOf rawLevels)) hft.1
  have hclass : ∀ i, kernelClass (AbstractIsoSurface.ctor field rawLevels) i =
      KernelClass.triple ↔ firstTripleOf (levelsOf rawLevels) ≤ i := by
    intro i
    simp only [kernelClass, AbstractIsoSurface.ctor]
    constructor
    · intro h
      split at h
      · cases h
      · split at h
        · cases h
        · split at h
          · cases h
          · omega
    · intro h
      rw [if_neg (by omega), if_neg (by omega), if_neg (by omega)]
  simp only [show (AbstractIsoSurface.ctor field rawLevels).m_hp5_levels = levelsOf rawLevels
      from rfl,
    show (AbstractIsoSurface.ctor field rawLevels).m_hp5_first_triple_level =
      firstTripleOf (levelsOf rawLevels) from rfl]
  constructor
  · intro h6
    have e : firstTripleOf (levelsOf rawLevels) = levelsOf rawLevels - 3 := by
      unfold firstTripleOf; rw [if_pos (by omega)]
    refine ⟨e, fun i _ => ?_⟩
    rw [hclass i, e]
  · intro h6
    have e : firstTripleOf (levelsOf rawLevels) = levelsOf rawLevels := by
      unfold firstTripleOf; rw [if_neg (by omega)]
    refine ⟨e, fun i hi => ?_⟩
    rw [Ne, hclass i, e]
    omega

/-- Witness for `triple_levels`: a 257^3 lattice has 11 levels, of which
levels 8, 9 and 10 are triple-class. -/
theorem triple_levels_witness :
    6 ≤ (AbstractIsoSurface.ctor ⟨257, 257, 257⟩ 11).m_hp5_levels ∧
    (AbstractIsoSurface.ctor ⟨257, 257, 257⟩ 11).m_hp5_first_triple_level =
      (AbstractIsoSurface.ctor ⟨257, 257, 257⟩ 11).m_hp5_levels - 3 :=
  ⟨by decide, ((triple_levels ⟨257, 257, 257⟩ 11).1 (by decide)).1⟩

/-! ## Apex levels and class boundaries -/

theorem getElem?_of_getD (l : List Nat) (i : Nat) (h : i < l.length) :
    l[i]? = some (l.getD i 0) := by
  rw [List.getD_eq_getElem?_getD, List.getElem?_eq_getElem h]
  rfl

/-- Claim C11: for every grid geometry the levels 0, 1 and 2 exist and are
exactly the apex-class levels, their offsets are 1, 2 and 7, level 3 is placed
at offset 32, and that is the sideband offset `m_hp5_sb_d + 32` the apex launch
of `buildNonIndexed` reads. -/
theorem apex_levels (field : AbstractField) (rawLevels : Nat) :
    3 < (AbstractIsoSurface.ctor field rawLevels).m_hp5_levels ∧
    (∀ i, kernelClass (AbstractIsoSurface.ctor field rawLevels) i = KernelClass.apex ↔
      i < 3) ∧
    (AbstractIsoSurface.ctor field rawLevels).m_hp5_offsets[0]? = some 1 ∧
    (AbstractIsoSurface.ctor field rawLevels).m_hp5_offsets[1]? = some 2 ∧
    (AbstractIsoSurface.ctor field rawLevels).m_hp5_offsets[2]? = some 7 ∧
    (AbstractIsoSurface.ctor field rawLevels).m_hp5_offsets[3]? = some 32 ∧
    apexLaunch.sb_in.bind (DevPtr.resolve (AbstractIsoSurface.ctor field rawLevels)) =
      DevPtr.resolve (AbstractIsoSurface.ctor field rawLevels) (DevPtr.table 3) := by
  have h4 := levelsOf_ge rawLevels
  obtain ⟨_, hlen, o0, o1, o2, ho⟩ := ctor_offsets field rawLevels
  have o3 := ho 3 le_rfl (by omega)
  rw [sumLevels_self] at o3
  have e0 := getElem?_of_getD (AbstractIsoSurface.ctor field rawLevels).m_hp5_offsets 0
    (by omega)
  have e1 := getElem?_of_getD (AbstractIsoSurface.ctor field rawLevels).m_hp5_offsets 1
    (by omega)
  have e2 := getElem?_of_getD (AbstractIsoSurface.ctor field rawLevels).m_hp5_offsets 2
    (by omega)
  have e3 := getElem?_of_getD (AbstractIsoSurface.ctor field rawLevels).m_hp5_offsets 3
    (by omega)
  unfold levelOffset at o0 o1 o2 o3
  rw [o0] at e0
  rw [o1] at e1
  rw [o2] at e2
  rw [o3] at e3
  refine ⟨h4, ?_, e0, e1, e2, e3, ?_⟩
  · intro i
    have hs : (AbstractIsoSurface.ctor field rawLevels).m_hp5_first_single_level = 3 := rfl
    unfold kernelClass
    rw [hs]
    by_cases hi : i < 3
    · simp [hi]
    · rw [if_neg hi]
      constructor
      · intro h
        split at h
        · cases h
        · split at h <;> cases h
      · intro h
        exact absurd h hi
  · show some 32 >>= _ = _
    simp only [DevPtr.resolve, e3]
    rfl

/-- Claim C12: for every grid geometry
`3 <= first_double <= first_triple <= levels`, the number of double-class
levels is even, and the number of single-class levels is 0 or 1, being 1
exactly when the number of levels from 3 up to the first triple level is
odd. -/
theorem class_boundaries (field : AbstractField) (rawLevels : Nat) :
    3 ≤ (AbstractIsoSurface.ctor field rawLevels).m_hp5_first_double_level ∧
    (AbstractIsoSurface.ctor field rawLevels).m_hp5_first_double_level ≤
      (AbstractIsoSurface.ctor field rawLevels).m_hp5_first_triple_level ∧
    (AbstractIsoSurface.ctor field rawLevels).m_hp5_first_triple_level ≤
      (AbstractIsoSurface.ctor field rawLevels).m_hp5_levels ∧
    Even ((AbstractIsoSurface.ctor field rawLevels).m_hp5_first_triple_level -
      (AbstractIsoSurface.ctor field rawLevels).m_hp5_first_double_level) ∧
    ((AbstractIsoSurface.ctor field rawLevels).m_hp5_first_double_level - 3 = 0 ∨
      (AbstractIsoSurface.ctor field rawLevels).m_hp5_first_double_level - 3 = 1) ∧
    ((AbstractIsoSurface.ctor field rawLevels).m_hp5_first_double_level - 3 = 1 ↔
      Odd ((AbstractIsoSurface.ctor field rawLevels).m_hp5_first_triple_level - 3)) := by
  have h4 := levelsOf_ge rawLevels
  have hft := firstTripleOf_bounds (levelsOf rawLevels) h4
  have hfd := firstDoubleOf_bounds (firstTripleOf (levelsOf rawLevels)) hft.1
  simp only [AbstractIsoSurface.ctor]
  refine ⟨hfd.1, hfd.2.1, hft.2, ?_, ?_, ?_⟩
  · rw [Nat.even_iff]
    unfold firstDoubleOf
    omega
  · unfold firstDoubleOf
    omega
  · rw [Nat.odd_iff]
    unfold firstDoubleOf
    omega

/-! ## The host mirror and `triangles` -/

/-- What `buildNonIndexed` does on a field that is neither a
`FieldGlobalMemUChar` nor a `GLFieldUCharBuffer`: it throws, issues nothing on
the stream, and has already stored the new iso-value. -/
theorem buildNonIndexed_unsupported (s : IsoSurfaceObject) (iso : Nat)
    (h : s.m_field = FieldKind.other) :
    (s.buildNonIndexed iso).error = some "Unsupported field type" ∧
    (s.buildNonIndexed iso).ops = [] ∧
    (s.buildNonIndexed iso).state = { s with m_iso := iso } := by
  unfold IsoSurfaceObject.buildNonIndexed
  rw [h]
  exact ⟨rfl, rfl, rfl⟩

/-- Claim C15, the code at the failing input: on a surface with an unsupported
field and stored iso-value 0, `buildNonIndexed( 1, .. )` throws and launches
nothing, but the surface no longer is what it was: `m_iso` has become 1. -/
theorem buildNonIndexed_failing_input :
    ((IsoSurfaceObject.mk (AbstractIsoSurface.ctor ⟨2, 2, 2⟩ 5) FieldKind.other 0
        (0, 0)).buildNonIndexed 1).error = some "Unsupported field type" ∧
    ((IsoSurfaceObject.mk (AbstractIsoSurface.ctor ⟨2, 2, 2⟩ 5) FieldKind.other 0
        (0, 0)).buildNonIndexed 1).ops = [] ∧
    ((IsoSurfaceObject.mk (AbstractIsoSurface.ctor ⟨2, 2, 2⟩ 5) FieldKind.other 0
        (0, 0)).buildNonIndexed 1).state.m_iso = 1 ∧
    ((IsoSurfaceObject.mk (AbstractIsoSurface.ctor ⟨2, 2, 2⟩ 5) FieldKind.other 0
        (0, 0)).buildNonIndexed 1).state ≠
      IsoSurfaceObject.mk (AbstractIsoSurface.ctor ⟨2, 2, 2⟩ 5) FieldKind.other 0 (0, 0) := by
  refine ⟨rfl, rfl, rfl, ?_⟩
  intro h
  have h2 := congrArg IsoSurfaceObject.m_iso h
  exact absurd h2 (by decide)

/-! ## Degenerate geometry -/

theorem inputNOf_degenerate (field : AbstractField) (h : Degenerate field) :
    inputNOf (chunksOf (cellsOf field)) = 0 := by
  rw [inputNOf_eq]
  have hz : (chunksOf (cellsOf field)).x = 0 ∨ (chunksOf (cellsOf field)).y = 0 ∨
      (chunksOf (cellsOf field)).z = 0 := by
    simp only [cellsOf, chunksOf, usub, uadd]
    unfold Degenerate at h
    omega
  rcases hz with hz | hz | hz <;> simp [hz]

theorem shrink_iterate_zero (k : Nat) : shrink^[k] 0 = 0 := by
  induction k with
  | zero => rfl
  | succ k ih =>
    rw [Function.iterate_succ_apply', ih]
    rfl

theorem sumLevels_zero (g : Nat → Nat) (a b : Nat) (h : ∀ k, a ≤ k → k < b → g k = 0) :
    sumLevels g a b = 0 := by
  rw [sumLevels_congr g (fun _ => 0) a b h]
  unfold sumLevels
  simp

theorem paddedBlocks_zero (l : Nat) (s : AbstractIsoSurface) :
    paddedBlocks 0 (levelUnit s l) = 0 := by
  unfold levelUnit
  split <;> rfl

/-- With a degenerate geometry the padded leaf count is 0, every level is
empty and nothing is added to the 32-word apex reservation. -/
theorem ctor_degenerate (field : AbstractField) (rawLevels : Nat) (h : Degenerate field) :
    (AbstractIsoSurface.ctor field rawLevels).m_hp5_input_N = 0 ∧
    (∀ l, l < levelsOf rawLevels → levelSize (AbstractIsoSurface.ctor field rawLevels) l = 0) ∧
    (AbstractIsoSurface.ctor field rawLevels).m_hp5_size = 32 := by
  have hN := inputNOf_degenerate field h
  have hsz : ∀ l, l < levelsOf rawLevels →
      levelSize (AbstractIsoSurface.ctor field rawLevels) l = 0 := by
    intro l hl
    rw [levelSize_ctor field rawLevels l hl, hN, shrink_iterate_zero]
  refine ⟨hN, hsz, ?_⟩
  rw [(ctor_offsets field rawLevels).1, sumLevels_zero]
  intro k _ hk
  unfold levelAddend
  rw [hsz k hk, paddedBlocks_zero]

/-- Claim C16, counterexample: for a 1 x 2 x 2 lattice (no cell along x) with
every CUDA call succeeding, the constructor raises nothing: it requests
`4 * 32 = 128` bytes of device memory, makes the three other CUDA calls and
returns the object.  The level expression is given the value 0 here; by
`ctor_degenerate` the size is 32 for every value. -/
theorem construct_degenerate_counterexample :
    Degenerate ⟨1, 2, 2⟩ ∧
    (AbstractIsoSurface.construct ⟨1, 2, 2⟩ FieldKind.FieldGlobalMemUChar 0 ⟨0, 0, 0, 0⟩ 0).calls =
      [CudaCall.cudaMalloc 128, CudaCall.cudaHostAlloc 8, CudaCall.cudaHostGetDevicePointer,
        CudaCall.cudaEventCreateWithFlags] ∧
    (AbstractIsoSurface.construct ⟨1, 2, 2⟩ FieldKind.FieldGlobalMemUChar 0 ⟨0, 0, 0, 0⟩ 0).result =
      .ok ⟨AbstractIsoSurface.ctor ⟨1, 2, 2⟩ 0, FieldKind.FieldGlobalMemUChar, 0, (0, 0)⟩ := by
  refine ⟨by decide, by decide, rfl⟩

/-- Claim C16, amended: the constructor rejects no geometry.  For every field,
degenerate or not, it computes the layout and first requests
`sizeof(uint) * m_hp5_size` bytes with `cudaMalloc`; it returns the object
(with the mirror zeroed) when its four CUDA calls succeed, and the only
exception it throws is the `CUDAErrorException` of a failed CUDA call.  For a
width, height or depth of 0 or 1 the padded leaf count is 0 and `m_hp5_size`
is 32. -/
theorem construct_no_geometry_check (field : AbstractField) (kind : FieldKind)
    (rawLevels : Nat) (cuda : CudaResults) (iso0 : Nat) :
    (AbstractIsoSurface.construct field kind rawLevels cuda iso0).calls.head? =
      some (CudaCall.cudaMalloc (4 * (AbstractIsoSurface.ctor field rawLevels).m_hp5_size)) ∧
    (cuda.malloc = 0 ∧ cuda.hostAlloc = 0 ∧ cuda.hostGetDevicePointer = 0 ∧
        cuda.eventCreate = 0 →
      (AbstractIsoSurface.construct field kind rawLevels cuda iso0).result =
        .ok ⟨AbstractIsoSurface.ctor field rawLevels, kind, iso0, (0, 0)⟩) ∧
    (∀ e, (AbstractIsoSurface.construct field kind rawLevels cuda iso0).result = .error e →
      ∃ code, code ≠ 0 ∧ e = CtorError.CUDAErrorException code ∧
        (code = cuda.malloc ∨ code = cuda.hostAlloc ∨ code = cuda.hostGetDevicePointer ∨
          code = cuda.eventCreate)) ∧
    (Degenerate field →
      (AbstractIsoSurface.ctor field rawLevels).m_hp5_input_N = 0 ∧
      (AbstractIsoSurface.ctor field rawLevels).m_hp5_size = 32) := by
  refine ⟨?_, ?_, ?_, ?_⟩
  · unfold AbstractIsoSurface.construct
    simp only []
    split
    · rfl
    · split
      · rfl
      · split
        · rfl
        · split <;> rfl
  · rintro ⟨h1, h2, h3, h4⟩
    unfold AbstractIsoSurface.construct
    simp [h1, h2, h3, h4]
  · intro e he
    unfold AbstractIsoSurface.construct at he
    simp only [] at he
    split at he
    · injection he with he
      exact ⟨cuda.malloc, by assumption, he.symm, Or.inl rfl⟩
    · split at he
      · injection he with he
        exact ⟨cuda.hostAlloc, by assumption, he.symm, Or.inr (Or.inl rfl)⟩
      · split at he
        · injection he with he
          exact ⟨cuda.hostGetDevicePointer, by assumption, he.symm,
            Or.inr (Or.inr (Or.inl rfl))⟩
        · split at he
          · injection he with he
            exact ⟨cuda.eventCreate, by assumption, he.symm,
              Or.inr (Or.inr (Or.inr rfl))⟩
          · cases he
  · intro hd
    exact ⟨(ctor_degenerate field rawLevels hd).1, (ctor_degenerate field rawLevels hd).2.2⟩

/-- Witness for `construct_no_geometry_check`: the 1 x 2 x 2 lattice. -/
theorem construct_no_geometry_check_witness :
    Degenerate ⟨1, 2, 2⟩ ∧
    (AbstractIsoSurface.ctor ⟨1, 2, 2⟩ 0).m_hp5_input_N = 0 ∧
    (AbstractIsoSurface.ctor ⟨1, 2, 2⟩ 0).m_hp5_size = 32 :=
  ⟨by decide,
    (construct_no_geometry_check ⟨1, 2, 2⟩ FieldKind.FieldGlobalMemUChar 0 ⟨0, 0, 0, 0⟩ 0).2.2.2
      (by decide)⟩

/-! ## The launch sequence of `buildNonIndexed` -/

theorem writeOrder_cons (s : AbstractIsoSurface) (l : Launch) (ls : List Launch) :
    writeOrder s (l :: ls) = (levelsWritten s l).reverse ++ writeOrder s ls := by
  simp [writeOrder]

theorem writeOrder_append (s : AbstractIsoSurface) (ls ms : List Launch) :
    writeOrder s (ls ++ ms) = writeOrder s ls ++ writeOrder s ms := by
  simp [writeOrder]

/-- The double-level loop started `k` pairs above `first_double` launches `k`
double kernels, hands them the levels below the start down to `first_double`
in descending order, and chains the sideband pointers. -/
theorem doubleLoop_spec (s : AbstractIsoSurface) (fd : Nat) :
    ∀ (k fuel : Nat), k ≤ fuel →
      (doubleLoop fd fuel (fd + 2 * k)).map Launch.kernel =
          List.replicate k Kernel.run_hp5_buildup_level_double ∧
      (doubleLoop fd fuel (fd + 2 * k)).map Launch.sb_in ++ [some (DevPtr.table fd)] =
          some (DevPtr.table (fd + 2 * k)) ::
            (doubleLoop fd fuel (fd + 2 * k)).map Launch.sb_out ∧
      writeOrder s (doubleLoop fd fuel (fd + 2 * k)) = (List.range' fd (2 * k)).reverse := by
  intro k
  induction k with
  | zero =>
    intro fuel _
    cases fuel with
    | zero => exact ⟨rfl, rfl, rfl⟩
    | succ fuel =>
      have e : doubleLoop fd (fuel + 1) (fd + 2 * 0) = [] := by
        unfold doubleLoop
        rw [if_neg (by omega)]
      rw [e]
      exact ⟨rfl, rfl, rfl⟩
  | succ k ih =>
    intro fuel hf
    cases fuel with
    | zero => omega
    | succ fuel =>
      obtain ⟨h1, h2, h3⟩ := ih fuel (by omega)
      have e : doubleLoop fd (fuel + 1) (fd + 2 * (k + 1)) =
          doubleLaunch (fd + 2 * (k + 1)) :: doubleLoop fd fuel (fd + 2 * k) := by
        conv_lhs => unfold doubleLoop
        rw [if_pos (by omega)]
        have e2 : fd + 2 * (k + 1) - 2 = fd + 2 * k := by omega
        rw [e2]
      rw [e]
      refine ⟨?_, ?_, ?_⟩
      · rw [List.map_cons, h1, List.replicate_succ]
        rfl
      · rw [List.map_cons, List.map_cons, List.cons_append, h2]
        have e2 : fd + 2 * (k + 1) - 2 = fd + 2 * k := by omega
        simp only [doubleLaunch, e2]
      · rw [writeOrder_cons, h3]
        have e2 : fd + 2 * (k + 1) - 2 = fd + 2 * k := by omega
        have e3 : fd + 2 * (k + 1) - 1 = fd + 2 * k + 1 := by omega
        have e4 : 2 * (k + 1) = 2 * k + 1 + 1 := by omega
        simp only [levelsWritten, doubleLaunch, e2, e3, List.flatMap_cons, List.flatMap_nil,
          List.append_nil, List.singleton_append, List.reverse_cons, List.reverse_nil,
          List.nil_append]
        rw [e4, List.range'_concat, List.range'_concat, List.reverse_append,
          List.reverse_append]
        simp
        omega

/-- The single-level loop started `k` levels above `first_single` launches `k`
single kernels, hands them the levels below the start down to `first_single`
in descending order, and chains the sideband pointers. -/
theorem singleLoop_spec (s : AbstractIsoSurface) (fs : Nat) :
    ∀ (k fuel : Nat), k ≤ fuel →
      (singleLoop fs fuel (fs + k)).map Launch.kernel =
          List.replicate k Kernel.run_hp5_buildup_level_single ∧
      (singleLoop fs fuel (fs + k)).map Launch.sb_in ++ [some (DevPtr.table fs)] =
          some (DevPtr.table (fs + k)) :: (singleLoop fs fuel (fs + k)).map Launch.sb_out ∧
      writeOrder s (singleLoop fs fuel (fs + k)) = (List.range' fs k).reverse := by
  intro k
  induction k with
  | zero =>
    intro fuel _
    cases fuel with
    | zero => exact ⟨rfl, rfl, rfl⟩
    | succ fuel =>
      have e : singleLoop fs (fuel + 1) (fs + 0) = [] := by
        unfold singleLoop
        rw [if_neg (by omega)]
      rw [e]
      exact ⟨rfl, rfl, rfl⟩
  | succ k ih =>
    intro fuel hf
    cases fuel with
    | zero => omega
    | succ fuel =>
      obtain ⟨h1, h2, h3⟩ := ih fuel (by omega)
      have e : singleLoop fs (fuel + 1) (fs + (k + 1)) =
          singleLaunch (fs + (k + 1)) :: singleLoop fs fuel (fs + k) := by
        conv_lhs => unfold singleLoop
        rw [if_pos (by omega)]
        have e2 : fs + (k + 1) - 1 = fs + k := by omega
        rw [e2]
      rw [e]
      refine ⟨?_, ?_, ?_⟩
      · rw [List.map_cons, h1, List.replicate_succ]
        rfl
      · rw [List.map_cons, List.map_cons, List.cons_append, h2]
        have e2 : fs + (k + 1) - 1 = fs + k := by omega
        simp only [singleLaunch, e2]
      · rw [writeOrder_cons, h3]
        have e2 : fs + (k + 1) - 1 = fs + k := by omega
        simp only [levelsWritten, singleLaunch, e2, List.flatMap_cons, List.flatMap_nil,
          List.append_nil, List.reverse_cons, List.reverse_nil, List.nil_append]
        rw [List.range'_concat, List.reverse_append]
        simp

theorem launchesOf_append (a b : List BuildOp) :
    launchesOf (a ++ b) = launchesOf a ++ launchesOf b := by
  induction a with
  | nil => rfl
  | cons x xs ih =>
    cases x <;> simp [launchesOf, ih]

theorem launchesOf_map (ls : List Launch) : launchesOf (ls.map BuildOp.launch) = ls := by
  induction ls with
  | nil => rfl
  | cons x xs ih => simp [launchesOf, ih]

/-- On a supported field the launches are the base launch, the double loop,
the single loop and the apex launch, in this order. -/
theorem buildLaunches_eq (s : IsoSurfaceObject) (iso : Nat) (h : s.m_field ≠ FieldKind.other) :
    buildLaunches s iso =
      (baseLaunch s.layout ::
        (doubleLoop s.layout.m_hp5_first_double_level s.layout.m_hp5_levels
            s.layout.m_hp5_first_triple_level ++
          singleLoop s.layout.m_hp5_first_single_level s.layout.m_hp5_levels
            s.layout.m_hp5_first_double_level)) ++ [apexLaunch] := by
  have hred : launchesOf (reductionOps s.layout) =
      doubleLoop s.layout.m_hp5_first_double_level s.layout.m_hp5_levels
          s.layout.m_hp5_first_triple_level ++
        singleLoop s.layout.m_hp5_first_single_level s.layout.m_hp5_levels
          s.layout.m_hp5_first_double_level ++ [apexLaunch] := by
    unfold reductionOps
    rw [launchesOf_append, launchesOf_append, launchesOf_map, launchesOf_map]
    rfl
  unfold buildLaunches IsoSurfaceObject.buildNonIndexed
  cases hk : s.m_field with
  | FieldGlobalMemUChar =>
    simp only [launchesOf, hred, List.cons_append, List.append_assoc]
  | GLFieldUCharBuffer =>
    simp only [launchesOf, hred, List.cons_append, List.append_assoc, List.nil_append,
      List.append_eq]
  | other => exact absurd hk h

theorem doubleLoop_in_range (fd : Nat) :
    ∀ (fuel i : Nat) (l : Launch), l ∈ doubleLoop fd fuel i →
      ∃ j, l.sb_in = some (DevPtr.table j) ∧ j ≤ i := by
  intro fuel
  induction fuel with
  | zero => intro i l hl; cases hl
  | succ fuel ih =>
    intro i l hl
    unfold doubleLoop at hl
    split at hl
    · rcases List.mem_cons.mp hl with h | h
      · exact ⟨i, by rw [h]; rfl, le_rfl⟩
      · obtain ⟨j, hj, hle⟩ := ih (i - 2) l h
        exact ⟨j, hj, by omega⟩
    · cases hl

theorem singleLoop_in_range (fs : Nat) :
    ∀ (fuel i : Nat) (l : Launch), l ∈ singleLoop fs fuel i →
      ∃ j, l.sb_in = some (DevPtr.table j) ∧ j ≤ i := by
  intro fuel
  induction fuel with
  | zero => intro i l hl; cases hl
  | succ fuel ih =>
    intro i l hl
    unfold singleLoop at hl
    split at hl
    · rcases List.mem_cons.mp hl with h | h
      · exact ⟨i, by rw [h]; rfl, le_rfl⟩
      · obtain ⟨j, hj, hle⟩ := ih (i - 1) l h
        exact ⟨j, hj, by omega⟩
    · cases hl

theorem apexLevels_filter (field : AbstractField) (rawLevels : Nat) :
    (List.range (AbstractIsoSurface.ctor field rawLevels).m_hp5_levels).filter
        (fun i => kernelClass (AbstractIsoSurface.ctor field rawLevels) i = KernelClass.apex) =
      [0, 1, 2] := by
  have h4 := levelsOf_ge rawLevels
  have hs : (AbstractIsoSurface.ctor field rawLevels).m_hp5_levels =
      (levelsOf rawLevels - 3) + 3 := by
    show levelsOf rawLevels = _
    omega
  have hclass : ∀ i, kernelClass (AbstractIsoSurface.ctor field rawLevels) i =
      KernelClass.apex ↔ i < 3 := by
    intro i
    have hs : (AbstractIsoSurface.ctor field rawLevels).m_hp5_first_single_level = 3 := rfl
    unfold kernelClass
    rw [hs]
    by_cases hi : i < 3
    · simp [hi]
    · rw [if_neg hi]
      constructor
      · intro h
        split at h
        · cases h
        · split at h <;> cases h
      · intro h
        exact absurd h hi
  rw [hs, List.range_eq_range', ← List.range'_append 0 3 (levelsOf rawLevels - 3) 1,
    List.filter_append]
  have h1 : (List.range' 0 3).filter
      (fun i => kernelClass (AbstractIsoSurface.ctor field rawLevels) i = KernelClass.apex) =
      List.range' 0 3 := by
    rw [List.filter_eq_self]
    intro a ha
    rw [List.mem_range'_1] at ha
    simp only [decide_eq_true_eq]
    exact (hclass a).mpr (by omega)
  have h2 : (List.range' (0 + 1 * 3) (levelsOf rawLevels - 3)).filter
      (fun i => kernelClass (AbstractIsoSurface.ctor field rawLevels) i = KernelClass.apex) =
      [] := by
    rw [List.filter_eq_nil_iff]
    intro a ha
    rw [List.mem_range'_1] at ha
    simp only [decide_eq_true_eq]
    intro hc
    have := (hclass a).mp hc
    omega
  rw [h1, h2]
  rfl

theorem range'_split (a m n : Nat) :
    List.range' a (m + n) = List.range' a m ++ List.range' (a + m) n := by
  rw [Nat.add_comm m n, ← List.range'_append a m n 1, Nat.one_mul]

theorem ctor_offset3 (field : AbstractField) (rawLevels : Nat) :
    (AbstractIsoSurface.ctor field rawLevels).m_hp5_offsets[3]? = some 32 := by
  have h4 := levelsOf_ge rawLevels
  obtain ⟨_, hlen, _, _, _, ho⟩ := ctor_offsets field rawLevels
  have o3 := ho 3 le_rfl (by omega)
  rw [sumLevels_self] at o3
  have e3 := getElem?_of_getD (AbstractIsoSurface.ctor field rawLevels).m_hp5_offsets 3
    (by omega)
  unfold levelOffset at o3
  rw [o3] at e3
  exact e3

theorem ctor_offset_some (field : AbstractField) (rawLevels j : Nat)
    (hj : j < levelsOf rawLevels) :
    (AbstractIsoSurface.ctor field rawLevels).m_hp5_offsets[j]? ≠ none := by
  have hlen := (ctor_offsets field rawLevels).2.1
  rw [getElem?_of_getD _ j (by omega)]
  exact Option.some_ne_none _

/-- For a pyramid of at least 6 levels on a supported field, `buildNonIndexed`
launches the base triple kernel, then the double kernels, then the single
kernels, then the apex kernel; the levels are handed out leaf to root, each
exactly once; and every launch after the first reads the sideband offset the
launch before it wrote. -/
theorem buildLaunches_spec (field : AbstractField) (kind : FieldKind)
    (rawLevels iso0 iso : Nat) (top : Nat × Nat) (hk : kind ≠ FieldKind.other)
    (h6 : 6 ≤ levelsOf rawLevels) :
    (buildLaunches ⟨AbstractIsoSurface.ctor field rawLevels, kind, iso0, top⟩ iso).map
        Launch.kernel =
      (Kernel.run_hp5_buildup_base_triple_gb_ub ::
        (List.replicate ((firstTripleOf (levelsOf rawLevels) - 3) / 2)
            Kernel.run_hp5_buildup_level_double ++
          List.replicate (firstDoubleOf (firstTripleOf (levelsOf rawLevels)) - 3)
            Kernel.run_hp5_buildup_level_single)) ++ [Kernel.run_hp5_buildup_apex] ∧
    writeOrder (AbstractIsoSurface.ctor field rawLevels)
        (buildLaunches ⟨AbstractIsoSurface.ctor field rawLevels, kind, iso0, top⟩ iso) =
      (List.range (levelsOf rawLevels)).reverse ∧
    sidebandInputs (AbstractIsoSurface.ctor field rawLevels)
        (buildLaunches ⟨AbstractIsoSurface.ctor field rawLevels, kind, iso0, top⟩ iso) =
      sidebandOutputs (AbstractIsoSurface.ctor field rawLevels)
        (buildLaunches ⟨AbstractIsoSurface.ctor field rawLevels, kind, iso0, top⟩ iso) ∧
    ∀ o ∈ sidebandInputs (AbstractIsoSurface.ctor field rawLevels)
        (buildLaunches ⟨AbstractIsoSurface.ctor field rawLevels, kind, iso0, top⟩ iso),
      o ≠ none := by
  have hft : firstTripleOf (levelsOf rawLevels) = levelsOf rawLevels - 3 := by
    unfold firstTripleOf; rw [if_pos (by omega)]
  have hfd := firstDoubleOf_bounds (firstTripleOf (levelsOf rawLevels)) (by omega)
  have hk2 : firstDoubleOf (firstTripleOf (levelsOf rawLevels)) +
      2 * ((firstTripleOf (levelsOf rawLevels) - 3) / 2) = firstTripleOf (levelsOf rawLevels) := by
    unfold firstDoubleOf; omega
  have hk1 : 3 + (firstDoubleOf (firstTripleOf (levelsOf rawLevels)) - 3) =
      firstDoubleOf (firstTripleOf (levelsOf rawLevels)) := by omega
  obtain ⟨d1, d2, d3⟩ := doubleLoop_spec (AbstractIsoSurface.ctor field rawLevels)
    (firstDoubleOf (firstTripleOf (levelsOf rawLevels)))
    ((firstTripleOf (levelsOf rawLevels) - 3) / 2) (levelsOf rawLevels) (by omega)
  obtain ⟨s1, s2, s3⟩ := singleLoop_spec (AbstractIsoSurface.ctor field rawLevels) 3
    (firstDoubleOf (firstTripleOf (levelsOf rawLevels)) - 3) (levelsOf rawLevels) (by omega)
  rw [hk2] at d1 d2 d3
  rw [hk1] at s1 s2 s3
  have hlaunch : buildLaunches ⟨AbstractIsoSurface.ctor field rawLevels, kind, iso0, top⟩ iso =
      (baseLaunch (AbstractIsoSurface.ctor field rawLevels) ::
        (doubleLoop (firstDoubleOf (firstTripleOf (levelsOf rawLevels))) (levelsOf rawLevels)
            (firstTripleOf (levelsOf rawLevels)) ++
          singleLoop 3 (levelsOf rawLevels)
            (firstDoubleOf (firstTripleOf (levelsOf rawLevels))))) ++ [apexLaunch] :=
    buildLaunches_eq ⟨AbstractIsoSurface.ctor field rawLevels, kind, iso0, top⟩ iso hk
  have hlen := (ctor_offsets field rawLevels).2.1
  have ho3 := ctor_offset3 field rawLevels
  generalize hds : doubleLoop (firstDoubleOf (firstTripleOf (levelsOf rawLevels)))
    (levelsOf rawLevels) (firstTripleOf (levelsOf rawLevels)) = ds at *
  generalize hss : singleLoop 3 (levelsOf rawLevels)
    (firstDoubleOf (firstTripleOf (levelsOf rawLevels))) = ss at *
  rw [hlaunch]
  refine ⟨?_, ?_, ?_, ?_⟩
  · simp only [List.map_append, List.map_cons, List.map_nil, d1, s1]
    rfl
  · rw [writeOrder_append, writeOrder_cons, writeOrder_append, d3, s3, writeOrder_cons]
    have hbase : levelsWritten (AbstractIsoSurface.ctor field rawLevels)
        (baseLaunch (AbstractIsoSurface.ctor field rawLevels)) =
        List.range' (firstTripleOf (levelsOf rawLevels)) 3 := by
      have e1 : levelsOf rawLevels - 2 = firstTripleOf (levelsOf rawLevels) + 1 := by omega
      have e2 : levelsOf rawLevels - 1 = firstTripleOf (levelsOf rawLevels) + 1 + 1 := by omega
      simp only [levelsWritten, baseLaunch, AbstractIsoSurface.ctor, List.flatMap_cons,
        List.flatMap_nil, List.append_nil, List.singleton_append, List.range', e1, e2, ← hft]
    have hapex : levelsWritten (AbstractIsoSurface.ctor field rawLevels) apexLaunch =
        List.range' 0 3 := by
      simp only [levelsWritten, apexLaunch, List.flatMap_cons, List.flatMap_nil,
        List.append_nil]
      rw [apexLevels_filter]
      rfl
    have hsplit : List.range (levelsOf rawLevels) =
        List.range' 0 3 ++ (List.range' 3 (firstDoubleOf (firstTripleOf (levelsOf rawLevels)) - 3) ++
          (List.range' (firstDoubleOf (firstTripleOf (levelsOf rawLevels)))
              (2 * ((firstTripleOf (levelsOf rawLevels) - 3) / 2)) ++
            List.range' (firstTripleOf (levelsOf rawLevels)) 3)) := by
      have e : levelsOf rawLevels = 3 + ((firstDoubleOf (firstTripleOf (levelsOf rawLevels)) - 3) +
          (2 * ((firstTripleOf (levelsOf rawLevels) - 3) / 2) + 3)) := by omega
      conv_lhs => rw [e]
      rw [List.range_eq_range', range'_split, range'_split, range'_split, Nat.zero_add, hk1, hk2]
    rw [hbase, hapex, hsplit]
    simp only [List.reverse_append, writeOrder, List.flatMap_nil, List.append_nil,
      List.append_assoc]
  · unfold sidebandInputs sidebandOutputs
    rw [List.dropLast_concat, List.cons_append, List.tail_cons]
    have hmap : ∀ (f : Launch → Option DevPtr) (ls : List Launch),
        ls.map (fun l => (f l).bind (DevPtr.resolve (AbstractIsoSurface.ctor field rawLevels))) =
          (ls.map f).map
            (fun p => p.bind (DevPtr.resolve (AbstractIsoSurface.ctor field rawLevels))) := by
      intro f ls
      rw [List.map_map]
      rfl
    rw [hmap Launch.sb_in, hmap Launch.sb_out]
    have hout : (baseLaunch (AbstractIsoSurface.ctor field rawLevels) :: (ds ++ ss)).map
        Launch.sb_out =
        ds.map Launch.sb_in ++ (ss.map Launch.sb_in ++ [some (DevPtr.table 3)]) := by
      have hb : (baseLaunch (AbstractIsoSurface.ctor field rawLevels)).sb_out =
          some (DevPtr.table (firstTripleOf (levelsOf rawLevels))) := by
        simp only [baseLaunch, AbstractIsoSurface.ctor, hft]
      rw [List.map_cons, List.map_append, hb, ← List.cons_append, ← d2, s2,
        List.append_assoc, List.singleton_append]
    rw [hout]
    have ha : apexLaunch.sb_in = some (DevPtr.fixed 32) := rfl
    have hr1 : (some (DevPtr.fixed 32)).bind
        (DevPtr.resolve (AbstractIsoSurface.ctor field rawLevels)) = some 32 := rfl
    have hr2 : (some (DevPtr.table 3)).bind
        (DevPtr.resolve (AbstractIsoSurface.ctor field rawLevels)) = some 32 := ho3
    simp only [List.map_append, List.map_cons, List.map_nil, ha, hr1, hr2, List.append_assoc]
  · intro o ho
    unfold sidebandInputs at ho
    rw [List.cons_append, List.tail_cons, List.mem_map] at ho
    obtain ⟨l, hl, rfl⟩ := ho
    rw [List.mem_append, List.mem_append] at hl
    rcases hl with (hl | hl) | hl
    · rw [← hds] at hl
      obtain ⟨j, hj, hle⟩ := doubleLoop_in_range _ _ _ l hl
      rw [hj]
      exact ctor_offset_some field rawLevels j (by omega)
    · rw [← hss] at hl
      obtain ⟨j, hj, hle⟩ := singleLoop_in_range _ _ _ l hl
      rw [hj]
      exact ctor_offset_some field rawLevels j (by omega)
    · rw [List.mem_singleton] at hl
      rw [hl]
      exact Option.some_ne_none _

/-- Claim C13, the code at the failing input: for the single-cell grid (a
2 x 2 x 2 lattice, 5 levels) `m_hp5_first_triple_level` is 5 and
`m_hp5_first_double_level` is 3, so after the base launch on levels 2, 3, 4
the double loop runs once with `i = 5`: it is handed levels 3 and 4 again and
reads its sideband input at `m_hp5_offsets[5]`, past the end of the table,
not at offset 7 where the base launch wrote; the apex launch then is handed
level 2 a second time. -/
theorem buildLaunches_small_grid :
    HasCells ⟨2, 2, 2⟩ ∧
    buildLaunches ⟨AbstractIsoSurface.ctor ⟨2, 2, 2⟩ 5, FieldKind.FieldGlobalMemUChar, 0, (0, 0)⟩ 1 =
      [baseLaunch (AbstractIsoSurface.ctor ⟨2, 2, 2⟩ 5), doubleLaunch 5, apexLaunch] ∧
    writeOrder (AbstractIsoSurface.ctor ⟨2, 2, 2⟩ 5)
        (buildLaunches
          ⟨AbstractIsoSurface.ctor ⟨2, 2, 2⟩ 5, FieldKind.FieldGlobalMemUChar, 0, (0, 0)⟩ 1) =
      [4, 3, 2, 4, 3, 2, 1, 0] ∧
    sidebandInputs (AbstractIsoSurface.ctor ⟨2, 2, 2⟩ 5)
        (buildLaunches
          ⟨AbstractIsoSurface.ctor ⟨2, 2, 2⟩ 5, FieldKind.FieldGlobalMemUChar, 0, (0, 0)⟩ 1) =
      [none, some 32] ∧
    sidebandOutputs (AbstractIsoSurface.ctor ⟨2, 2, 2⟩ 5)
        (buildLaunches
          ⟨AbstractIsoSurface.ctor ⟨2, 2, 2⟩ 5, FieldKind.FieldGlobalMemUChar, 0, (0, 0)⟩ 1) =
      [some 7, some 32] := by
  decide

/-! ## Traversal -/

theorem prefixSum_zero (v : Nat → Nat) : prefixSum v 0 = 0 := rfl

theorem prefixSum_succ (v : Nat → Nat) (n : Nat) :
    prefixSum v (n + 1) = prefixSum v n + v n := by
  unfold prefixSum
  rw [List.range_succ, List.map_append, List.sum_append]
  simp

theorem prefixSum_mono (v : Nat → Nat) (a b : Nat) (h : a ≤ b) :
    prefixSum v a ≤ prefixSum v b := by
  induction b with
  | zero =>
    have : a = 0 := by omega
    subst this; exact le_rfl
  | succ b ih =>
    by_cases hb : a = b + 1
    · subst hb; exact le_rfl
    · have := ih (by omega)
      rw [prefixSum_succ]
      omega

theorem prefixSum_reduce5 (v : Nat → Nat) (p : Nat) :
    prefixSum (reduce5 v) p = prefixSum v (5 * p) := by
  induction p with
  | zero => rfl
  | succ p ih =>
    have e : 5 * (p + 1) = 5 * p + 1 + 1 + 1 + 1 + 1 := by omega
    rw [prefixSum_succ, ih, e, prefixSum_succ, prefixSum_succ, prefixSum_succ, prefixSum_succ,
      prefixSum_succ]
    unfold reduce5
    omega

theorem prefixSum_iterate (v : Nat → Nat) (k p : Nat) :
    prefixSum (reduce5^[k] v) p = prefixSum v (5 ^ k * p) := by
  induction k generalizing p with
  | zero => simp
  | succ k ih =>
    rw [Function.iterate_succ_apply', prefixSum_reduce5, ih]
    congr 1
    ring

theorem rootTotal_eq (levels : Nat) (leaf : Nat → Nat) :
    rootTotal levels leaf = prefixSum leaf (5 ^ levels) := by
  have h := prefixSum_iterate leaf levels 1
  rw [prefixSum_succ, prefixSum_zero, Nat.zero_add, Nat.mul_one] at h
  exact h

theorem pickChild_spec (v : Nat → Nat) (base : Nat) :
    ∀ (fuel j r : Nat), j + fuel = 4 →
      prefixSum v (base + j) + r < prefixSum v (base + 5) →
      prefixSum v (pickChild v base fuel j r).1 + (pickChild v base fuel j r).2 =
          prefixSum v (base + j) + r ∧
        (pickChild v base fuel j r).2 < v (pickChild v base fuel j r).1 := by
  intro fuel
  induction fuel with
  | zero =>
    intro j r hj hr
    have e : j = 4 := by omega
    subst e
    have h5 : prefixSum v (base + 5) = prefixSum v (base + 4) + v (base + 4) :=
      prefixSum_succ v (base + 4)
    unfold pickChild
    refine ⟨rfl, ?_⟩
    show r < v (base + 4)
    omega
  | succ fuel ih =>
    intro j r hj hr
    unfold pickChild
    by_cases hlt : r < v (base + j)
    · rw [if_pos hlt]
      exact ⟨rfl, hlt⟩
    · rw [if_neg hlt]
      have hs : prefixSum v (base + (j + 1)) = prefixSum v (base + j) + v (base + j) :=
        prefixSum_succ v (base + j)
      obtain ⟨h1, h2⟩ := ih (j + 1) (r - v (base + j)) (by omega) (by omega)
      exact ⟨by omega, h2⟩

theorem descend_spec (leaf : Nat → Nat) :
    ∀ (k node r : Nat), r < (reduce5^[k] leaf) node →
      prefixSum leaf (descend leaf k node r).1 + (descend leaf k node r).2 =
          prefixSum leaf (5 ^ k * node) + r ∧
        (descend leaf k node r).2 < leaf (descend leaf k node r).1 := by
  intro k
  induction k with
  | zero =>
    intro node r hr
    rw [Function.iterate_zero_apply] at hr
    unfold descend
    rw [pow_zero, Nat.one_mul]
    exact ⟨rfl, hr⟩
  | succ k ih =>
    intro node r hr
    rw [Function.iterate_succ_apply'] at hr
    have hpre : prefixSum (reduce5^[k] leaf) (5 * node + 0) + r <
        prefixSum (reduce5^[k] leaf) (5 * node + 5) := by
      have h1 := prefixSum_reduce5 (reduce5^[k] leaf) node
      have h2 := prefixSum_reduce5 (reduce5^[k] leaf) (node + 1)
      rw [prefixSum_succ] at h2
      have e : 5 * (node + 1) = 5 * node + 5 := by omega
      rw [e] at h2
      rw [Nat.add_zero]
      omega
    obtain ⟨p1, p2⟩ := pickChild_spec (reduce5^[k] leaf) (5 * node) 4 0 r rfl hpre
    obtain ⟨d1, d2⟩ := ih _ _ p2
    unfold descend
    refine ⟨?_, d2⟩
    rw [d1]
    have hc := prefixSum_iterate leaf k (pickChild (reduce5^[k] leaf) (5 * node) 4 0 r).1
    have hn := prefixSum_iterate leaf k (5 * node + 0)
    rw [hc, hn] at p1
    have e : 5 ^ (k + 1) * node = 5 ^ k * (5 * node + 0) := by ring
    rw [e]
    exact p1

/-- What `enumerate` returns for a dense index below the root total: the cell
and local index whose position in cell order is that dense index. -/
theorem enumerate_spec (levels : Nat) (leaf : Nat → Nat) (i : Nat)
    (hi : i < rootTotal levels leaf) :
    prefixSum leaf (enumerate levels leaf i).1 + (enumerate levels leaf i).2 = i ∧
    (enumerate levels leaf i).2 < leaf (enumerate levels leaf i).1 := by
  obtain ⟨h1, h2⟩ := descend_spec leaf levels 0 i hi
  rw [Nat.mul_zero, prefixSum_zero, Nat.zero_add] at h1
  exact ⟨h1, h2⟩

/-- A dense index has one decomposition into a cell and a local index below
the cell's count. -/
theorem prefix_decomposition_unique (leaf : Nat → Nat) (c c' k k' : Nat)
    (hk : k < leaf c) (hk' : k' < leaf c')
    (h : prefixSum leaf c + k = prefixSum leaf c' + k') : c = c' ∧ k = k' := by
  have key : ∀ a b x y, a < b → x < leaf a → prefixSum leaf a + x = prefixSum leaf b + y →
      False := by
    intro a b x y hab hx hxy
    have h1 := prefixSum_mono leaf (a + 1) b hab
    rw [prefixSum_succ] at h1
    omega
  rcases Nat.lt_trichotomy c c' with hlt | heq | hgt
  · exact (key c c' k k' hlt hk h).elim
  · subst heq
    exact ⟨rfl, by omega⟩
  · exact (key c' c k' k hgt hk' h.symm).elim

/-- Claim C18: on a pyramid of `levels` levels whose leaf counts vanish beyond
its `5^levels` leaf slots, with root total `T`, `enumerate` restricted to the
dense indices `[0, T)` is a bijection onto the pairs
`(cell_id, local_vertex_index)` with `local_vertex_index < count(cell_id)`;
`T` is the sum of all leaf counts, and the dense index of the pair returned
is the number of vertices of the earlier cells plus the local index. -/
theorem enumerate_bijection (levels : Nat) (leaf : Nat → Nat)
    (hsupp : ∀ c, 5 ^ levels ≤ c → leaf c = 0) :
    Set.BijOn (enumerate levels leaf) (Set.Iio (rootTotal levels leaf))
        {p : Nat × Nat | p.2 < leaf p.1} ∧
    rootTotal levels leaf = prefixSum leaf (5 ^ levels) ∧
    ∀ i, i < rootTotal levels leaf →
      prefixSum leaf (enumerate levels leaf i).1 + (enumerate levels leaf i).2 = i := by
  refine ⟨⟨?_, ?_, ?_⟩, rootTotal_eq levels leaf,
    fun i hi => (enumerate_spec levels leaf i hi).1⟩
  · intro i hi
    exact (enumerate_spec levels leaf i hi).2
  · intro i hi i' hi' heq
    have h1 := (enumerate_spec levels leaf i hi).1
    have h2 := (enumerate_spec levels leaf i' hi').1
    rw [heq] at h1
    omega
  · intro p hp
    have hp' : p.2 < leaf p.1 := hp
    have hc : p.1 < 5 ^ levels := by
      by_contra hge
      have := hsupp p.1 (by omega)
      omega
    have hi : prefixSum leaf p.1 + p.2 < rootTotal levels leaf := by
      rw [rootTotal_eq]
      have h1 := prefixSum_mono leaf (p.1 + 1) (5 ^ levels) hc
      rw [prefixSum_succ] at h1
      omega
    refine ⟨prefixSum leaf p.1 + p.2, hi, ?_⟩
    obtain ⟨e1, e2⟩ := enumerate_spec levels leaf _ hi
    obtain ⟨u1, u2⟩ := prefix_decomposition_unique leaf _ _ _ _ e2 hp' e1
    exact Prod.ext u1 u2

/-- Witness for `enumerate_bijection`: two levels over `sampleLeaf`, 9
vertices in all. -/
theorem enumerate_bijection_witness :
    (∀ c, 5 ^ 2 ≤ c → sampleLeaf c = 0) ∧
    Set.BijOn (enumerate 2 sampleLeaf) (Set.Iio (rootTotal 2 sampleLeaf))
      {p : Nat × Nat | p.2 < sampleLeaf p.1} :=
  ⟨fun c hc => by unfold sampleLeaf; rw [if_neg (by omega), if_neg (by omega)],
    (enumerate_bijection 2 sampleLeaf
      (fun c hc => by unfold sampleLeaf; rw [if_neg (by omega), if_neg (by omega)])).1⟩

/-! ## The values a build leaves in device memory -/

theorem levelValues_pred (levels : Nat) (leaf : Nat → Nat) (i : Nat) (h1 : 1 ≤ i)
    (h2 : i < levels) :
    levelValues levels leaf (i - 1) = reduce5 (levelValues levels leaf i) := by
  unfold levelValues
  have e : levels - 1 - (i - 1) = (levels - 1 - i) + 1 := by omega
  rw [e, Function.iterate_succ_apply']

theorem levelValues_leaf (levels : Nat) (leaf : Nat → Nat) (h : 1 ≤ levels) :
    levelValues levels leaf (levels - 1) = leaf := by
  unfold levelValues
  have e : levels - 1 - (levels - 1) = 0 := by omega
  rw [e, Function.iterate_zero_apply]

theorem runLaunch_eq (s : AbstractIsoSurface) (leaf : Nat → Nat) (m : DeviceMem) (l : Launch)
    (v : Nat → Nat) (offs : List Nat) (p : DevPtr) (o : Nat)
    (h1 : launchInput s leaf m l = some v)
    (h2 : resolveLevels s (levelsWritten s l).reverse = some offs)
    (h3 : l.sb_out = some p) (h4 : p.resolve s = some o) :
    runLaunch s leaf m l =
      some ⟨writeLevels m.hp offs v,
        Function.update m.sb o (some (reduce5^[offs.length] v)), m.top⟩ := by
  unfold runLaunch
  rw [h1, h2]
  simp only [h3, h4]

theorem resolveLevels_three (s : AbstractIsoSurface) (a b c : Nat) (oa ob oc : Nat)
    (ha : s.m_hp5_offsets[a]? = some oa) (hb : s.m_hp5_offsets[b]? = some ob)
    (hc : s.m_hp5_offsets[c]? = some oc) :
    resolveLevels s [a, b, c] = some [oa, ob, oc] := by
  simp only [resolveLevels, ha, hb, hc]

theorem reduce5_iterate_one (v : Nat → Nat) : reduce5^[1] v = reduce5 v :=
  Function.iterate_one reduce5 ▸ rfl

theorem reduce5_iterate_two (v : Nat → Nat) : reduce5^[2] v = reduce5 (reduce5 v) := by
  rw [show (2 : Nat) = 1 + 1 from rfl, Function.iterate_succ_apply', reduce5_iterate_one]

theorem reduce5_iterate_three (v : Nat → Nat) :
    reduce5^[3] v = reduce5 (reduce5 (reduce5 v)) := by
  rw [show (3 : Nat) = 2 + 1 from rfl, Function.iterate_succ_apply', reduce5_iterate_two]

/-- The base launch fills the three levels nearest the leaves and leaves the
frontier at `levels - 3`, whatever device memory held before. -/
theorem runLaunch_base (s : AbstractIsoSurface) (leaf : Nat → Nat) (m : DeviceMem)
    (hd : OffsetsDistinct s) (h3 : 3 ≤ s.m_hp5_levels) :
    ∃ m', runLaunch s leaf m (baseLaunch s) = some m' ∧
      FrontierInv s leaf (s.m_hp5_levels - 3) m' := by
  obtain ⟨hoff, hinj⟩ := hd
  have hin : launchInput s leaf m (baseLaunch s) = some leaf := rfl
  have hlv : resolveLevels s (levelsWritten s (baseLaunch s)).reverse =
      some [levelOffset s (s.m_hp5_levels - 1), levelOffset s (s.m_hp5_levels - 2),
        levelOffset s (s.m_hp5_levels - 3)] := by
    have e : (levelsWritten s (baseLaunch s)).reverse =
        [s.m_hp5_levels - 1, s.m_hp5_levels - 2, s.m_hp5_levels - 3] := by
      simp [levelsWritten, baseLaunch]
    rw [e]
    exact resolveLevels_three s _ _ _ _ _ _ (hoff _ (by omega)) (hoff _ (by omega))
      (hoff _ (by omega))
  have hrun := runLaunch_eq s leaf m (baseLaunch s) _ _ (DevPtr.table (s.m_hp5_levels - 3))
    (levelOffset s (s.m_hp5_levels - 3)) hin hlv rfl (hoff _ (by omega))
  have e0 : levelValues s.m_hp5_levels leaf (s.m_hp5_levels - 1) = leaf :=
    levelValues_leaf _ _ (by omega)
  have e1 : levelValues s.m_hp5_levels leaf (s.m_hp5_levels - 2) = reduce5 leaf := by
    have := levelValues_pred s.m_hp5_levels leaf (s.m_hp5_levels - 1) (by omega) (by omega)
    have e : s.m_hp5_levels - 1 - 1 = s.m_hp5_levels - 2 := by omega
    rw [e, e0] at this
    exact this
  have e2 : levelValues s.m_hp5_levels leaf (s.m_hp5_levels - 3) = reduce5 (reduce5 leaf) := by
    have := levelValues_pred s.m_hp5_levels leaf (s.m_hp5_levels - 2) (by omega) (by omega)
    have e : s.m_hp5_levels - 2 - 1 = s.m_hp5_levels - 3 := by omega
    rw [e, e1] at this
    exact this
  refine ⟨_, hrun, ?_, ?_⟩
  · intro l hl hlL
    simp only [writeLevels]
    by_cases hl3 : l = s.m_hp5_levels - 3
    · rw [hl3, Function.update_same, e2]
    · rw [Function.update_noteq (hinj l _ hlL (by omega) hl3)]
      by_cases hl2 : l = s.m_hp5_levels - 2
      · rw [hl2, Function.update_same, e1]
      · rw [Function.update_noteq (hinj l _ hlL (by omega) hl2)]
        have hl1 : l = s.m_hp5_levels - 1 := by omega
        rw [hl1, Function.update_same, e0]
  · simp only [List.length_cons, List.length_nil, Function.update_same]
    rw [show (0 + 1 + 1 + 1 : Nat) = 3 from rfl, reduce5_iterate_three, e2]

theorem offset_strict_mono (field : AbstractField) (rawLevels l l' : Nat)
    (hcells : HasCells field) (hfits : LayoutFits field rawLevels)
    (hlt : l < l') (hl' : l' < levelsOf rawLevels) :
    levelOffset (AbstractIsoSurface.ctor field rawLevels) l <
      levelOffset (AbstractIsoSurface.ctor field rawLevels) l' := by
  have h1 := (offset_step field rawLevels l hcells hfits (by omega)).1
  have h2 := offset_mono field rawLevels hcells hfits (l + 1) (l' - (l + 1)) (by omega)
  have e : l + 1 + (l' - (l + 1)) = l' := by omega
  rw [e] at h2
  omega

theorem ctor_offsetsDistinct (field : AbstractField) (rawLevels : Nat)
    (hcells : HasCells field) (hfits : LayoutFits field rawLevels) :
    OffsetsDistinct (AbstractIsoSurface.ctor field rawLevels) := by
  have hlen := (ctor_offsets field rawLevels).2.1
  constructor
  · intro l hl
    have hl2 : l < levelsOf rawLevels := hl
    exact getElem?_of_getD _ l (by omega)
  · intro l l' hl hl' hne
    have hl2 : l < levelsOf rawLevels := hl
    have hl2' : l' < levelsOf rawLevels := hl'
    rcases Nat.lt_or_gt_of_ne hne with h | h
    · have := offset_strict_mono field rawLevels l l' hcells hfits h hl2'
      omega
    · have := offset_strict_mono field rawLevels l' l hcells hfits h hl2
      omega

theorem buildLaunches_single_cell :
    buildLaunches ⟨AbstractIsoSurface.ctor ⟨2, 2, 2⟩ 5, FieldKind.FieldGlobalMemUChar, 0, (0, 0)⟩ 1 =
      [baseLaunch (AbstractIsoSurface.ctor ⟨2, 2, 2⟩ 5), doubleLaunch 5, apexLaunch] := by
  decide

/-- Claim C17, the code at the failing input: for the single-cell grid (a
2 x 2 x 2 lattice, 5 levels), whatever the per-cell counts and the prior
memory contents, the build has no defined result: after the base launch the
double launch takes its input from `m_hp5_sb_d + m_hp5_offsets[5]`, an index
past the end of the offset table, and rewrites levels 3 and 4 from it. -/
theorem buildPyramid_small_grid :
    (AbstractIsoSurface.ctor ⟨2, 2, 2⟩ 5).m_hp5_offsets.length = 5 ∧
    (doubleLaunch 5).sb_in = some (DevPtr.table 5) ∧
    DevPtr.resolve (AbstractIsoSurface.ctor ⟨2, 2, 2⟩ 5) (DevPtr.table 5) = none ∧
    ∀ (leaf : Nat → Nat) (m0 : DeviceMem),
      buildPyramid ⟨AbstractIsoSurface.ctor ⟨2, 2, 2⟩ 5, FieldKind.FieldGlobalMemUChar, 0, (0, 0)⟩
        1 leaf m0 = none := by
  refine ⟨by decide, rfl, by decide, ?_⟩
  intro leaf m0
  unfold buildPyramid
  rw [buildLaunches_single_cell]
  show runLaunches (AbstractIsoSurface.ctor ⟨2, 2, 2⟩ 5) leaf m0 _ = none
  have hd := ctor_offsetsDistinct ⟨2, 2, 2⟩ 5 (by decide) (by decide)
  obtain ⟨m1, r1, _⟩ := runLaunch_base (AbstractIsoSurface.ctor ⟨2, 2, 2⟩ 5) leaf m0 hd
    (by decide)
  have hin : launchInput (AbstractIsoSurface.ctor ⟨2, 2, 2⟩ 5) leaf m1 (doubleLaunch 5) = none := by
    have hres : DevPtr.resolve (AbstractIsoSurface.ctor ⟨2, 2, 2⟩ 5) (DevPtr.table 5) = none := by
      decide
    simp only [launchInput, doubleLaunch, hres]
    rfl
  have r2 : runLaunch (AbstractIsoSurface.ctor ⟨2, 2, 2⟩ 5) leaf m1 (doubleLaunch 5) = none := by
    unfold runLaunch
    rw [hin]
  simp only [runLaunches, r1, r2]

/-! ## Table indices evaluated by `buildNonIndexed` -/

theorem doubleLoop_mem (fd : Nat) :
    ∀ (fuel i : Nat) (l : Launch), l ∈ doubleLoop fd fuel i →
      ∃ j, l = doubleLaunch j ∧ j ≤ i := by
  intro fuel
  induction fuel with
  | zero => intro i l hl; cases hl
  | succ fuel ih =>
    intro i l hl
    unfold doubleLoop at hl
    split at hl
    · rcases List.mem_cons.mp hl with h | h
      · exact ⟨i, h, le_rfl⟩
      · obtain ⟨j, hj, hle⟩ := ih (i - 2) l h
        exact ⟨j, hj, by omega⟩
    · cases hl

theorem singleLoop_mem (fs : Nat) :
    ∀ (fuel i : Nat) (l : Launch), l ∈ singleLoop fs fuel i →
      ∃ j, l = singleLaunch j ∧ j ≤ i := by
  intro fuel
  induction fuel with
  | zero => intro i l hl; cases hl
  | succ fuel ih =>
    intro i l hl
    unfold singleLoop at hl
    split at hl
    · rcases List.mem_cons.mp hl with h | h
      · exact ⟨i, h, le_rfl⟩
      · obtain ⟨j, hj, hle⟩ := ih (i - 1) l h
        exact ⟨j, hj, by omega⟩
    · cases hl

theorem doubleLaunch_indices (j i : Nat)
    (h : i ∈ (doubleLaunch j).offsetIndices ++ [(doubleLaunch j).size_index]) : i ≤ j := by
  simp [doubleLaunch, Launch.offsetIndices, DevPtr.tableIndex] at h
  omega

theorem singleLaunch_indices (j i : Nat)
    (h : i ∈ (singleLaunch j).offsetIndices ++ [(singleLaunch j).size_index]) : i ≤ j := by
  simp [singleLaunch, Launch.offsetIndices, DevPtr.tableIndex] at h
  omega

theorem baseLaunch_indices (s : AbstractIsoSurface) (i : Nat) (h3 : 0 < s.m_hp5_levels)
    (h : i ∈ (baseLaunch s).offsetIndices ++ [(baseLaunch s).size_index]) :
    i < s.m_hp5_levels := by
  simp [baseLaunch, Launch.offsetIndices, DevPtr.tableIndex] at h
  omega

/-- With six or more levels every table index evaluated by `buildNonIndexed`
is below `m_hp5_levels`. -/
theorem tableIndices_in_range (field : AbstractField) (rawLevels : Nat) (kind : FieldKind)
    (iso0 iso : Nat) (top : Nat × Nat) (hk : kind ≠ FieldKind.other)
    (h6 : 6 ≤ (AbstractIsoSurface.ctor field rawLevels).m_hp5_levels) :
    ∀ i, i ∈ tableIndices
        (buildLaunches ⟨AbstractIsoSurface.ctor field rawLevels, kind, iso0, top⟩ iso) →
      i < (AbstractIsoSurface.ctor field rawLevels).m_hp5_levels := by
  have h4 := levelsOf_ge rawLevels
  have hL : (AbstractIsoSurface.ctor field rawLevels).m_hp5_levels = levelsOf rawLevels := rfl
  have hft : (AbstractIsoSurface.ctor field rawLevels).m_hp5_first_triple_level =
      firstTripleOf (levelsOf rawLevels) := rfl
  have hfd : (AbstractIsoSurface.ctor field rawLevels).m_hp5_first_double_level =
      firstDoubleOf (firstTripleOf (levelsOf rawLevels)) := rfl
  have e3 : firstTripleOf (levelsOf rawLevels) = levelsOf rawLevels - 3 := by
    unfold firstTripleOf
    rw [if_pos (by rw [hL] at h6; omega)]
  have b2 := firstDoubleOf_bounds (firstTripleOf (levelsOf rawLevels))
    (firstTripleOf_bounds (levelsOf rawLevels) h4).1
  have hb := buildLaunches_eq ⟨AbstractIsoSurface.ctor field rawLevels, kind, iso0, top⟩ iso hk
  intro i hi
  rw [hb] at hi
  unfold tableIndices at hi
  obtain ⟨l, hl, hil⟩ := List.mem_flatMap.1 hi
  rcases List.mem_append.1 hl with hl | hl
  · rcases List.mem_cons.1 hl with hl | hl
    · rw [hl] at hil
      exact baseLaunch_indices _ i (by omega) hil
    · rcases List.mem_append.1 hl with hl | hl
      · obtain ⟨j, e, hj⟩ := doubleLoop_mem _ _ _ l hl
        rw [e] at hil
        have := doubleLaunch_indices j i hil
        rw [hft, e3] at hj
        rw [hL] at h6 ⊢
        omega
      · obtain ⟨j, e, hj⟩ := singleLoop_mem _ _ _ l hl
        rw [e] at hil
        have := singleLaunch_indices j i hil
        rw [hfd] at hj
        rw [hL] at h6 ⊢
        omega
  · rw [List.mem_singleton.1 hl] at hil
    simp [apexLaunch, Launch.offsetIndices, DevPtr.tableIndex] at hil
    omega

/-- Claim C23, the code at the failing input: for a grid of 2 x 2 x 2 cells
(a 3 x 3 x 3 lattice, 5 levels, tables of 5 entries) `buildNonIndexed`
evaluates, in order, the offset indices 2, 3, 4, 2 and the size index 4 for
the base launch, then in the double loop with `i = 5` the offset indices
3, 4, 3, 5 and the size index 4: the index 5 equals `m_hp5_levels` and
`m_hp5_offsets[5]` does not exist. -/
theorem tableIndices_small_grid :
    HasCells ⟨3, 3, 3⟩ ∧
    (AbstractIsoSurface.ctor ⟨3, 3, 3⟩ 5).m_cells = ⟨2, 2, 2⟩ ∧
    (AbstractIsoSurface.ctor ⟨3, 3, 3⟩ 5).m_hp5_levels = 5 ∧
    (AbstractIsoSurface.ctor ⟨3, 3, 3⟩ 5).m_hp5_offsets.length = 5 ∧
    (AbstractIsoSurface.ctor ⟨3, 3, 3⟩ 5).m_hp5_level_sizes.length = 5 ∧
    (AbstractIsoSurface.ctor ⟨3, 3, 3⟩ 5).m_hp5_first_triple_level = 5 ∧
    (AbstractIsoSurface.ctor ⟨3, 3, 3⟩ 5).m_hp5_first_double_level = 3 ∧
    tableIndices (buildLaunches
        ⟨AbstractIsoSurface.ctor ⟨3, 3, 3⟩ 5, FieldKind.FieldGlobalMemUChar, 0, (0, 0)⟩ 1) =
      [2, 3, 4, 2, 4, 3, 4, 3, 5, 4, 2] ∧
    ¬ (5 < (AbstractIsoSurface.ctor ⟨3, 3, 3⟩ 5).m_hp5_levels) ∧
    (AbstractIsoSurface.ctor ⟨3, 3, 3⟩ 5).m_hp5_offsets[5]? = none := by
  decide

/-! ## Room for the parent-grouped entries of a level -/

theorem apex_footprints (field : AbstractField) (rawLevels : Nat) :
    levelFootprint (AbstractIsoSurface.ctor field rawLevels) 0 = 1 ∧
    levelFootprint (AbstractIsoSurface.ctor field rawLevels) 1 = 5 ∧
    levelFootprint (AbstractIsoSurface.ctor field rawLevels) 2 = 25 := by
  have h4 := levelsOf_ge rawLevels
  obtain ⟨_, _, o0, o1, o2, ho⟩ := ctor_offsets field rawLevels
  have o3 := ho 3 le_rfl (by omega)
  rw [sumLevels_self] at o3
  have hL : (AbstractIsoSurface.ctor field rawLevels).m_hp5_levels = levelsOf rawLevels := rfl
  refine ⟨?_, ?_, ?_⟩
  · unfold levelFootprint
    rw [if_pos (by rw [hL]; omega), o0, o1]
    rfl
  · unfold levelFootprint
    rw [if_pos (by rw [hL]; omega), o1, o2]
    rfl
  · unfold levelFootprint
    rw [if_pos (by rw [hL]; omega), o2, o3]
    rfl

/-- Claim C24, counterexample: on a 166429980 x 2 x 2 lattice the padded leaf
count 4294967200 has the 14 levels of its base-5 logarithm, but the rounding
`+799` of the leaf level wraps in 32 bits, so the leaf level gets no room at
all: `m_hp5_size` equals its offset, while it has 858993440 groups of five. -/
theorem level_region_counterexample :
    HasCells ⟨166429980, 2, 2⟩ ∧
    (AbstractIsoSurface.ctor ⟨166429980, 2, 2⟩ 14).m_hp5_levels = 14 ∧
    (AbstractIsoSurface.ctor ⟨166429980, 2, 2⟩ 14).m_hp5_input_N ≤ 5 ^ 14 ∧
    levelSize (AbstractIsoSurface.ctor ⟨166429980, 2, 2⟩ 14) 13 = 4294967200 ∧
    levelFootprint (AbstractIsoSurface.ctor ⟨166429980, 2, 2⟩ 14) 13 = 0 ∧
    ¬ (levelSize (AbstractIsoSurface.ctor ⟨166429980, 2, 2⟩ 14) 13 + 4) / 5 ≤
      levelFootprint (AbstractIsoSurface.ctor ⟨166429980, 2, 2⟩ 14) 13 := by
  decide

/-- Claim C24, amended: for a grid with at least one cell along each axis, no
32-bit overflow in the cell, chunk and padding arithmetic, and a level count
with `m_hp5_input_N <= 5^levels`, every level `l` has room for its groups of
five: `ceil(size(l)/5)` is at most the distance from `offset(l)` to the next
offset (to `m_hp5_size` for the leaf level).  The apex levels have room 1, 5
and 25, and `size(0) <= 5`, `size(1) <= 25`, `size(2) <= 125`. -/
theorem level_region_fits (field : AbstractField) (rawLevels l : Nat)
    (hcells : HasCells field) (hfit : CellsFit field) (hpad : PaddingFits field)
    (hlev : (AbstractIsoSurface.ctor field rawLevels).m_hp5_input_N ≤
      5 ^ (AbstractIsoSurface.ctor field rawLevels).m_hp5_levels)
    (hl : l < (AbstractIsoSurface.ctor field rawLevels).m_hp5_levels) :
    (levelSize (AbstractIsoSurface.ctor field rawLevels) l + 4) / 5 ≤
        levelFootprint (AbstractIsoSurface.ctor field rawLevels) l ∧
    (levelFootprint (AbstractIsoSurface.ctor field rawLevels) 0 = 1 ∧
      levelFootprint (AbstractIsoSurface.ctor field rawLevels) 1 = 5 ∧
      levelFootprint (AbstractIsoSurface.ctor field rawLevels) 2 = 25) ∧
    levelSize (AbstractIsoSurface.ctor field rawLevels) 0 ≤ 5 ∧
    levelSize (AbstractIsoSurface.ctor field rawLevels) 1 ≤ 25 ∧
    levelSize (AbstractIsoSurface.ctor field rawLevels) 2 ≤ 125 := by
  have h4 := levelsOf_ge rawLevels
  have hl2 : l < levelsOf rawLevels := hl
  have s0 := levelSize_le_pow field rawLevels 0 (by omega) hlev
  have s1 := levelSize_le_pow field rawLevels 1 (by omega) hlev
  have s2 := levelSize_le_pow field rawLevels 2 (by omega) hlev
  obtain ⟨f0, f1, f2⟩ := apex_footprints field rawLevels
  refine ⟨?_, ⟨f0, f1, f2⟩, by omega, by omega, by omega⟩
  by_cases h3 : 3 ≤ l
  · rw [levelFootprint_eq_addend field rawLevels l h3 hl2]
    exact (levelAddend_ge field rawLevels l hl2 hcells hfit hpad).2
  · have hc : l = 0 ∨ l = 1 ∨ l = 2 := by omega
    rcases hc with e | e | e
    · rw [e, f0]; omega
    · rw [e, f1]; omega
    · rw [e, f2]; omega

/-- Witness for `level_region_fits`: level 3 of the single-cell grid, whose
160 entries are 32 groups and whose region is 160 groups long. -/
theorem level_region_fits_witness :
    (HasCells ⟨2, 2, 2⟩ ∧ CellsFit ⟨2, 2, 2⟩ ∧ PaddingFits ⟨2, 2, 2⟩ ∧
      (AbstractIsoSurface.ctor ⟨2, 2, 2⟩ 5).m_hp5_input_N ≤
        5 ^ (AbstractIsoSurface.ctor ⟨2, 2, 2⟩ 5).m_hp5_levels ∧
      3 < (AbstractIsoSurface.ctor ⟨2, 2, 2⟩ 5).m_hp5_levels) ∧
    (levelSize (AbstractIsoSurface.ctor ⟨2, 2, 2⟩ 5) 3 + 4) / 5 ≤
      levelFootprint (AbstractIsoSurface.ctor ⟨2, 2, 2⟩ 5) 3 :=
  ⟨⟨by decide, by decide, by decide, by decide, by decide⟩,
    (level_region_fits ⟨2, 2, 2⟩ 5 3 (by decide) (by decide) (by decide) (by decide)
      (by decide)).1⟩

/-! ## `triangles` after a build -/

end cuhpmc

namespace glhpmc

/-! ## Cell-count accessors -/

/-- Claim C19, the code at the failing input: on a surface with 1 x 2 x 3
cells `cellsX()` returns 1, but `cellsY()` and `cellsZ()` return 1 as well,
the value of `m_cells_x`, not the values 2 and 3 of `m_cells_y` and
`m_cells_z`. -/
theorem cells_accessors_failing_input :
    (HPMCIsoSurface.mk 1 2 3).cellsX = (HPMCIsoSurface.mk 1 2 3).m_cells_x ∧
    (HPMCIsoSurface.mk 1 2 3).cellsY = 1 ∧
    (HPMCIsoSurface.mk 1 2 3).cellsY ≠ (HPMCIsoSurface.mk 1 2 3).m_cells_y ∧
    (HPMCIsoSurface.mk 1 2 3).cellsZ = 1 ∧
    (HPMCIsoSurface.mk 1 2 3).cellsZ ≠ (HPMCIsoSurface.mk 1 2 3).m_cells_z := by
  decide

/-- All three accessors return `m_cells_x`. -/
theorem cells_accessors (h : HPMCIsoSurface) :
    h.cellsX = h.m_cells_x ∧ h.cellsY = h.m_cells_x ∧ h.cellsZ = h.m_cells_x :=
  ⟨rfl, rfl, rfl⟩

/-! ## GL state across the renderer entry points -/

theorem restoreState_eq (old gl : GLState) : restoreState old gl = old := by
  cases old
  cases gl
  rfl

/-- On the success path both entry points put the four saved values back
(before the renderer constructor runs, in the case of
`HPMCcreateIsoSurfaceRenderer`). -/
theorem renderer_success_restores (handle : HPMCIsoSurface) (th : HPMCIsoSurfaceRenderer)
    (source : String) (untaint : GLState → Bool × GLState)
    (rendererCtor : GLState → GLState) (gl : GLState) (hok : (untaint gl).1 = true) :
    HPMCcreateIsoSurfaceRenderer (some handle) untaint rendererCtor gl =
        (some ⟨handle⟩, rendererCtor gl) ∧
    HPMCisoSurfaceRendererShaderSource (some th) source untaint gl = (some source, gl) := by
  unfold HPMCcreateIsoSurfaceRenderer HPMCisoSurfaceRendererShaderSource
  simp [hok, restoreState_eq]

/-- On the failure path both entry points return `NULL` and leave the GL state
as `untaint()` left it: the four restoring calls are skipped. -/
theorem renderer_failure_skips_restore (handle : HPMCIsoSurface)
    (th : HPMCIsoSurfaceRenderer) (source : String) (untaint : GLState → Bool × GLState)
    (rendererCtor : GLState → GLState) (gl : GLState) (hfail : (untaint gl).1 = false) :
    HPMCcreateIsoSurfaceRenderer (some handle) untaint rendererCtor gl =
        (none, (untaint gl).2) ∧
    HPMCisoSurfaceRendererShaderSource (some th) source untaint gl =
        (none, (untaint gl).2) := by
  unfold HPMCcreateIsoSurfaceRenderer HPMCisoSurfaceRendererShaderSource
  simp [hfail]

/-- Claim C20, the code at the failing input: with framebuffer 0 bound, a call
on a non-NULL handle whose `untaint()` fails after binding framebuffer 9
returns `NULL` and leaves framebuffer 9 bound, for both entry points. -/
theorem renderer_failing_input :
    HPMCcreateIsoSurfaceRenderer (some ⟨1, 1, 1⟩) untaintIncomplete id
        ⟨(0, 0, 640, 480), 0, 0, 0⟩ =
      (none, ⟨(0, 0, 640, 480), 0, 0, 9⟩) ∧
    (HPMCcreateIsoSurfaceRenderer (some ⟨1, 1, 1⟩) untaintIncomplete id
        ⟨(0, 0, 640, 480), 0, 0, 0⟩).2.framebuffer_binding ≠
      (GLState.mk (0, 0, 640, 480) 0 0 0).framebuffer_binding ∧
    HPMCisoSurfaceRendererShaderSource (some ⟨⟨1, 1, 1⟩⟩) "" untaintIncomplete
        ⟨(0, 0, 640, 480), 0, 0, 0⟩ =
      (none, ⟨(0, 0, 640, 480), 0, 0, 9⟩) ∧
    (HPMCisoSurfaceRendererShaderSource (some ⟨⟨1, 1, 1⟩⟩) "" untaintIncomplete
        ⟨(0, 0, 640, 480), 0, 0, 0⟩).2.framebuffer_binding ≠
      (GLState.mk (0, 0, 640, 480) 0 0 0).framebuffer_binding := by
  refine ⟨rfl, by decide, rfl, by decide⟩

/-! ## `HPMCHistoPyramid::build`: return value -/

/-- Claim C27: `build` returns `false` exactly when a reduction program it
needs is missing, that is when `m_size_l2 >= 1` and `m_reduce1_program == 0`,
or `m_size_l2 >= 2`, `m_reduce1_program != 0` and `m_reducen_program == 0`;
in every other state it returns `true`. -/
theorem build_retval (hp : HPMCHistoPyramid) (tex_unit_a : Int) :
    ((hp.build tex_unit_a).value = false ↔
      (hp.m_size_l2 ≥ 1 ∧ hp.m_reduce1_program = 0) ∨
      (hp.m_size_l2 ≥ 2 ∧ hp.m_reduce1_program ≠ 0 ∧ hp.m_reducen_program = 0)) ∧
    ((hp.build tex_unit_a).value = true ↔
      ¬ ((hp.m_size_l2 ≥ 1 ∧ hp.m_reduce1_program = 0) ∨
        (hp.m_size_l2 ≥ 2 ∧ hp.m_reduce1_program ≠ 0 ∧ hp.m_reducen_program = 0))) := by
  have key : (hp.build tex_unit_a).value = false ↔
      (hp.m_size_l2 ≥ 1 ∧ hp.m_reduce1_program = 0) ∨
      (hp.m_size_l2 ≥ 2 ∧ hp.m_reduce1_program ≠ 0 ∧ hp.m_reducen_program = 0) := by
    show (hp.reduce tex_unit_a).1 = false ↔ _
    unfold HPMCHistoPyramid.reduce
    by_cases h1 : hp.m_size_l2 ≥ 1
    · by_cases p1 : hp.m_reduce1_program = 0
      · rw [if_pos h1, if_pos p1]
        exact ⟨fun _ => Or.inl ⟨h1, p1⟩, fun _ => rfl⟩
      · by_cases h2 : hp.m_size_l2 ≥ 2
        · by_cases p2 : hp.m_reducen_program = 0
          · rw [if_pos h1, if_neg p1, if_pos h2, if_pos p2]
            exact ⟨fun _ => Or.inr ⟨h2, p1, p2⟩, fun _ => rfl⟩
          · rw [if_pos h1, if_neg p1, if_pos h2, if_neg p2]
            refine ⟨fun h => absurd (show true = false from h) (by decide), ?_⟩
            rintro (⟨_, h⟩ | ⟨_, _, h⟩)
            · exact absurd h p1
            · exact absurd h p2
        · rw [if_pos h1, if_neg p1, if_neg h2]
          refine ⟨fun h => absurd (show true = false from h) (by decide), ?_⟩
          rintro (⟨_, h⟩ | ⟨h, _, _⟩)
          · exact absurd h p1
          · exact absurd h h2
    · rw [if_neg h1]
      refine ⟨fun h => absurd (show true = false from h) (by decide), ?_⟩
      rintro (⟨h, _⟩ | ⟨h, _, _⟩)
      · exact absurd h h1
      · exact absurd (show hp.m_size_l2 ≥ 1 by omega) h1
  refine ⟨key, ?_⟩
  rw [← key]
  cases (hp.build tex_unit_a).value <;> simp

/-! ## `HPMCHistoPyramid::count`: the cached top count -/

theorem wrapGLsizei_of_fits (z : Int) (h1 : -2147483648 ≤ z) (h2 : z < 2147483648) :
    wrapGLsizei z = z := by
  unfold wrapGLsizei
  omega

theorem count_fresh (hp : HPMCHistoPyramid) (mem : ℚ × ℚ × ℚ × ℚ)
    (h : hp.m_top_count_updated = false) :
    (hp.count mem).calls =
        [GLCall.glBindBuffer hp.m_top_pbo, GLCall.glGetBufferSubData, GLCall.glBindBuffer 0] ∧
    (hp.count mem).value = wrapGLsizei (wrapGLsizei (wrapGLsizei
        (floorCount mem.1 + floorCount mem.2.1) + floorCount mem.2.2.1) +
          floorCount mem.2.2.2) ∧
    (hp.count mem).state.m_top_count = (hp.count mem).value ∧
    (hp.count mem).state.m_top_count_updated = true := by
  unfold HPMCHistoPyramid.count
  rw [h]
  exact ⟨rfl, rfl, rfl, rfl⟩

theorem count_cached (hp : HPMCHistoPyramid) (mem : ℚ × ℚ × ℚ × ℚ)
    (h : hp.m_top_count_updated = true) :
    hp.count mem = { value := hp.m_top_count, calls := [], state := hp } := by
  unfold HPMCHistoPyramid.count
  rw [h]
  rfl

theorem count_sum_of_fits (mem : ℚ × ℚ × ℚ × ℚ) (hfit : CountFits mem) :
    wrapGLsizei (wrapGLsizei (wrapGLsizei
        (floorCount mem.1 + floorCount mem.2.1) + floorCount mem.2.2.1) +
          floorCount mem.2.2.2) =
      ⌊mem.1⌋ + ⌊mem.2.1⌋ + ⌊mem.2.2.1⌋ + ⌊mem.2.2.2⌋ := by
  obtain ⟨⟨a1, a2⟩, ⟨b1, b2⟩, ⟨c1, c2⟩, ⟨d1, d2⟩, ⟨e1, e2⟩, ⟨f1, f2⟩, ⟨g1, g2⟩⟩ := hfit
  unfold floorCount
  rw [wrapGLsizei_of_fits _ a1 a2, wrapGLsizei_of_fits _ b1 b2, wrapGLsizei_of_fits _ c1 c2,
    wrapGLsizei_of_fits _ d1 d2, wrapGLsizei_of_fits _ e1 e2, wrapGLsizei_of_fits _ f1 f2,
    wrapGLsizei_of_fits _ g1 g2]

theorem count_again (hp : HPMCHistoPyramid) (mem mem' : ℚ × ℚ × ℚ × ℚ) :
    (hp.count mem).state.count mem' =
      { value := (hp.count mem).value, calls := [], state := (hp.count mem).state } := by
  cases h : hp.m_top_count_updated with
  | false =>
    obtain ⟨_, _, h3, h4⟩ := count_fresh hp mem h
    rw [count_cached _ mem' h4, h3]
  | true =>
    rw [count_cached hp mem h]
    exact count_cached hp mem' h

/-- Claim C28: every `build`, whatever it returns, and every `configure`
clear `m_top_count_updated`.  A call of `count()` in a state with the flag
cleared reads the four readback channels with one `glGetBufferSubData` and
returns `floor(c0)+floor(c1)+floor(c2)+floor(c3)` when these sums fit a
`GLsizei`; the call after it, whatever the buffer holds by then, returns the
same value, issues no GL call and leaves the state as it is. -/
theorem count_idempotent (hp : HPMCHistoPyramid) (tex_unit_a size_l2 : Int)
    (gen : Nat → Nat) (complete : Nat → Bool) (mem mem' : ℚ × ℚ × ℚ × ℚ) :
    (hp.build tex_unit_a).state.m_top_count_updated = false ∧
    (hp.configure size_l2 gen complete).state.m_top_count_updated = false ∧
    (hp.m_top_count_updated = false →
      (hp.count mem).calls =
          [GLCall.glBindBuffer hp.m_top_pbo, GLCall.glGetBufferSubData,
            GLCall.glBindBuffer 0] ∧
      (hp.count mem).calls.count GLCall.glGetBufferSubData = 1 ∧
      (CountFits mem →
        (hp.count mem).value = ⌊mem.1⌋ + ⌊mem.2.1⌋ + ⌊mem.2.2.1⌋ + ⌊mem.2.2.2⌋) ∧
      (hp.count mem).state.m_top_count_updated = true) ∧
    ((hp.count mem).state.count mem').value = (hp.count mem).value ∧
    ((hp.count mem).state.count mem').calls = [] ∧
    ((hp.count mem).state.count mem').state = (hp.count mem).state := by
  refine ⟨rfl, rfl, ?_, ?_, ?_, ?_⟩
  · intro h
    obtain ⟨h1, h2, _, h4⟩ := count_fresh hp mem h
    refine ⟨h1, ?_, ?_, h4⟩
    · rw [h1]
      simp [List.count_cons]
    · intro hfit
      rw [h2]
      exact count_sum_of_fits mem hfit
  · rw [count_again]
  · rw [count_again]
  · rw [count_again]

/-- Witness for `count_idempotent`: after a build of the sample pyramid the
channels 3, 0, 7/2 and 12 give the count 18. -/
theorem count_idempotent_witness :
    ((samplePyramid.build 0).state.m_top_count_updated = false ∧
      CountFits (3, 0, 7 / 2, 12)) ∧
    ((samplePyramid.build 0).state.count (3, 0, 7 / 2, 12)).value = 18 := by
  have hfit : CountFits (3, 0, 7 / 2, 12) := by
    unfold CountFits
    norm_num
  refine ⟨⟨rfl, hfit⟩, ?_⟩
  have h := ((count_idempotent (samplePyramid.build 0).state 0 0 id (fun _ => true)
    (3, 0, 7 / 2, 12) (3, 0, 7 / 2, 12)).2.2.1 rfl).2.2.1 hfit
  rw [h]
  norm_num

/-! ## `configure` and the reduction passes of `build` -/

theorem shiftOne_eq (n : Nat) (hn : n ≤ 30) : shiftOne (n : Int) = 2 ^ n := by
  unfold shiftOne wrapGLsizei
  rw [Int.toNat_ofNat]
  have h1 : (2 : Int) ^ n ≤ 2 ^ 30 := pow_le_pow_right₀ (by norm_num) hn
  have h2 : (0 : Int) < 2 ^ n := by positivity
  omega

theorem passesOf_readback (hp : HPMCHistoPyramid) (fb : Option Nat) (w h : Int) :
    passesOf hp.readback fb w h = [] := rfl

theorem passesOf_firstPass (hp : HPMCHistoPyramid) (tex_unit_a : Int) (rest : List GLCall)
    (fb : Option Nat) (w h : Int) :
    passesOf (hp.firstPass tex_unit_a ++ rest) fb w h =
      ⟨hp.m_fbos[1]?, Int.tdiv hp.m_size 2, Int.tdiv hp.m_size 2⟩ ::
        passesOf rest hp.m_fbos[1]? (Int.tdiv hp.m_size 2) (Int.tdiv hp.m_size 2) := by
  unfold HPMCHistoPyramid.firstPass
  cases hp.glsl110 <;> rfl

theorem passesOf_upperPass (hp : HPMCHistoPyramid) (m : Nat) (rest : List GLCall)
    (fb : Option Nat) (w h : Int) :
    passesOf (hp.upperPass m ++ rest) fb w h =
      ⟨hp.m_fbos[m]?, shiftOne (hp.m_size_l2 - m), shiftOne (hp.m_size_l2 - m)⟩ ::
        passesOf rest hp.m_fbos[m]? (shiftOne (hp.m_size_l2 - m))
          (shiftOne (hp.m_size_l2 - m)) := by
  unfold HPMCHistoPyramid.upperPass
  cases hp.glsl110 <;> rfl

theorem passesOf_upperLoop (hp : HPMCHistoPyramid) (rest : List GLCall)
    (hrest : ∀ fb w h, passesOf rest fb w h = []) :
    ∀ (ms : List Nat) (fb : Option Nat) (w h : Int),
      passesOf (ms.flatMap hp.upperPass ++ rest) fb w h =
        ms.map fun m =>
          ⟨hp.m_fbos[m]?, shiftOne (hp.m_size_l2 - m), shiftOne (hp.m_size_l2 - m)⟩ := by
  intro ms
  induction ms with
  | nil =>
    intro fb w h
    exact hrest fb w h
  | cons m ms ih =>
    intro fb w h
    rw [List.flatMap_cons, List.append_assoc, passesOf_upperPass, ih, List.map_cons]

theorem passesOf_upperPasses (hp : HPMCHistoPyramid) (tex_unit_a : Int) (rest : List GLCall)
    (hrest : ∀ fb w h, passesOf rest fb w h = []) (fb : Option Nat) (w h : Int) :
    passesOf (hp.upperPasses tex_unit_a ++ rest) fb w h =
      (List.range' 2 (hp.m_size_l2.toNat - 1)).map fun m =>
        ⟨hp.m_fbos[m]?, shiftOne (hp.m_size_l2 - m), shiftOne (hp.m_size_l2 - m)⟩ := by
  have key := passesOf_upperLoop hp rest hrest (List.range' 2 (hp.m_size_l2.toNat - 1)) fb w h
  rw [← key]
  unfold HPMCHistoPyramid.upperPasses
  cases hp.glsl110 <;> rfl

/-- The reduction passes of a `build` that returns `true`: the first pass into
`m_fbos[1]` if `m_size_l2 >= 1`, then one pass for each `m` from 2 to
`m_size_l2`. -/
theorem build_passes (hp : HPMCHistoPyramid) (tex_unit_a : Int)
    (hok : (hp.build tex_unit_a).value = true) (fb : Option Nat) (w h : Int) :
    passesOf (hp.build tex_unit_a).calls fb w h =
      (if hp.m_size_l2 ≥ 1 then
          [⟨hp.m_fbos[1]?, Int.tdiv hp.m_size 2, Int.tdiv hp.m_size 2⟩]
        else []) ++
      (List.range' 2 (hp.m_size_l2.toNat - 1)).map fun m =>
        ⟨hp.m_fbos[m]?, shiftOne (hp.m_size_l2 - m), shiftOne (hp.m_size_l2 - m)⟩ := by
  have hv : (hp.reduce tex_unit_a).1 = true := hok
  show passesOf ((hp.reduce tex_unit_a).2 ++ hp.readback) fb w h = _
  unfold HPMCHistoPyramid.reduce at hv ⊢
  by_cases h1 : hp.m_size_l2 ≥ 1
  · rw [if_pos h1] at hv ⊢
    rw [if_pos h1]
    by_cases p1 : hp.m_reduce1_program = 0
    · rw [if_pos p1] at hv
      exact absurd (show false = true from hv) (by decide)
    · rw [if_neg p1] at hv ⊢
      by_cases h2 : hp.m_size_l2 ≥ 2
      · rw [if_pos h2] at hv ⊢
        by_cases p2 : hp.m_reducen_program = 0
        · rw [if_pos p2] at hv
          exact absurd (show false = true from hv) (by decide)
        · rw [if_neg p2]
          show passesOf ((hp.firstPass tex_unit_a ++ hp.upperPasses tex_unit_a) ++
            hp.readback) fb w h = _
          rw [List.append_assoc, passesOf_firstPass,
            passesOf_upperPasses hp tex_unit_a hp.readback (passesOf_readback hp)]
          rfl
      · rw [if_neg h2]
        show passesOf (hp.firstPass tex_unit_a ++ hp.readback) fb w h = _
        rw [passesOf_firstPass, passesOf_readback]
        have e : hp.m_size_l2.toNat - 1 = 0 := by omega
        rw [e]
        rfl
  · rw [if_neg h1, if_neg h1]
    show passesOf ([] ++ hp.readback) fb w h = _
    rw [List.nil_append, passesOf_readback]
    have e : hp.m_size_l2.toNat - 1 = 0 := by omega
    rw [e]
    rfl

theorem attachmentsOf_loop (m_tex : Nat) (m_fbos : List Nat) :
    ∀ (ms : List Nat) (fb : Option Nat),
      attachmentsOf (ms.flatMap (HPMCHistoPyramid.attach m_tex m_fbos)) fb =
        ms.map fun m => (m_fbos[m]?, m) := by
  intro ms
  induction ms with
  | nil => intro fb; rfl
  | cons m ms ih =>
    intro fb
    rw [List.flatMap_cons, List.map_cons, ← ih m_fbos[m]?]
    rfl

theorem configure_attachments (hp : HPMCHistoPyramid) (size_l2 : Int) (gen : Nat → Nat)
    (complete : Nat → Bool) (fb : Option Nat) :
    attachmentsOf (hp.configure size_l2 gen complete).calls fb =
      (List.range (hp.configure size_l2 gen complete).state.m_fbos.length).map fun m =>
        ((hp.configure size_l2 gen complete).state.m_fbos[m]?, m) := by
  rw [← attachmentsOf_loop hp.m_tex (hp.configure size_l2 gen complete).state.m_fbos _ fb]
  unfold HPMCHistoPyramid.configure
  cases hp.m_fbos.isEmpty <;> rfl

theorem configure_fbos (hp : HPMCHistoPyramid) (n : Nat) (gen : Nat → Nat)
    (complete : Nat → Bool) :
    (hp.configure n gen complete).state.m_fbos = (List.range (n + 1)).map gen ∧
    (hp.configure n gen complete).state.m_fbos.length = n + 1 ∧
    ∀ m, m ≤ n → (hp.configure n gen complete).state.m_fbos[m]? = some (gen m) := by
  have e : ((n : Int) + 1).toNat = n + 1 := by omega
  have h1 : (hp.configure n gen complete).state.m_fbos = (List.range (n + 1)).map gen := by
    show (List.range ((n : Int) + 1).toNat).map gen = _
    rw [e]
  refine ⟨h1, by rw [h1, List.length_map, List.length_range], ?_⟩
  intro m hm
  rw [h1, List.getElem?_map, List.getElem?_range (by omega)]
  rfl

theorem tdiv_pow_two (n : Nat) (hn : 1 ≤ n) : Int.tdiv ((2 : Int) ^ n) 2 = 2 ^ (n - 1) := by
  have e : (2 : Int) ^ n = 2 ^ (n - 1) * 2 := by
    rw [← pow_succ]
    congr 1
    omega
  rw [e]
  exact Int.mul_tdiv_cancel _ (by norm_num)

/-- Claim C26, counterexample: `configure( 31 )` computes `m_size = 1<<31` in
`int` arithmetic, which cannot hold `2^31`: the base size is `-2^31`, and the
first pass of the following build, which returns `true`, sets a viewport of
side `m_size/2 = -2^30` and not `2^30`. -/
theorem configure_size_counterexample :
    (0 : Int) ≤ 31 ∧
    (samplePyramid.configure 31 id (fun _ => true)).state.m_size = -2147483648 ∧
    (samplePyramid.configure 31 id (fun _ => true)).state.m_size ≠ 2 ^ 31 ∧
    ((samplePyramid.configure 31 id (fun _ => true)).state.build 0).value = true ∧
    (passesOf ((samplePyramid.configure 31 id (fun _ => true)).state.build 0).calls
        none 0 0).head? = some ⟨some 1, -1073741824, -1073741824⟩ := by
  decide

/-- Claim C26, amended: for every `size_l2` from 0 to 30, after
`configure( size_l2 )` the base size is `2^size_l2`, there are `size_l2 + 1`
framebuffers and framebuffer `m` has mip level `m` attached; a following
build that returns `true` performs exactly `size_l2` reduction passes, and
pass `m` (from 1 to `size_l2`) renders into framebuffer `m` with a square
viewport of side `2^(size_l2 - m)`. -/
theorem configure_build_passes (hp : HPMCHistoPyramid) (n : Nat) (hn : n ≤ 30)
    (gen : Nat → Nat) (complete : Nat → Bool) (tex_unit_a : Int)
    (fb : Option Nat) (w h : Int) :
    (hp.configure n gen complete).state.m_size_l2 = n ∧
    (hp.configure n gen complete).state.m_size = 2 ^ n ∧
    (hp.configure n gen complete).state.m_fbos.length = n + 1 ∧
    attachmentsOf (hp.configure n gen complete).calls fb =
      ((List.range (n + 1)).map fun m => (some (gen m), m)) ∧
    (((hp.configure n gen complete).state.build tex_unit_a).value = true →
      passesOf ((hp.configure n gen complete).state.build tex_unit_a).calls fb w h =
          ((List.range' 1 n).map fun m =>
            ⟨some (gen m), (2 : Int) ^ (n - m), (2 : Int) ^ (n - m)⟩) ∧
      (passesOf ((hp.configure n gen complete).state.build tex_unit_a).calls
        fb w h).length = n) := by
  obtain ⟨_, hlen, hget⟩ := configure_fbos hp n gen complete
  have hsize : (hp.configure n gen complete).state.m_size = 2 ^ n := shiftOne_eq n hn
  have hl2 : (hp.configure n gen complete).state.m_size_l2 = n := rfl
  have hpass : ((hp.configure n gen complete).state.build tex_unit_a).value = true →
      passesOf ((hp.configure n gen complete).state.build tex_unit_a).calls fb w h =
        ((List.range' 1 n).map fun m =>
          (⟨some (gen m), (2 : Int) ^ (n - m), (2 : Int) ^ (n - m)⟩ : RenderPass)) := by
    intro hok
    rw [build_passes _ tex_unit_a hok fb w h, hl2, hsize, Int.toNat_ofNat]
    have hupper : ((List.range' 2 (n - 1)).map fun (m : Nat) =>
          (⟨(hp.configure n gen complete).state.m_fbos[m]?, shiftOne ((n : Int) - m),
            shiftOne ((n : Int) - m)⟩ : RenderPass)) =
        (List.range' 2 (n - 1)).map fun m =>
          (⟨some (gen m), (2 : Int) ^ (n - m), (2 : Int) ^ (n - m)⟩ : RenderPass) := by
      apply List.map_congr_left
      intro m hm
      obtain ⟨hm1, hm2⟩ := List.mem_range'_1.1 hm
      have e : (n : Int) - (m : Int) = ((n - m : Nat) : Int) := by omega
      rw [hget m (by omega), e, shiftOne_eq (n - m) (by omega)]
    rw [hupper]
    rcases Nat.eq_zero_or_pos n with h0 | hpos
    · subst h0
      rfl
    · rw [if_pos (by omega), hget 1 (by omega), tdiv_pow_two n hpos]
      have hr : List.range' 1 n = 1 :: List.range' 2 (n - 1) := by
        have e : n = (n - 1) + 1 := by omega
        nth_rewrite 1 [e]
        rw [List.range'_succ]
      rw [hr, List.map_cons]
      rfl
  refine ⟨hl2, hsize, hlen, ?_, ?_⟩
  · rw [configure_attachments, hlen]
    apply List.map_congr_left
    intro m hm
    rw [hget m (by have := List.mem_range.1 hm; omega)]
  · intro hok
    refine ⟨hpass hok, ?_⟩
    rw [hpass hok, List.length_map, List.length_range']

/-- Witness for `configure_build_passes`: configured with `size_l2 = 2`, the
sample pyramid has base size 4 and its build renders into framebuffer 1 with
a 2 x 2 viewport and into framebuffer 2 with a 1 x 1 viewport. -/
theorem configure_build_passes_witness :
    (2 ≤ 30 ∧ ((samplePyramid.configure 2 id (fun _ => true)).state.build 0).value = true) ∧
    (samplePyramid.configure 2 id (fun _ => true)).state.m_size = 4 ∧
    passesOf ((samplePyramid.configure 2 id (fun _ => true)).state.build 0).calls none 0 0 =
      [⟨some 1, 2, 2⟩, ⟨some 2, 1, 1⟩] :=
  ⟨⟨by decide, by decide⟩,
    (configure_build_passes samplePyramid 2 (by decide) id (fun _ => true) 0 none 0 0).2.1,
    ((configure_build_passes samplePyramid 2 (by decide) id (fun _ => true) 0 none 0 0).2.2.2.2
      (by decide)).1⟩

/-! ## NULL handles -/

/-- On a handle that is not `NULL` the entry points do issue GL calls: with the
sample member functions `HPMCextractVertices` queries the program, draws and
resets the program. -/
theorem extractVertices_calls (th : HPMCIsoSurfaceRenderer) (gl : GLState) :
    (HPMCextractVertices (some th) true sampleMembers gl).calls =
        [GLCall.glGetIntegerv GLParam.GL_CURRENT_PROGRAM, GLCall.glUseProgram 9,
          GLCall.render, GLCall.glUseProgram gl.current_program] ∧
    (HPMCextractVertices (some th) true sampleMembers gl).value = true ∧
    (HPMCgetBuilderProgram (some th.m_handle) sampleMembers gl).calls =
        [GLCall.glGetError, GLCall.glGetError] :=
  ⟨rfl, rfl, rfl⟩

/-- Claim C21: given a `NULL` handle, every entry point of `PublicAPI.cpp`
returns its failure value (0 for `HPMCgetBuilderProgram` and
`HPMCacquireNumberOfVertices`, `NULL` for `HPMCcreateIsoSurfaceRenderer` and
`HPMCisoSurfaceRendererShaderSource`, `false` for
`HPMCsetIsoSurfaceRendererProgram` and the four `HPMCextractVertices*`
functions), issues no GL call and leaves the GL state as it is, whatever the
other arguments and the member functions behind a handle are. -/
theorem null_handle (m : Members) (gl : GLState)
    (untaint : GLState → Bool × GLState) (rendererCtor : GLState → GLState)
    (source : String) (program tex_unit_work1 tex_unit_work2 tex_unit_work3 : Nat)
    (flip_orientation : Bool) :
    HPMCgetBuilderProgram none m gl = { value := 0, calls := [], state := gl } ∧
    HPMCacquireNumberOfVertices none m gl = { value := 0, calls := [], state := gl } ∧
    HPMCcreateIsoSurfaceRenderer none untaint rendererCtor gl = (none, gl) ∧
    HPMCcreateIsoSurfaceRendererCalls none m gl = [] ∧
    HPMCdestroyIsoSurfaceRenderer none m gl = { value := (), calls := [], state := gl } ∧
    HPMCisoSurfaceRendererShaderSource none source untaint gl = (none, gl) ∧
    HPMCisoSurfaceRendererShaderSourceCalls none m gl = [] ∧
    HPMCsetIsoSurfaceRendererProgram none program tex_unit_work1 tex_unit_work2
        tex_unit_work3 m gl = { value := false, calls := [], state := gl } ∧
    HPMCextractVertices none flip_orientation m gl =
      { value := false, calls := [], state := gl } ∧
    HPMCextractVerticesTransformFeedback none flip_orientation m gl =
      { value := false, calls := [], state := gl } ∧
    HPMCextractVerticesTransformFeedbackNV none flip_orientation m gl =
      { value := false, calls := [], state := gl } ∧
    HPMCextractVerticesTransformFeedbackEXT none flip_orientation m gl =
      { value := false, calls := [], state := gl } :=
  ⟨rfl, rfl, rfl, rfl, rfl, rfl, rfl, rfl, rfl, rfl, rfl, rfl⟩

end glhpmc

namespace hpmc

/-! ## The case code permutation -/

set_option maxRecDepth 100000 in
theorem remapCode_four : ∀ c, c < 256 →
    remapCode (remapCode (remapCode (remapCode c))) = c := by
  decide

set_option maxRecDepth 100000 in
theorem remapCode_lt : ∀ c, c < 256 → remapCode c < 256 := by
  decide

set_option maxRecDepth 100000 in
theorem remapCode_bits : ∀ c, c < 256 → ∀ d, d < 8 →
    (remapCode c).testBit d = c.testBit (bitSource.getD d 0) := by
  decide

set_option maxRecDepth 100000 in
theorem remapCode_bitCount : ∀ c, c < 256 → bitCount (remapCode c) = bitCount c := by
  decide

theorem remapCode_injOn (a b : Nat) (ha : a < 256) (hb : b < 256)
    (h : remapCode a = remapCode b) : a = b := by
  rw [← remapCode_four a ha, ← remapCode_four b hb, h]

theorem remapCode_surjOn (c : Nat) (hc : c < 256) :
    ∃ a, a < 256 ∧ remapCode a = c :=
  ⟨remapCode (remapCode (remapCode c)),
    remapCode_lt _ (remapCode_lt _ (remapCode_lt c hc)), remapCode_four c hc⟩

/-- Claim C25: on the 8-bit codes `remapCode` is a permutation of `[0,256)`:
it maps the range into itself, is injective and surjective there, moves bit
`bitSource d` of the code to bit `d` (so the number of set bits is preserved,
0 goes to 0 and 255 to 255), and four applications give the identity. -/
theorem remapCode_permutation :
    Set.BijOn remapCode (Set.Iio 256) (Set.Iio 256) ∧
    bitSource.Perm (List.range 8) ∧
    (∀ c, c < 256 → ∀ d, d < 8 →
      (remapCode c).testBit d = c.testBit (bitSource.getD d 0)) ∧
    (∀ c, c < 256 → bitCount (remapCode c) = bitCount c) ∧
    remapCode 0 = 0 ∧ remapCode 255 = 255 ∧
    (∀ c, c < 256 → remapCode^[4] c = c) := by
  refine ⟨⟨?_, ?_, ?_⟩, by decide, remapCode_bits, remapCode_bitCount, by decide, by decide, ?_⟩
  · intro c hc
    exact remapCode_lt c hc
  · intro a ha b hb h
    exact remapCode_injOn a b ha hb h
  · intro c hc
    obtain ⟨a, ha, e⟩ := remapCode_surjOn c hc
    exact ⟨a, ha, e⟩
  · intro c hc
    exact remapCode_four c hc

/-! ## The vertex count table -/

theorem countLoop_spec (row : Nat → Int) (fuel count : Nat) :
    countLoop row fuel count =
      count + (((List.range' count fuel).map row).takeWhile (fun e => e != -1)).length := by
  induction fuel generalizing count with
  | zero => simp [countLoop]
  | succ fuel ih =>
    rw [countLoop, List.range'_succ, List.map_cons, List.takeWhile_cons]
    by_cases h : row count = -1
    · simp [h]
    · rw [if_neg h, ih]
      simp [h]
      omega

theorem countLoop_eq (row : Nat → Int) :
    countLoop row 16 0 = entriesBeforeTerminator row := by
  rw [countLoop_spec, Nat.zero_add, entriesBeforeTerminator, List.range_eq_range']

theorem tricountLoop_spec (table : Nat → Nat → Int) (k : Nat) (hk : k ≤ 256) :
    ((List.range k).foldl (tricountStep table) (List.replicate 256 0)).length = 256 ∧
    ∀ j, j < k →
      ((List.range k).foldl (tricountStep table) (List.replicate 256 0)).getD
        (remapCode j) 0 = countLoop (table j) 16 0 := by
  induction k with
  | zero =>
    exact ⟨by rw [List.range_zero, List.foldl_nil, List.length_replicate],
      fun j hj => absurd hj (Nat.not_lt_zero j)⟩
  | succ k ih =>
    obtain ⟨ih1, ih2⟩ := ih (by omega)
    rw [List.range_succ, List.foldl_append]
    simp only [List.foldl_cons, List.foldl_nil]
    refine ⟨?_, ?_⟩
    · rw [tricountStep, List.length_set, ih1]
    · intro j hj
      rw [tricountStep, cuhpmc.getD_set, ih1]
      by_cases e : j = k
      · subst e
        rw [if_pos ⟨rfl, remapCode_lt j (by omega)⟩]
      · rw [if_neg, ih2 j (by omega)]
        rintro ⟨h, _⟩
        exact e (remapCode_injOn k j (by omega) (by omega) h).symm

theorem assignedIndices_nodup : assignedIndices.Nodup := by
  unfold assignedIndices
  refine List.Nodup.map_on ?_ (List.nodup_range 256)
  intro a ha b hb h
  exact remapCode_injOn a b (List.mem_range.1 ha) (List.mem_range.1 hb) h

theorem assignedIndices_mem (k : Nat) (hk : k < 256) : k ∈ assignedIndices := by
  obtain ⟨a, ha, e⟩ := remapCode_surjOn k hk
  exact List.mem_map.2 ⟨a, List.mem_range.2 ha, e⟩

/-- Claim C22: for every triangle table, the vertex count table built by
`HPMCcreateConstants` has 256 entries, entry `remapCode j` holds the number of
entries of row `j` that precede the first `-1` (16 if there is none) for every
case code `j` below 256, and each of the 256 entries is assigned exactly once
by the loop. -/
theorem tricount_total (HPMC_triangle_table : Nat → Nat → Int) :
    (tricount HPMC_triangle_table).length = 256 ∧
    (∀ j, j < 256 →
      (tricount HPMC_triangle_table)[remapCode j]? =
        some (entriesBeforeTerminator (HPMC_triangle_table j))) ∧
    assignedIndices.length = 256 ∧
    (∀ k, k < 256 → assignedIndices.count k = 1) := by
  have hl : (tricount HPMC_triangle_table).length = 256 :=
    (tricountLoop_spec HPMC_triangle_table 256 le_rfl).1
  have hv : ∀ j, j < 256 → (tricount HPMC_triangle_table).getD (remapCode j) 0 =
      countLoop (HPMC_triangle_table j) 16 0 :=
    (tricountLoop_spec HPMC_triangle_table 256 le_rfl).2
  refine ⟨hl, ?_, by rw [assignedIndices, List.length_map, List.length_range], ?_⟩
  · intro j hj
    have h := cuhpmc.getElem?_of_getD (tricount HPMC_triangle_table) (remapCode j)
      (by rw [hl]; exact remapCode_lt j hj)
    rw [h]
    have h2 := hv j hj
    rw [countLoop_eq] at h2
    exact congrArg some h2
  · intro k hk
    exact List.count_eq_one_of_mem assignedIndices_nodup (assignedIndices_mem k hk)

/-- Claim C22 on a table whose row 5 is a two-triangle case: entry
`remapCode 5 = 33` of the vertex count table is 6. -/
theorem tricount_total_witness :
    (tricount (fun j => if j = 5 then sampleRow else fun _ => -1))[remapCode 5]? =
      some 6 :=
  (tricount_total (fun j => if j = 5 then sampleRow else fun _ => -1)).2.1 5 (by decide)

end hpmc
